import Mathlib

/-!
# Coverage backend for ELF objects (`pkg/cover/backend/elf.go`)

A shallow embedding of the ELF coverage backend and the properties of its
specification.  The last part of the definitions embeds the check of the
options and the final loop of `Write` of `pkg/csource/csource.go`.

Conventions of the embedding.

* A Go `uint64` is a `Nat`; every sum or difference the code computes in
  64 bits is reduced modulo `2^64` explicitly (`u64add`, `u64sub`).  A Go
  `int` is an `Int`.
* A Go `string` is a Lean `String`; `strings.HasPrefix` / `strings.HasSuffix`
  compare the character lists.  Go compares bytes; on UTF-8 text that is the
  same comparison, since the encoding of a text begins and ends at character
  boundaries.
* A Go `map[K]bool` is its lookup function `K → Bool` (a missing key reads
  `false`); `m[k] = true` is `mapSet m k`.
* A function returning `(value, error)` returns an `Except`; a function that
  also mutates `*symbolInfo` returns the new `symbolInfo` next to it.
* The parts of the standard library `debug/elf` that the backend calls are
  modelled by the record `elf.File`: the section list, the outcome of
  `File.Symbols()` and the outcome of `File.DWARF()`.
-/

/-! ## Machine arithmetic and strings -/

/-- Addition of two `uint64` values. -/
def u64add (a b : Nat) : Nat := (a + b) % 2 ^ 64

/-- Subtraction of two `uint64` values. -/
def u64sub (a b : Nat) : Nat := (a + 2 ^ 64 - b % 2 ^ 64) % 2 ^ 64

/-- Go `strings.HasPrefix(s, p)`. -/
def stringsHasPrefix (s p : String) : Bool := p.data.isPrefixOf s.data

/-- Go `strings.HasSuffix(s, p)`. -/
def stringsHasSuffix (s p : String) : Bool := p.data.isSuffixOf s.data

/-- Go `m[k] = true` on a `map[K]bool` seen as its lookup function. -/
def mapSet {K : Type} [DecidableEq K] (m : K → Bool) (k : K) : K → Bool :=
  fun j => if j = k then true else m j

/-- Go `io.EOF`. -/
def ioEOF : String := "EOF"

/-- Go `io.ErrUnexpectedEOF`. -/
def ioErrUnexpectedEOF : String := "unexpected EOF"

/-! ## The part of `debug/elf` the backend uses -/

namespace elf

/-- Symbol type `STT_NOTYPE`. -/
def STT_NOTYPE : Nat := 0

/-- Symbol type `STT_FUNC`. -/
def STT_FUNC : Nat := 2

/-- Section type `SHT_RELA`. -/
def SHT_RELA : Nat := 4

/-- Section flag `SHF_ALLOC`. -/
def SHF_ALLOC : Nat := 2

/-- Section flag `SHF_EXECINSTR`. -/
def SHF_EXECINSTR : Nat := 4

/-- Go `elf.SectionHeader` (the fields the backend reads). -/
structure SectionHeader where
  Name : String
  Typ : Nat
  Flags : Nat
  Addr : Nat
  Size : Nat
  Addralign : Nat
  deriving DecidableEq, Repr

/-- Go `elf.Section`: a header and the bytes that `Open()` streams. -/
structure Section extends SectionHeader where
  data : List UInt8
  deriving DecidableEq, Repr

/-- Go `elf.Symbol` (the fields the backend reads). -/
structure Symbol where
  Name : String
  Info : Nat
  Value : Nat
  Size : Nat
  deriving DecidableEq, Repr

/-- Go `elf.Rela64`. -/
structure Rela64 where
  Off : Nat
  Info : Nat
  Addend : Int
  deriving DecidableEq, Repr

/-- Go `elf.R_SYM64(info)`, that is `uint32(info >> 32)`. -/
def R_SYM64 (info : Nat) : Nat := (info >>> 32) % 2 ^ 32

end elf

namespace dwarf

/-- Modelled from the spec: the debug-info tree decoded by the external DWARF
reader, as compile units with their raw address ranges. -/
structure Data where
  units : List (String × List (Nat × Nat))
  deriving DecidableEq, Repr

end dwarf

namespace elf

/-- Go `elf.File` as the backend sees it: the sections in file order, what
`Symbols()` returns (the null symbol already omitted) and what `DWARF()`
returns. -/
structure File where
  Sections : List Section
  Symbols : Except String (List Symbol)
  DWARF : Except String dwarf.Data

/-- Go `(*File).Section(name)`: the first section of that name, or nil. -/
def File.Section (f : File) (name : String) : Option Section :=
  f.Sections.find? (fun s => s.Name == name)

/-- A value of Go `int64` from its 64-bit pattern. -/
def toInt64 (n : Nat) : Int :=
  if n % 2 ^ 64 < 2 ^ 63 then (n % 2 ^ 64 : Nat) else ((n % 2 ^ 64 : Nat) : Int) - 2 ^ 64

/-- A little-endian unsigned integer from its bytes. -/
def le (bs : List UInt8) : Nat := bs.foldr (fun b acc => b.toNat + 256 * acc) 0

/-- The `elf.Rela64` that `binary.Read` decodes from a buffer of 24 bytes:
three little-endian 64-bit fields. -/
def decodeRela64 (buf : List UInt8) : Rela64 :=
  { Off := le (buf.take 8),
    Info := le ((buf.drop 8).take 8),
    Addend := toInt64 (le ((buf.drop 16).take 8)) }

/-- Go `binary.Read(r, binary.LittleEndian, rel)` for `rel *elf.Rela64` on a
reader with the bytes `r` left: `io.EOF` when nothing is left,
`io.ErrUnexpectedEOF` when fewer than 24 bytes are left, otherwise the record
decoded from the next 24 bytes and the rest of the stream. -/
def binaryReadRela64 (r : List UInt8) : Except String (Rela64 × List UInt8) :=
  if r.length = 0 then .error ioEOF
  else if r.length < 24 then .error ioErrUnexpectedEOF
  else .ok (decodeRela64 (r.take 24), r.drop 24)

end elf

/-! ## The backend -/

namespace backend

/-- Modelled from the spec: the Module record (file path, name that is empty
for the primary kernel image, base load address). -/
structure Module where
  Path : String
  Name : String
  Addr : Nat
  deriving DecidableEq, Repr

/-- Modelled from the spec: the named-entity base shared by Symbol and
CompileUnit. -/
structure ObjectUnit where
  Name : String
  deriving DecidableEq, Repr

/-- Modelled from the spec: a Symbol, with the fields `elfReadSymbols` sets. -/
structure Symbol where
  ObjectUnit : ObjectUnit
  Module : Module
  Start : Nat
  End : Nat
  deriving DecidableEq, Repr

/-- Modelled from the spec: a CompileUnit. -/
structure CompileUnit where
  ObjectUnit : ObjectUnit
  Module : Module
  deriving DecidableEq, Repr

/-- Modelled from the spec: a pcRange. -/
structure pcRange where
  start : Nat
  stop : Nat
  deriving DecidableEq, Repr

/-- Modelled from the spec: the per-module scratch table symbolInfo. -/
structure symbolInfo where
  textAddr : Nat
  tracePCIdx : Int → Bool
  traceCmpIdx : Int → Bool
  tracePC : Nat → Bool
  traceCmp : Nat → Bool

/-- Modelled from the spec: one entry of the Architecture Table (the two
constants the relocation scanner reads). -/
structure Arch where
  relaOffset : Nat
  callRelocType : Nat
  deriving DecidableEq, Repr

/-- Modelled from the spec: the Target, identified by its architecture name. -/
structure Target where
  Arch : String
  deriving DecidableEq, Repr

/-- The outcome of `elf.Open(path)` for every path. -/
abbrev FS := String → Except String elf.File

/-- Go `pcFixFn`: a range goes to a range and a flag that is true when the
range is to be dropped. -/
abbrev pcFixFn := Nat × Nat → (Nat × Nat) × Bool

def TraceCbNone : Int := 0

def TraceCbPc : Int := 1

def TraceCbCmp : Int := 2

/-- Source: `getTraceCallbackType`. -/
def getTraceCallbackType (name : String) : Int :=
  if name = "__sanitizer_cov_trace_pc" ∨ name = "____sanitizer_cov_trace_pc_veneer" then
    TraceCbPc
  else if stringsHasPrefix name "__sanitizer_cov_trace_" ||
      (stringsHasPrefix name "____sanitizer_cov_trace_" && stringsHasSuffix name "_veneer") then
    TraceCbCmp
  else
    TraceCbNone

/-- The `switch getTraceCallbackType(symb.Name)` of `elfReadSymbols`, for the
entry at index `i`; `text` is the flag computed just before it. -/
def recordCallback (info : symbolInfo) (i : Nat) (symb : elf.Symbol) (text : Bool) :
    symbolInfo :=
  if getTraceCallbackType symb.Name = TraceCbPc then
    let info := { info with tracePCIdx := mapSet info.tracePCIdx (i : Int) }
    if text then { info with tracePC := mapSet info.tracePC symb.Value } else info
  else if getTraceCallbackType symb.Name = TraceCbCmp then
    let info := { info with traceCmpIdx := mapSet info.traceCmpIdx (i : Int) }
    if text then { info with traceCmp := mapSet info.traceCmp symb.Value } else info
  else
    info

/-- The flag `text` of the loop body of `elfReadSymbols`. -/
def symbInText (text : elf.Section) (symb : elf.Symbol) : Bool :=
  decide (symb.Value ≥ text.Addr ∧ u64add symb.Value symb.Size ≤ u64add text.Addr text.Size)

/-- The Symbol that the loop body of `elfReadSymbols` appends. -/
def mkSymbol (module : Module) (symb : elf.Symbol) : Symbol :=
  let start := u64add symb.Value module.Addr
  { Module := module,
    ObjectUnit := { Name := symb.Name },
    Start := start,
    End := u64add start symb.Size }

/-- The loop `for i, symb := range allSymbols` of `elfReadSymbols`, from index
`i` on, with the symbols appended so far and the current `symbolInfo`. -/
def readSymbolsLoop (module : Module) (text : elf.Section) :
    Nat → List elf.Symbol → List Symbol → symbolInfo → List Symbol × symbolInfo
  | _, [], symbols, info => (symbols, info)
  | i, symb :: rest, symbols, info =>
    if symb.Info &&& 0xf ≠ elf.STT_FUNC ∧ symb.Info &&& 0xf ≠ elf.STT_NOTYPE then
      readSymbolsLoop module text (i + 1) rest symbols info
    else
      let inText := symbInText text symb
      let symbols := if inText then symbols ++ [mkSymbol module symb] else symbols
      readSymbolsLoop module text (i + 1) rest symbols (recordCallback info i symb inText)

/-- Source: `elfReadSymbols`.  The second component is `*info` on return. -/
def elfReadSymbols (fs : FS) (module : Module) (info : symbolInfo) :
    Except String (List Symbol) × symbolInfo :=
  match fs module.Path with
  | .error err => (.error err, info)
  | .ok file =>
    match file.Section ".text" with
    | none => (.error "no .text section in the object file", info)
    | some text =>
      match file.Symbols with
      | .error err => (.error ("failed to read ELF symbols: " ++ err), info)
      | .ok allSymbols =>
        let info := if module.Name = "" then { info with textAddr := text.Addr } else info
        let res := readSymbolsLoop module text 0 allSymbols [] info
        (.ok res.1, res.2)

/-- The closure `pcFix` that `elfReadTextRanges` builds for a relocatable
image whose text section is `text`. -/
def pcFix (text : elf.Section) : pcFixFn := fun r =>
  if r.1 ≥ r.2 ∨ r.1 < text.Addr ∨ r.2 > u64add text.Addr text.Size then
    let r0 := u64add r.1 text.Addr
    let r1 := u64add r.2 text.Addr
    if r0 ≥ r1 ∨ r0 < text.Addr ∨ r1 > u64add text.Addr text.Size then
      ((r0, r1), true)
    else
      ((r0, r1), false)
  else
    (r, false)

/-- The value of the variable `pcFix` of `elfReadTextRanges` when it calls
`readTextRanges`: nil unless the file has a `.rela.text` section. -/
def elfPcFix (file : elf.File) (text : elf.Section) : Option pcFixFn :=
  if (file.Section ".rela.text").isSome then some (pcFix text) else none

/-- Source: `elfReadTextRanges`.  `readTextRanges` is the DWARF walker of the
generic engine, which is not part of this file of the backend. -/
def elfReadTextRanges (fs : FS)
    (readTextRanges : dwarf.Data → Module → Option pcFixFn →
      Except String (List pcRange × List CompileUnit))
    (module : Module) : Except String (List pcRange × List CompileUnit) :=
  match fs module.Path with
  | .error err => .error err
  | .ok file =>
    match file.Section ".text" with
    | none => .error "no .text section in the object file"
    | some text =>
      match file.DWARF with
      | .error err =>
        if module.Name ≠ "" then .ok ([], [])
        else .error ("failed to parse DWARF: " ++ err ++ " (set CONFIG_DEBUG_INFO=y on linux)")
      | .ok debugInfo => readTextRanges debugInfo module (elfPcFix file text)

/-- The address `pc` computed for a relocation record by
`elfReadModuleCoverPoints`: `module.Addr + rel.Off - relaOffset` in 64 bits. -/
def callSite (module : Module) (relaOffset : Nat) (rel : elf.Rela64) : Nat :=
  u64sub (u64add module.Addr rel.Off) relaOffset

/-- The index `int(elf.R_SYM64(rel.Info)) - 1` looked up in the index sets. -/
def symIndex (rel : elf.Rela64) : Int := (elf.R_SYM64 rel.Info : Int) - 1

/-- The body of the record loop of `elfReadModuleCoverPoints` after a record
has been read: what it appends to the two lists. -/
def addCoverPoint (arch : Arch) (module : Module) (info : symbolInfo) (rel : elf.Rela64)
    (pcs : List Nat × List Nat) : List Nat × List Nat :=
  if rel.Info &&& 0xffffffff ≠ arch.callRelocType then pcs
  else if info.tracePCIdx (symIndex rel) then
    (pcs.1 ++ [callSite module arch.relaOffset rel], pcs.2)
  else if info.traceCmpIdx (symIndex rel) then
    (pcs.1, pcs.2 ++ [callSite module arch.relaOffset rel])
  else pcs

/-- The loop `for r := s.Open(); ; { ... }` of `elfReadModuleCoverPoints` over
the bytes `r` still unread; each turn consumes 24 bytes, so `r.length + 1`
turns always suffice.  The result is the lists and the error, if any. -/
def relaLoop (arch : Arch) (module : Module) (info : symbolInfo) :
    Nat → List UInt8 → List Nat × List Nat → (List Nat × List Nat) × Option String
  | 0, _, pcs => (pcs, some "relaLoop: out of fuel")
  | fuel + 1, r, pcs =>
    match elf.binaryReadRela64 r with
    | .error err => if err = ioEOF then (pcs, none) else (pcs, some err)
    | .ok (rel, rest) => relaLoop arch module info fuel rest (addCoverPoint arch module info rel pcs)

/-- The loop `for _, s := range file.Sections` of `elfReadModuleCoverPoints`. -/
def coverPointsLoop (arch : Arch) (module : Module) (info : symbolInfo) :
    List elf.Section → List Nat × List Nat → (List Nat × List Nat) × Option String
  | [], pcs => (pcs, none)
  | s :: rest, pcs =>
    if s.Typ ≠ elf.SHT_RELA then coverPointsLoop arch module info rest pcs
    else
      match relaLoop arch module info (s.data.length + 1) s.data pcs with
      | (pcs, some err) => (pcs, some err)
      | (pcs, none) => coverPointsLoop arch module info rest pcs

/-- Source: `elfReadModuleCoverPoints`.  `arches` is the Architecture Table;
the result is the pair `pcs` and the error, if any. -/
def elfReadModuleCoverPoints (fs : FS) (arches : String → Arch) (target : Target)
    (module : Module) (info : symbolInfo) : (List Nat × List Nat) × Option String :=
  match fs module.Path with
  | .error err => (([], []), some err)
  | .ok file => coverPointsLoop (arches target.Arch) module info file.Sections ([], [])

/-! ## Reference descriptions used by the statements -/

/-- The entries of the symbol table for which `elfReadSymbols` is to produce a
Symbol: type `STT_FUNC` or `STT_NOTYPE`, and the range inside the window of
the text section, the sums taken in 64 bits. -/
def keepsSymbol (text : elf.Section) (e : elf.Symbol) : Bool :=
  decide ((e.Info &&& 0xf = elf.STT_FUNC ∨ e.Info &&& 0xf = elf.STT_NOTYPE) ∧
    e.Value ≥ text.Addr ∧ (e.Value + e.Size) % 2 ^ 64 ≤ (text.Addr + text.Size) % 2 ^ 64)

/-- The records of a relocation section whose length is a multiple of 24, in
stream order: record `k` is decoded from the bytes `24 * k` to `24 * k + 23`. -/
def relaRecords (data : List UInt8) : List elf.Rela64 :=
  (List.range (data.length / 24)).map (fun k => elf.decodeRela64 ((data.drop (24 * k)).take 24))

/-- The records of all sections of type `SHT_RELA` in a section list, in
section order and, within a section, in record order. -/
def sectionsRelaRecords (sections : List elf.Section) : List elf.Rela64 :=
  ((sections.filter (fun s => s.Typ = elf.SHT_RELA)).map (fun s => relaRecords s.data)).flatten

/-- The records that are to put an address on the trace-pc list: the low 32
bits of `Info` are the call relocation type and the symbol number minus one is
in `tracePCIdx`. -/
def isTracePCRecord (arch : Arch) (info : symbolInfo) (rel : elf.Rela64) : Bool :=
  decide (rel.Info % 2 ^ 32 = arch.callRelocType) &&
    info.tracePCIdx (((rel.Info / 2 ^ 32 % 2 ^ 32 : Nat) : Int) - 1)

/-- The records that are to put an address on the trace-cmp list: call-type
records whose index is not in `tracePCIdx` but is in `traceCmpIdx`. -/
def isTraceCmpRecord (arch : Arch) (info : symbolInfo) (rel : elf.Rela64) : Bool :=
  decide (rel.Info % 2 ^ 32 = arch.callRelocType) &&
    (!info.tracePCIdx (((rel.Info / 2 ^ 32 % 2 ^ 32 : Nat) : Int) - 1) &&
      info.traceCmpIdx (((rel.Info / 2 ^ 32 % 2 ^ 32 : Nat) : Int) - 1))

/-! ## Sample objects -/

/-- A `symbolInfo` with nothing recorded. -/
def emptyInfo : symbolInfo :=
  { textAddr := 0,
    tracePCIdx := fun _ => false,
    traceCmpIdx := fun _ => false,
    tracePC := fun _ => false,
    traceCmp := fun _ => false }

/-- The text section of a sample kernel image. -/
def kernelText : elf.Section :=
  { Name := ".text", Typ := 1, Flags := 6, Addr := 0xffffffff81000000, Size := 0x10000,
    Addralign := 4096, data := [] }

/-- The relocation section of the sample kernel image: a `R_X86_64_PLT32`
record at `0xffffffff81000205` for symbol number 1, one at
`0xffffffff81000215` for symbol number 3 and a `R_X86_64_PC32` record at
`0xffffffff81000225` for symbol number 1. -/
def kernelRelaText : elf.Section :=
  { Name := ".rela.text", Typ := 4, Flags := 0x40, Addr := 0, Size := 72, Addralign := 8,
    data := [0x05, 0x02, 0x00, 0x81, 0xff, 0xff, 0xff, 0xff, 4, 0, 0, 0, 1, 0, 0, 0,
             0xfc, 0xff, 0xff, 0xff, 0xff, 0xff, 0xff, 0xff,
             0x15, 0x02, 0x00, 0x81, 0xff, 0xff, 0xff, 0xff, 4, 0, 0, 0, 3, 0, 0, 0,
             0xfc, 0xff, 0xff, 0xff, 0xff, 0xff, 0xff, 0xff,
             0x25, 0x02, 0x00, 0x81, 0xff, 0xff, 0xff, 0xff, 2, 0, 0, 0, 1, 0, 0, 0,
             0xfc, 0xff, 0xff, 0xff, 0xff, 0xff, 0xff, 0xff] }

/-- The symbol table of the sample kernel image: two callbacks, one function,
a label of size 0 and a data object. -/
def kernelSymbols : List elf.Symbol :=
  [{ Name := "__sanitizer_cov_trace_pc", Info := 0x12, Value := 0xffffffff81000100,
     Size := 0x10 },
   { Name := "start_kernel", Info := 0x12, Value := 0xffffffff81000200, Size := 0x40 },
   { Name := "__sanitizer_cov_trace_cmp4", Info := 0x12, Value := 0xffffffff81000110,
     Size := 0x10 },
   { Name := "some_label", Info := 0x00, Value := 0xffffffff81000240, Size := 0 },
   { Name := "some_object", Info := 0x11, Value := 0xffffffff81000300, Size := 8 }]

/-- A sample kernel image. -/
def kernelFile : elf.File :=
  { Sections := [kernelText, kernelRelaText],
    Symbols := .ok kernelSymbols,
    DWARF := .error "no DWARF section" }

/-- The file system that holds the sample kernel image as `vmlinux`. -/
def kernelFS : FS := fun path =>
  if path = "vmlinux" then .ok kernelFile else .error "open: no such file or directory"

/-- The primary image as a Module. -/
def kernelModule : Module := { Path := "vmlinux", Name := "", Addr := 0 }

/-- A `symbolInfo` for the sample kernel image: entry 0 of its symbol table is
the trace-pc callback and entry 2 a trace-cmp callback. -/
def kernelInfo : symbolInfo :=
  { textAddr := 0xffffffff81000000,
    tracePCIdx := fun i => decide (i = 0),
    traceCmpIdx := fun i => decide (i = 2),
    tracePC := fun v => decide (v = 0xffffffff81000100),
    traceCmp := fun v => decide (v = 0xffffffff81000110) }

/-- An Architecture Table with the constants of amd64 for every name. -/
def sampleArches : String → Arch := fun _ => { relaOffset := 1, callRelocType := 4 }

/-- The text section of a sample loadable module: in a relocatable object
its address is 0. -/
def moduleText : elf.Section :=
  { Name := ".text", Typ := 1, Flags := 6, Addr := 0, Size := 0x100, Addralign := 16,
    data := [] }

/-- The symbol table of the sample loadable module: one function that ends
where the text section ends. -/
def moduleSymbols : List elf.Symbol :=
  [{ Name := "last_fn", Info := 0x12, Value := 0xf0, Size := 0x10 }]

/-- A sample loadable module. -/
def moduleFile : elf.File :=
  { Sections := [moduleText],
    Symbols := .ok moduleSymbols,
    DWARF := .error "no DWARF section" }

/-- The sample loadable module, loaded at `0xffffffffc0000000`. -/
def loadedModule : Module := { Path := "m.ko", Name := "m", Addr := 0xffffffffc0000000 }

/-- The same object with a base address so high that the end of the function
is past `2^64`. -/
def highModule : Module := { Path := "m.ko", Name := "m", Addr := 0xffffffffffffff08 }

/-- The file system that holds the sample loadable module as `m.ko`. -/
def moduleFS : FS := fun path =>
  if path = "m.ko" then .ok moduleFile else .error "open: no such file or directory"


/-! ## The module load offset -/

/-- Bitwise complement of a `uint64` value, Go `^x`. -/
def not64 (x : Nat) : Nat := 2 ^ 64 - 1 - x % 2 ^ 64

/-- Source: `SizeOfStructPltRecord`. -/
def SizeOfStructPltRecord : Nat := 12

/-- Source: `AlignOfStructPltRecord`. -/
def AlignOfStructPltRecord : Nat := 4

/-- Source: `L1CacheBytes`. -/
def L1CacheBytes : Nat := 32

/-- Source: the map `NrFtracePlts`. -/
def NrFtracePlts (isKernel61OrEarlier : Bool) : Nat := if isKernel61OrEarlier then 2 else 1

/-- Source: `alignUp`. -/
def alignUp (addr align : Nat) : Nat :=
  if align = 0 then addr
  else u64sub (u64add addr align) 1 &&& not64 (u64sub align 1)

/-- The constant `textFlagsMask` of `elfSimulateModuleLoad`. -/
def textFlagsMask : Nat := elf.SHF_ALLOC ||| elf.SHF_EXECINSTR

/-- The loop `for _, s := range sections` of `elfSimulateModuleLoad` with the
current value of `off`. -/
def simulateLoop (isArm64 isKernel61OrEarlier : Bool) : List elf.Section → Nat → Nat
  | [], _ => 0
  | s :: rest, off =>
    if s.Flags &&& textFlagsMask = textFlagsMask ∧ ¬ stringsHasPrefix s.Name ".init" = true ∧
        ¬ stringsHasPrefix s.Name ".exit" = true then
      let size := s.Size
      let addralign := s.Addralign
      let addralign1 := if isArm64 = true ∧ s.Name = ".plt" then L1CacheBytes else addralign
      let size1 := if isArm64 = true ∧ s.Name = ".plt" then SizeOfStructPltRecord else size
      let addralign2 :=
        if isArm64 = true ∧ s.Name = ".text.ftrace_trampoline" then AlignOfStructPltRecord
        else addralign1
      let size2 :=
        if isArm64 = true ∧ s.Name = ".text.ftrace_trampoline" then
          (NrFtracePlts isKernel61OrEarlier * SizeOfStructPltRecord) % 2 ^ 64
        else size1
      let off1 := alignUp off addralign2
      if s.Name = ".text" then off1
      else simulateLoop isArm64 isKernel61OrEarlier rest (u64add off1 size2)
    else simulateLoop isArm64 isKernel61OrEarlier rest off

/-- Source: `elfSimulateModuleLoad`. -/
def elfSimulateModuleLoad (_text : elf.Section) (sections : List elf.Section)
    (isArm64 isKernel61OrEarlier : Bool) : Nat :=
  simulateLoop isArm64 isKernel61OrEarlier sections 0

/-- Source: `elfGetModuleOffset`. -/
def elfGetModuleOffset (fs : FS) (isArm64 isKernel61OrEarlier : Bool) (path : String) : Nat :=
  match fs path with
  | .error _ => 0
  | .ok file =>
    match file.Section ".text" with
    | none => 0
    | some ts => elfSimulateModuleLoad ts file.Sections isArm64 isKernel61OrEarlier

/-! ## Reference layout of a module -/

/-- A section the loader keeps in the layout: it has both `SHF_ALLOC` and
`SHF_EXECINSTR` and its name begins neither with `.init` nor with `.exit`. -/
def refRetained (s : elf.Section) : Bool :=
  decide (s.Flags &&& elf.SHF_ALLOC ≠ 0) && decide (s.Flags &&& elf.SHF_EXECINSTR ≠ 0) &&
    !stringsHasPrefix s.Name ".init" && !stringsHasPrefix s.Name ".exit"

/-- The alignment of a retained section in the reference layout: that of the
header, except on ARM64 for `.plt` (32) and `.text.ftrace_trampoline` (4). -/
def refAlign (isArm64 : Bool) (s : elf.Section) : Nat :=
  if isArm64 = true ∧ s.Name = ".plt" then 32
  else if isArm64 = true ∧ s.Name = ".text.ftrace_trampoline" then 4
  else s.Addralign

/-- The size of a retained section in the reference layout: that of the
header, except on ARM64 for `.plt` (12) and `.text.ftrace_trampoline`
(12 times `NR_FTRACE_PLTS`, which is 2 when `isKernel61OrEarlier`, else 1). -/
def refSize (isArm64 isKernel61OrEarlier : Bool) (s : elf.Section) : Nat :=
  if isArm64 = true ∧ s.Name = ".plt" then 12
  else if isArm64 = true ∧ s.Name = ".text.ftrace_trampoline" then
    12 * (if isKernel61OrEarlier = true then 2 else 1)
  else s.Size

/-- The walk of the reference layout over the retained sections, with the
running offset: round the offset up to the alignment; at `.text` return it,
otherwise add the size and go on; 0 when the walk ends. -/
def refWalk (isArm64 isKernel61OrEarlier : Bool) : List elf.Section → Nat → Nat
  | [], _ => 0
  | s :: rest, off =>
    if s.Name = ".text" then alignUp off (refAlign isArm64 s)
    else refWalk isArm64 isKernel61OrEarlier rest
      ((alignUp off (refAlign isArm64 s) + refSize isArm64 isKernel61OrEarlier s) % 2 ^ 64)

/-- The reference layout: the walk over the retained sections in file order,
from offset 0. -/
def refLayout (sections : List elf.Section) (isArm64 isKernel61OrEarlier : Bool) : Nat :=
  refWalk isArm64 isKernel61OrEarlier (sections.filter refRetained) 0

/-- The sum of the sizes of the retained sections that precede the first
retained section named `.text`, or 0 when there is no such section. -/
def refSizesBeforeText (sections : List elf.Section) : Nat :=
  if (sections.filter refRetained).any (fun s => decide (s.Name = ".text")) then
    (((sections.filter refRetained).takeWhile (fun s => decide (s.Name ≠ ".text"))).map
      (fun s => s.Size)).sum
  else 0

/-- A section header with the given name, flags, size and alignment. -/
def mkSection (name : String) (flags size addralign : Nat) : elf.Section :=
  { Name := name, Typ := 1, Flags := flags, Addr := 0, Size := size, Addralign := addralign,
    data := [] }

/-- The section list of an ARM64 module: `.init.text`, the ftrace trampoline,
the PLT and `.text`, all allocatable and executable; `.text` has the alignment
`textAlign`. -/
def arm64Sections (textAlign : Nat) : List elf.Section :=
  [mkSection ".init.text" 6 0x200 4, mkSection ".text.ftrace_trampoline" 6 0x10 1,
   mkSection ".plt" 6 0x40 1, mkSection ".text" 6 0x1000 textAlign]

/-- An entry that the loop of `elfReadSymbols` classifies with the callback
type `cb`: its symbol type is `STT_FUNC` or `STT_NOTYPE` and its name has the
class `cb`. -/
def classifiedAs (cb : Int) (e : elf.Symbol) : Prop :=
  (e.Info &&& 0xf = elf.STT_FUNC ∨ e.Info &&& 0xf = elf.STT_NOTYPE) ∧
    getTraceCallbackType e.Name = cb

/-! ## More sample objects -/

/-- The file system in which every path opens as `file`. -/
def singleFS (file : elf.File) : FS := fun _ => .ok file

/-- A text section at the address `addr`, of size `0x100`. -/
def textAt (addr : Nat) : elf.Section :=
  { Name := ".text", Typ := 1, Flags := 6, Addr := addr, Size := 0x100, Addralign := 16,
    data := [] }

/-- A synthetic object: a text section at `textAddr` and one function symbol
`foo` of size `0x10` with the value `value`. -/
def syntheticFile (textAddr value : Nat) : elf.File :=
  { Sections := [textAt textAddr],
    Symbols := .ok [{ Name := "foo", Info := 0x12, Value := value, Size := 0x10 }],
    DWARF := .error "no DWARF section" }

/-- The synthetic object as a Module with base `0x1000`. -/
def syntheticModule : Module := { Path := "synthetic.o", Name := "synthetic", Addr := 0x1000 }

/-- The relocation record of the traced synthetic object: offset `0x14`, type
`R_X86_64_PLT32`, symbol number 2, addend -4. -/
def tracedRela : elf.Rela64 := { Off := 0x14, Info := 0x200000004, Addend := -4 }

/-- A synthetic object with the function `foo`, an undefined untyped symbol
for the trace-pc callback and one relocation record, at offset `0x14`, of the
call type, for that symbol. -/
def tracedFile : elf.File :=
  { Sections :=
      [textAt 0,
       { Name := ".rela.text", Typ := 4, Flags := 0x40, Addr := 0, Size := 24, Addralign := 8,
         data := [0x14, 0, 0, 0, 0, 0, 0, 0, 4, 0, 0, 0, 2, 0, 0, 0,
                  0xfc, 0xff, 0xff, 0xff, 0xff, 0xff, 0xff, 0xff] }],
    Symbols := .ok
      [{ Name := "foo", Info := 0x12, Value := 0x10, Size := 0x10 },
       { Name := "__sanitizer_cov_trace_pc", Info := 0x10, Value := 0, Size := 0 }],
    DWARF := .error "no DWARF section" }

/-- An object whose symbol table names the callbacks with entries of other
types: a data object and an indirect function. -/
def oddTypesFile : elf.File :=
  { Sections := [textAt 0],
    Symbols := .ok
      [{ Name := "__sanitizer_cov_trace_pc", Info := 0x11, Value := 0x10, Size := 8 },
       { Name := "__sanitizer_cov_trace_cmp1", Info := 0x1a, Value := 0x20, Size := 8 }],
    DWARF := .error "no DWARF section" }

/-- An object without a text section. -/
def noTextFile : elf.File :=
  { Sections := [], Symbols := .ok [], DWARF := .error "no DWARF section" }

/-- An object with a text section and an unreadable symbol table. -/
def noSymbolsFile : elf.File :=
  { Sections := [textAt 0], Symbols := .error "no symbol section",
    DWARF := .error "no DWARF section" }

/-- The running offsets of the reference walk stay below `2^64`: at every
retained section up to the first `.text`, rounding the offset up to the
alignment does not overflow, and before `.text` neither does adding the
size. -/
def refNoOverflow (isArm64 isKernel61OrEarlier : Bool) : List elf.Section → Nat → Bool
  | [], _ => true
  | s :: rest, off =>
    decide (off + refAlign isArm64 s - 1 < 2 ^ 64) &&
      (decide (s.Name = ".text") ||
        (decide (alignUp off (refAlign isArm64 s) + refSize isArm64 isKernel61OrEarlier s
            < 2 ^ 64) &&
          refNoOverflow isArm64 isKernel61OrEarlier rest
            (alignUp off (refAlign isArm64 s) + refSize isArm64 isKernel61OrEarlier s)))

/-- An object whose relocation section is cut in the middle of its second
record: 30 bytes. -/
def truncatedFile : elf.File :=
  { Sections :=
      [textAt 0,
       { Name := ".rela.text", Typ := 4, Flags := 0x40, Addr := 0, Size := 30, Addralign := 8,
         data := [0x14, 0, 0, 0, 0, 0, 0, 0, 4, 0, 0, 0, 2, 0, 0, 0,
                  0xfc, 0xff, 0xff, 0xff, 0xff, 0xff, 0xff, 0xff,
                  0x24, 0, 0, 0, 0, 0] }],
    Symbols := .ok
      [{ Name := "foo", Info := 0x12, Value := 0x10, Size := 0x10 },
       { Name := "__sanitizer_cov_trace_pc", Info := 0x10, Value := 0, Size := 0 }],
    DWARF := .error "no DWARF section" }

/-- An object with a trace-pc callback inside the text section and a second
entry of the same name whose range is not inside it. -/
def callbackFile : elf.File :=
  { Sections := [textAt 0],
    Symbols := .ok
      [{ Name := "__sanitizer_cov_trace_pc", Info := 0x12, Value := 0x40, Size := 0x10 },
       { Name := "__sanitizer_cov_trace_pc", Info := 0x10, Value := 0x200, Size := 0 },
       { Name := "__sanitizer_cov_trace_cmp8", Info := 0x12, Value := 0x50, Size := 0x10 }],
    DWARF := .error "no DWARF section" }

/-- An untyped entry named as the trace-pc callback, with the value `0x40` and
the range `[0x40, 0x1040)`. -/
def outsidePcEntry : elf.Symbol :=
  { Name := "__sanitizer_cov_trace_pc", Info := 0x10, Value := 0x40, Size := 0x1000 }

/-- An untyped entry named as a trace-cmp callback, with the value `0x80` and
the range `[0x80, 0x1080)`. -/
def outsideCmpEntry : elf.Symbol :=
  { Name := "__sanitizer_cov_trace_cmp8", Info := 0x10, Value := 0x80, Size := 0x1000 }

/-- The entries of the symbol table of `sameValueFile`: a trace-pc callback at
`0x40` inside the text section, an untyped entry of the same name and value
whose range leaves the text section, and the same pair for a trace-cmp
callback at `0x80`. -/
def sameValueSymbols : List elf.Symbol :=
  [{ Name := "__sanitizer_cov_trace_pc", Info := 0x12, Value := 0x40, Size := 0x10 },
   outsidePcEntry,
   { Name := "__sanitizer_cov_trace_cmp8", Info := 0x12, Value := 0x80, Size := 0x10 },
   outsideCmpEntry]

/-- An object in which a callback entry outside the text section has the value
of a callback entry of the same class inside it. -/
def sameValueFile : elf.File :=
  { Sections := [textAt 0], Symbols := .ok sameValueSymbols,
    DWARF := .error "no DWARF section" }

end backend

/-! ## The reproducer writer (`pkg/csource/csource.go`) -/

namespace csource

/-- Source: `Options`. -/
structure Options where
  Threaded : Bool
  Collide : Bool
  Repeat : Bool
  Procs : Int
  Sandbox : String
  Fault : Bool
  FaultCall : Int
  FaultNth : Int
  EnableTun : Bool
  UseTmpDir : Bool
  HandleSegv : Bool
  WaitRepeat : Bool
  Debug : Bool
  Repro : Bool
  deriving DecidableEq, Repr

/-- Source: `Options.Check`; `none` is the nil error. -/
def Options.Check (opts : Options) : Option String :=
  if !opts.Threaded && opts.Collide then
    some "Collide without Threaded"
  else if !opts.Repeat && decide (opts.Procs > 1) then
    some "Procs>1 without Repeat"
  else if decide (opts.Sandbox = "namespace") && !opts.UseTmpDir then
    some "Sandbox=namespace without UseTmpDir"
  else
    none

/-- Go `bytes.Replace(s, "\n\n\n", "\n\n", -1)`: every occurrence of three
newlines, found from left to right without overlap, becomes two newlines. -/
def replaceNewlines : List UInt8 → List UInt8
  | 10 :: 10 :: 10 :: rest => 10 :: 10 :: replaceNewlines rest
  | b :: rest => b :: replaceNewlines rest
  | [] => []

/-- The loop at the end of `Write` that removes duplicate new lines, with the
current `out1`; `none` when the fuel runs out before the loop breaks. -/
def removeNewlinesLoop : Nat → List UInt8 → Option (List UInt8)
  | 0, _ => none
  | fuel + 1, out1 =>
    if out1.length = (replaceNewlines out1).length then some out1
    else removeNewlinesLoop fuel (replaceNewlines out1)

/-- Source: `Write`.  `generate` stands for the part of `Write` between the
check of the options and the removal of duplicate new lines: it serializes
the program with the packages `prog` and `sys` and yields the text `out0` or
an error.  Each turn of the last loop shortens the text, so `out0.length + 1`
turns suffice. -/
def Write (generate : Options → Except String (List UInt8)) (opts : Options) :
    Except String (List UInt8) :=
  match opts.Check with
  | some err => .error ("csource: invalid opts: " ++ err)
  | none =>
    match generate opts with
    | .error err => .error err
    | .ok out0 =>
      match removeNewlinesLoop (out0.length + 1) out0 with
      | some out1 => .ok out1
      | none => .error "removeNewlinesLoop: out of fuel"

/-- Options that pass the check. -/
def validOptions : Options :=
  { Threaded := true, Collide := true, Repeat := true, Procs := 4, Sandbox := "namespace",
    Fault := false, FaultCall := 0, FaultNth := 0, EnableTun := false, UseTmpDir := true,
    HandleSegv := true, WaitRepeat := false, Debug := false, Repro := false }

end csource

namespace backend
/-! ## Lemmas on strings and on the classifier -/

theorem stringsHasPrefix_iff (s p : String) :
    stringsHasPrefix s p = true ↔ ∃ t, s.data = p.data ++ t := by
  unfold stringsHasPrefix
  rw [List.isPrefixOf_iff_prefix]
  constructor
  · rintro ⟨t, ht⟩; exact ⟨t, ht.symm⟩
  · rintro ⟨t, ht⟩; exact ⟨t, ht.symm⟩

theorem stringsHasSuffix_iff (s p : String) :
    stringsHasSuffix s p = true ↔ ∃ t, s.data = t ++ p.data := by
  unfold stringsHasSuffix
  rw [List.isSuffixOf_iff_suffix]
  constructor
  · rintro ⟨t, ht⟩; exact ⟨t, ht.symm⟩
  · rintro ⟨t, ht⟩; exact ⟨t, ht.symm⟩

/-- A name with the veneer prefix does not have the direct prefix. -/
theorem not_direct_of_veneer (name : String)
    (h : stringsHasPrefix name "____sanitizer_cov_trace_" = true) :
    stringsHasPrefix name "__sanitizer_cov_trace_" = false := by
  by_contra hc
  rw [Bool.not_eq_false] at hc
  unfold stringsHasPrefix at h hc
  rw [List.isPrefixOf_iff_prefix] at h hc
  have hp := List.prefix_of_prefix_length_le hc h (by decide)
  rw [← List.isPrefixOf_iff_prefix] at hp
  revert hp
  decide

/-- The classifier as a cascade of propositions. -/
theorem getTraceCallbackType_values (name : String) :
    getTraceCallbackType name =
      if name = "__sanitizer_cov_trace_pc" ∨ name = "____sanitizer_cov_trace_pc_veneer" then
        TraceCbPc
      else if stringsHasPrefix name "__sanitizer_cov_trace_" = true ∨
          (stringsHasPrefix name "____sanitizer_cov_trace_" = true ∧
            stringsHasSuffix name "_veneer" = true) then
        TraceCbCmp
      else TraceCbNone := by
  unfold getTraceCallbackType
  simp only [Bool.or_eq_true, Bool.and_eq_true]

/-- A name that is not a trace-pc name and matches the trace-cmp test is
classified trace-cmp. -/
theorem cmp_of_match (name : String)
    (hpc : name ≠ "__sanitizer_cov_trace_pc")
    (hpcv : name ≠ "____sanitizer_cov_trace_pc_veneer")
    (h : stringsHasPrefix name "__sanitizer_cov_trace_" = true ∨
      (stringsHasPrefix name "____sanitizer_cov_trace_" = true ∧
        stringsHasSuffix name "_veneer" = true)) :
    getTraceCallbackType name = TraceCbCmp := by
  rw [getTraceCallbackType_values, if_neg (by rintro (h | h); exacts [hpc h, hpcv h]), if_pos h]

/-- The names classified as neither callback. -/
theorem none_iff_no_match (name : String) :
    getTraceCallbackType name = TraceCbNone ↔
      (name ≠ "__sanitizer_cov_trace_pc" ∧ name ≠ "____sanitizer_cov_trace_pc_veneer" ∧
        stringsHasPrefix name "__sanitizer_cov_trace_" = false ∧
        ¬ (stringsHasPrefix name "____sanitizer_cov_trace_" = true ∧
            stringsHasSuffix name "_veneer" = true)) := by
  rw [getTraceCallbackType_values]
  split_ifs with h1 h2
  · simp only [TraceCbPc, TraceCbNone]
    constructor
    · intro h; exact absurd h (by decide)
    · rintro ⟨a, b, -⟩; rcases h1 with h1 | h1
      · exact absurd h1 a
      · exact absurd h1 b
  · simp only [TraceCbCmp, TraceCbNone]
    constructor
    · intro h; exact absurd h (by decide)
    · rintro ⟨-, -, c, d⟩; rcases h2 with h2 | h2
      · rw [c] at h2; exact absurd h2 (by decide)
      · exact absurd h2 d
  · constructor
    · intro _
      refine ⟨fun h => h1 (Or.inl h), fun h => h1 (Or.inr h), ?_, fun h => h2 (Or.inr h)⟩
      cases hb : stringsHasPrefix name "__sanitizer_cov_trace_"
      · rfl
      · exact absurd (Or.inl hb) h2
    · intro _; rfl

/-! ## Lemmas on `elfReadSymbols` -/

theorem readSymbolsLoop_fst (module : Module) (text : elf.Section) (l : List elf.Symbol) :
    ∀ (i : Nat) (acc : List Symbol) (info : symbolInfo),
      (readSymbolsLoop module text i l acc info).1 =
        acc ++ (l.filter (keepsSymbol text)).map (mkSymbol module) := by
  induction l with
  | nil => intro i acc info; simp [readSymbolsLoop]
  | cons e rest ih =>
    intro i acc info
    rw [readSymbolsLoop]
    split_ifs with hty
    · rw [ih]
      have : keepsSymbol text e = false := by
        simp only [keepsSymbol, decide_eq_false_iff_not]
        rintro ⟨h | h, -⟩
        · exact hty.1 h
        · exact hty.2 h
      rw [List.filter_cons_of_neg (by simp [this])]
    · simp only []
      rw [ih]
      have hty2 : e.Info &&& 0xf = elf.STT_FUNC ∨ e.Info &&& 0xf = elf.STT_NOTYPE := by
        by_contra hc
        push_neg at hc
        exact hty hc
      by_cases hin : symbInText text e = true
      · have : keepsSymbol text e = true := by
          simp only [keepsSymbol, decide_eq_true_eq]
          simp only [symbInText, u64add, decide_eq_true_eq] at hin
          exact ⟨hty2, hin⟩
        rw [List.filter_cons_of_pos this, if_pos hin]
        simp
      · have : keepsSymbol text e = false := by
          simp only [keepsSymbol, decide_eq_false_iff_not]
          simp only [symbInText, u64add, decide_eq_true_eq] at hin
          rintro ⟨-, h⟩
          exact hin h
        rw [List.filter_cons_of_neg (by simp [this]), if_neg hin]

/-- When the file opens, has a text section and a readable symbol table,
`elfReadSymbols` succeeds with the Symbols of the kept entries. -/
theorem elfReadSymbols_fst_of_ok (fs : FS) (module : Module) (info : symbolInfo)
    (file : elf.File) (text : elf.Section) (allSymbols : List elf.Symbol)
    (hopen : fs module.Path = .ok file) (htext : file.Section ".text" = some text)
    (hsyms : file.Symbols = .ok allSymbols) :
    (elfReadSymbols fs module info).1 =
      .ok ((allSymbols.filter (keepsSymbol text)).map (mkSymbol module)) := by
  unfold elfReadSymbols
  rw [hopen]; simp only []
  rw [htext]; simp only []
  rw [hsyms]; simp only []
  rw [readSymbolsLoop_fst]
  simp

/-- A successful `elfReadSymbols` has opened the file, found a text section
and read the symbol table. -/
theorem elfReadSymbols_ok_inv (fs : FS) (module : Module) (info : symbolInfo)
    (symbols : List Symbol) (h : (elfReadSymbols fs module info).1 = .ok symbols) :
    ∃ file text allSymbols, fs module.Path = .ok file ∧ file.Section ".text" = some text ∧
      file.Symbols = .ok allSymbols := by
  unfold elfReadSymbols at h
  cases hopen : fs module.Path with
  | error err => rw [hopen] at h; simp at h
  | ok file =>
    cases htext : file.Section ".text" with
    | none => rw [hopen] at h; simp only [] at h; rw [htext] at h; simp at h
    | some text =>
      cases hsyms : file.Symbols with
      | error err =>
        rw [hopen] at h; simp only [] at h; rw [htext] at h; simp only [] at h
        rw [hsyms] at h; simp at h
      | ok allSymbols => exact ⟨file, text, allSymbols, rfl, htext, hsyms⟩

/-- Every Symbol of a successful `elfReadSymbols` is built from a kept entry. -/
theorem elfReadSymbols_mem (fs : FS) (module : Module) (info : symbolInfo)
    (file : elf.File) (text : elf.Section) (allSymbols : List elf.Symbol)
    (hopen : fs module.Path = .ok file) (htext : file.Section ".text" = some text)
    (hsyms : file.Symbols = .ok allSymbols) :
    ∃ symbols, (elfReadSymbols fs module info).1 = .ok symbols ∧
      ∀ S ∈ symbols, ∃ e ∈ allSymbols, keepsSymbol text e = true ∧ S = mkSymbol module e := by
  refine ⟨_, elfReadSymbols_fst_of_ok fs module info file text allSymbols hopen htext hsyms, ?_⟩
  intro S hS
  rw [List.mem_map] at hS
  obtain ⟨e, he, rfl⟩ := hS
  rw [List.mem_filter] at he
  exact ⟨e, he.1, he.2, rfl⟩

/-! ## Lemmas on `elfReadModuleCoverPoints` -/

theorem relaRecords_nil (data : List UInt8) (h : data.length = 0) : relaRecords data = [] := by
  simp [relaRecords, h]

theorem relaRecords_step (data : List UInt8) (n : Nat) (h : data.length = 24 * (n + 1)) :
    relaRecords data = elf.decodeRela64 (data.take 24) :: relaRecords (data.drop 24) := by
  unfold relaRecords
  have h1 : data.length / 24 = n + 1 := by omega
  have h2 : (data.drop 24).length / 24 = n := by rw [List.length_drop]; omega
  rw [h1, h2, List.range_succ_eq_map, List.map_cons, List.map_map]
  simp only [Nat.mul_zero, List.drop_zero, List.cons.injEq, true_and]
  apply List.map_congr_left
  intro k _
  simp only [Function.comp, List.drop_drop]
  have : 24 * k.succ = 24 + 24 * k := by omega
  rw [this]

/-- The 64-bit value `module.Addr + rel.Off - relaOffset` is the integer
expression reduced modulo `2^64`. -/
theorem callSite_eq (module : Module) (relaOffset : Nat) (rel : elf.Rela64) :
    callSite module relaOffset rel =
      (((module.Addr : Int) + rel.Off - relaOffset) % 2 ^ 64).toNat := by
  unfold callSite u64sub u64add
  omega

theorem low32_eq (x : Nat) : x &&& 0xffffffff = x % 2 ^ 32 :=
  Nat.and_pow_two_sub_one_eq_mod x 32

theorem symIndex_eq (rel : elf.Rela64) :
    symIndex rel = ((rel.Info / 2 ^ 32 % 2 ^ 32 : Nat) : Int) - 1 := by
  unfold symIndex elf.R_SYM64
  rw [Nat.shiftRight_eq_div_pow]

theorem addCoverPoint_eq (arch : Arch) (module : Module) (info : symbolInfo)
    (rel : elf.Rela64) (pcs : List Nat × List Nat) :
    addCoverPoint arch module info rel pcs =
      (pcs.1 ++ ([rel].filter (isTracePCRecord arch info)).map (callSite module arch.relaOffset),
       pcs.2 ++ ([rel].filter (isTraceCmpRecord arch info)).map (callSite module arch.relaOffset)) := by
  unfold addCoverPoint isTracePCRecord isTraceCmpRecord
  rw [low32_eq, symIndex_eq]
  simp only [List.filter_cons, List.filter_nil]
  generalize (((rel.Info / 2 ^ 32 % 2 ^ 32 : Nat) : Int) - 1) = idx
  generalize rel.Info % 2 ^ 32 = ty
  by_cases h1 : ty = arch.callRelocType <;> cases h2 : info.tracePCIdx idx <;>
    cases h3 : info.traceCmpIdx idx <;> simp [h1, h2, h3]

theorem foldl_addCoverPoint (arch : Arch) (module : Module) (info : symbolInfo)
    (recs : List elf.Rela64) :
    ∀ pcs : List Nat × List Nat,
      recs.foldl (fun acc rel => addCoverPoint arch module info rel acc) pcs =
        (pcs.1 ++ (recs.filter (isTracePCRecord arch info)).map (callSite module arch.relaOffset),
         pcs.2 ++ (recs.filter (isTraceCmpRecord arch info)).map
           (callSite module arch.relaOffset)) := by
  induction recs with
  | nil => intro pcs; simp
  | cons rel rest ih =>
    intro pcs
    rw [List.foldl_cons, ih, addCoverPoint_eq]
    have e1 : ∀ p : elf.Rela64 → Bool, (rel :: rest).filter p = [rel].filter p ++ rest.filter p := by
      intro p
      rw [← List.filter_append]; rfl
    rw [e1, e1]
    simp only [List.map_append, List.append_assoc]

/-- On a stream of `24 * n` bytes the record loop ends without an error after
`n` records, whatever fuel above `n` it is given. -/
theorem relaLoop_clean (arch : Arch) (module : Module) (info : symbolInfo) :
    ∀ (n : Nat) (fuel : Nat) (r : List UInt8) (pcs : List Nat × List Nat),
      r.length = 24 * n → n < fuel →
      relaLoop arch module info fuel r pcs =
        ((relaRecords r).foldl (fun acc rel => addCoverPoint arch module info rel acc) pcs,
          none) := by
  intro n
  induction n with
  | zero =>
    intro fuel r pcs hlen hfuel
    obtain ⟨f, rfl⟩ : ∃ f, fuel = f + 1 := ⟨fuel - 1, by omega⟩
    have h0 : r.length = 0 := by omega
    rw [relaLoop, relaRecords_nil r h0]
    simp [elf.binaryReadRela64, h0]
  | succ n ih =>
    intro fuel r pcs hlen hfuel
    obtain ⟨f, rfl⟩ : ∃ f, fuel = f + 1 := ⟨fuel - 1, by omega⟩
    rw [relaLoop, relaRecords_step r n hlen]
    have h1 : ¬ r.length = 0 := by omega
    have h2 : ¬ r.length < 24 := by omega
    simp only [elf.binaryReadRela64, h1, h2, if_false, List.foldl_cons]
    exact ih f (r.drop 24) _ (by rw [List.length_drop]; omega) (by omega)

theorem coverPointsLoop_clean (arch : Arch) (module : Module) (info : symbolInfo)
    (sections : List elf.Section) :
    (∀ s ∈ sections, s.Typ = elf.SHT_RELA → s.data.length % 24 = 0) →
    ∀ pcs : List Nat × List Nat,
      coverPointsLoop arch module info sections pcs =
        ((sectionsRelaRecords sections).foldl
          (fun acc rel => addCoverPoint arch module info rel acc) pcs, none) := by
  induction sections with
  | nil => intro _ pcs; simp [coverPointsLoop, sectionsRelaRecords]
  | cons s rest ih =>
    intro hclean pcs
    have hrest := ih (fun t ht => hclean t (List.mem_cons_of_mem _ ht))
    rw [coverPointsLoop]
    split_ifs with hty
    · rw [hrest]
      simp [sectionsRelaRecords, hty]
    · have hty2 : s.Typ = elf.SHT_RELA := by
        by_contra hc; exact hty hc
      have hlen := hclean s (List.mem_cons_self _ _) hty2
      rw [relaLoop_clean arch module info (s.data.length / 24) _ s.data pcs (by omega) (by omega)]
      simp only []
      rw [hrest]
      simp [sectionsRelaRecords, hty2, List.foldl_append]

/-- The two lists of a clean scan, in terms of the reference descriptions. -/
theorem elfReadModuleCoverPoints_of_clean (fs : FS) (arches : String → Arch) (target : Target)
    (module : Module) (info : symbolInfo) (file : elf.File)
    (hopen : fs module.Path = .ok file)
    (hclean : ∀ s ∈ file.Sections, s.Typ = elf.SHT_RELA → s.data.length % 24 = 0) :
    elfReadModuleCoverPoints fs arches target module info =
      ((((sectionsRelaRecords file.Sections).filter
            (isTracePCRecord (arches target.Arch) info)).map
          (callSite module (arches target.Arch).relaOffset),
        ((sectionsRelaRecords file.Sections).filter
            (isTraceCmpRecord (arches target.Arch) info)).map
          (callSite module (arches target.Arch).relaOffset)), none) := by
  unfold elfReadModuleCoverPoints
  rw [hopen]; simp only []
  rw [coverPointsLoop_clean _ _ _ _ hclean, foldl_addCoverPoint]
  simp only [List.nil_append]

/-! ## Lemmas on the range fix-up -/

/-- The fix-up in terms of the validity of the range and of the shifted
range. -/
theorem pcFix_eq (text : elf.Section) (s e : Nat) :
    pcFix text (s, e) =
      if s < e ∧ text.Addr ≤ s ∧ e ≤ (text.Addr + text.Size) % 2 ^ 64 then ((s, e), false)
      else (((s + text.Addr) % 2 ^ 64, (e + text.Addr) % 2 ^ 64),
        !decide ((s + text.Addr) % 2 ^ 64 < (e + text.Addr) % 2 ^ 64 ∧
          text.Addr ≤ (s + text.Addr) % 2 ^ 64 ∧
          (e + text.Addr) % 2 ^ 64 ≤ (text.Addr + text.Size) % 2 ^ 64)) := by
  unfold pcFix u64add
  simp only []
  by_cases h1 : s < e ∧ text.Addr ≤ s ∧ e ≤ (text.Addr + text.Size) % 2 ^ 64
  · rw [if_pos h1, if_neg (by omega)]
  · rw [if_neg h1, if_pos (by omega)]
    by_cases h2 : (s + text.Addr) % 2 ^ 64 < (e + text.Addr) % 2 ^ 64 ∧
          text.Addr ≤ (s + text.Addr) % 2 ^ 64 ∧
          (e + text.Addr) % 2 ^ 64 ≤ (text.Addr + text.Size) % 2 ^ 64
    · rw [if_neg (by omega), decide_eq_true h2]; rfl
    · rw [if_pos (by omega), decide_eq_false h2]; rfl

theorem elfPcFix_some (file : elf.File) (text : elf.Section) (fix : pcFixFn)
    (h : elfPcFix file text = some fix) : fix = pcFix text := by
  unfold elfPcFix at h
  split_ifs at h
  exact (Option.some.inj h).symm

/-! ## The relocation scanner -/

/-- Claim C1.  When the file opens and every section of type `SHT_RELA` has a
length that is a multiple of the 24-byte record size (it decodes cleanly),
`elfReadModuleCoverPoints` returns no error and exactly two lists, in section
order and record order: list 0 holds `module.Addr + rel.Off - relaOffset`
modulo `2^64` for every record whose low 32 bits of `Info` are `callRelocType`
and whose symbol number minus one is in `tracePCIdx`; list 1 holds the same
address for every such record whose index is not in `tracePCIdx` but is in
`traceCmpIdx`.  So every emitted address comes from a record of a `SHT_RELA`
section whose relocation type is `callRelocType`. -/
theorem elfReadModuleCoverPoints_clean (fs : FS) (arches : String → Arch) (target : Target)
    (module : Module) (info : symbolInfo) (file : elf.File)
    (hopen : fs module.Path = .ok file)
    (hclean : ∀ s ∈ file.Sections, s.Typ = elf.SHT_RELA → s.data.length % 24 = 0) :
    elfReadModuleCoverPoints fs arches target module info =
      ((((sectionsRelaRecords file.Sections).filter (fun rel =>
            decide (rel.Info % 2 ^ 32 = (arches target.Arch).callRelocType) &&
              info.tracePCIdx (((rel.Info / 2 ^ 32 % 2 ^ 32 : Nat) : Int) - 1))).map
          (fun rel =>
            (((module.Addr : Int) + rel.Off - (arches target.Arch).relaOffset) % 2 ^ 64).toNat),
        ((sectionsRelaRecords file.Sections).filter (fun rel =>
            decide (rel.Info % 2 ^ 32 = (arches target.Arch).callRelocType) &&
              (!info.tracePCIdx (((rel.Info / 2 ^ 32 % 2 ^ 32 : Nat) : Int) - 1) &&
                info.traceCmpIdx (((rel.Info / 2 ^ 32 % 2 ^ 32 : Nat) : Int) - 1)))).map
          (fun rel =>
            (((module.Addr : Int) + rel.Off - (arches target.Arch).relaOffset) % 2 ^ 64).toNat)),
        none) ∧
    ∀ pc ∈ (elfReadModuleCoverPoints fs arches target module info).1.1 ++
        (elfReadModuleCoverPoints fs arches target module info).1.2,
      ∃ s ∈ file.Sections, s.Typ = elf.SHT_RELA ∧ ∃ rel ∈ relaRecords s.data,
        rel.Info % 2 ^ 32 = (arches target.Arch).callRelocType ∧
        pc = (((module.Addr : Int) + rel.Off - (arches target.Arch).relaOffset) % 2 ^ 64).toNat := by
  have hsite : callSite module (arches target.Arch).relaOffset = fun rel =>
      (((module.Addr : Int) + rel.Off - (arches target.Arch).relaOffset) % 2 ^ 64).toNat :=
    funext fun rel => callSite_eq module _ rel
  have hmain := elfReadModuleCoverPoints_of_clean fs arches target module info file hopen hclean
  rw [hsite] at hmain
  refine ⟨hmain, ?_⟩
  intro pc hpc
  rw [hmain] at hpc
  have hrec : ∃ rel ∈ sectionsRelaRecords file.Sections,
      rel.Info % 2 ^ 32 = (arches target.Arch).callRelocType ∧
      pc = (((module.Addr : Int) + rel.Off - (arches target.Arch).relaOffset) % 2 ^ 64).toNat := by
    rcases List.mem_append.1 hpc with h | h
    · obtain ⟨rel, hrel, rfl⟩ := List.mem_map.1 h
      obtain ⟨hmem, hp⟩ := List.mem_filter.1 hrel
      simp only [isTracePCRecord, Bool.and_eq_true, decide_eq_true_eq] at hp
      exact ⟨rel, hmem, hp.1, rfl⟩
    · obtain ⟨rel, hrel, rfl⟩ := List.mem_map.1 h
      obtain ⟨hmem, hp⟩ := List.mem_filter.1 hrel
      simp only [isTraceCmpRecord, Bool.and_eq_true, decide_eq_true_eq] at hp
      exact ⟨rel, hmem, hp.1, rfl⟩
  obtain ⟨rel, hmem, hty, hpceq⟩ := hrec
  unfold sectionsRelaRecords at hmem
  obtain ⟨l, hl, hrel⟩ := List.mem_flatten.1 hmem
  obtain ⟨s, hs, rfl⟩ := List.mem_map.1 hl
  obtain ⟨hsmem, hsty⟩ := List.mem_filter.1 hs
  exact ⟨s, hsmem, by simpa using hsty, rel, hrel, hty, hpceq⟩

/-- Claim C1, at the sample kernel image: the record of the call type for the
trace-pc callback and the one for the trace-cmp callback give one address
each, the record of another type gives none. -/
theorem elfReadModuleCoverPoints_clean_witness :
    elfReadModuleCoverPoints kernelFS sampleArches { Arch := "amd64" } kernelModule kernelInfo =
      (([0xffffffff81000204], [0xffffffff81000214]), none) :=
  (elfReadModuleCoverPoints_clean kernelFS sampleArches { Arch := "amd64" } kernelModule
    kernelInfo kernelFile rfl (by decide)).1.trans (by rfl)

/-! ## The symbols -/

/-- Claim C2.  `elfReadSymbols` succeeds with the list `symbols` exactly when
the file opens, has a text section and a readable symbol table, and `symbols`
is, in symbol-table order, one Symbol per entry whose type `Info & 0xf` is
`STT_FUNC` or `STT_NOTYPE` and whose range satisfies `Value >= text.Addr` and
`Value + Size <= text.Addr + text.Size`; that Symbol has the name of the entry,
the given Module, `Start = module.Addr + Value` and `End = Start + Size`.  The
sums are those of the code, in 64 bits. -/
theorem elfReadSymbols_symbols (fs : FS) (module : Module) (info : symbolInfo)
    (symbols : List Symbol) :
    (elfReadSymbols fs module info).1 = .ok symbols ↔
      ∃ file text allSymbols, fs module.Path = .ok file ∧
        file.Section ".text" = some text ∧ file.Symbols = .ok allSymbols ∧
        symbols = (allSymbols.filter (fun e =>
            decide ((e.Info &&& 0xf = elf.STT_FUNC ∨ e.Info &&& 0xf = elf.STT_NOTYPE) ∧
              e.Value ≥ text.Addr ∧
              (e.Value + e.Size) % 2 ^ 64 ≤ (text.Addr + text.Size) % 2 ^ 64))).map
          (fun e =>
            { ObjectUnit := { Name := e.Name },
              Module := module,
              Start := (module.Addr + e.Value) % 2 ^ 64,
              End := ((module.Addr + e.Value) % 2 ^ 64 + e.Size) % 2 ^ 64 }) := by
  have hmk : mkSymbol module = fun e : elf.Symbol =>
      ({ ObjectUnit := { Name := e.Name },
         Module := module,
         Start := (module.Addr + e.Value) % 2 ^ 64,
         End := ((module.Addr + e.Value) % 2 ^ 64 + e.Size) % 2 ^ 64 } : Symbol) := by
    funext e
    simp only [mkSymbol, u64add, Nat.add_comm e.Value module.Addr]
  constructor
  · intro h
    obtain ⟨file, text, allSymbols, hopen, htext, hsyms⟩ :=
      elfReadSymbols_ok_inv fs module info symbols h
    refine ⟨file, text, allSymbols, hopen, htext, hsyms, ?_⟩
    rw [elfReadSymbols_fst_of_ok fs module info file text allSymbols hopen htext hsyms] at h
    rw [← Except.ok.inj h, hmk]
    rfl
  · rintro ⟨file, text, allSymbols, hopen, htext, hsyms, rfl⟩
    rw [elfReadSymbols_fst_of_ok fs module info file text allSymbols hopen htext hsyms, hmk]
    rfl

/-! ## The classifier -/

/-- Claim C3.  `getTraceCallbackType` returns `TraceCbPc` for the name
`__sanitizer_cov_trace_pc`, for its veneer alias
`____sanitizer_cov_trace_pc_veneer`, and for no other name. -/
theorem getTraceCallbackType_pc_iff (name : String) :
    getTraceCallbackType name = TraceCbPc ↔
      (name = "__sanitizer_cov_trace_pc" ∨ name = "____sanitizer_cov_trace_pc_veneer") := by
  rw [getTraceCallbackType_values]
  split_ifs with h1 h2
  · simp [h1]
  · simp [h1, TraceCbCmp, TraceCbPc]
  · simp [h1, TraceCbNone, TraceCbPc]

/-- Claim C4 fails as stated: the name `__sanitizer_cov_trace_pc` begins with
the trace-cmp prefix and the name `____sanitizer_cov_trace_pc_veneer` begins
with the veneer form and ends with the veneer suffix, yet both are classified
`TraceCbPc`, not `TraceCbCmp`. -/
theorem getTraceCallbackType_pc_not_cmp :
    (stringsHasPrefix "__sanitizer_cov_trace_pc" "__sanitizer_cov_trace_" = true ∧
      getTraceCallbackType "__sanitizer_cov_trace_pc" = TraceCbPc ∧
      getTraceCallbackType "__sanitizer_cov_trace_pc" ≠ TraceCbCmp) ∧
    (stringsHasPrefix "____sanitizer_cov_trace_pc_veneer" "____sanitizer_cov_trace_" = true ∧
      stringsHasSuffix "____sanitizer_cov_trace_pc_veneer" "_veneer" = true ∧
      getTraceCallbackType "____sanitizer_cov_trace_pc_veneer" = TraceCbPc ∧
      getTraceCallbackType "____sanitizer_cov_trace_pc_veneer" ≠ TraceCbCmp) := by
  decide

/-- Claim C4, amended.  For every name other than the two trace-pc names, if
the name begins with `__sanitizer_cov_trace_`, or begins with
`____sanitizer_cov_trace_` and ends with `_veneer`, then `getTraceCallbackType`
returns `TraceCbCmp`. -/
theorem getTraceCallbackType_cmp (name : String)
    (hpc : name ≠ "__sanitizer_cov_trace_pc")
    (hpcv : name ≠ "____sanitizer_cov_trace_pc_veneer")
    (h : stringsHasPrefix name "__sanitizer_cov_trace_" = true ∨
      (stringsHasPrefix name "____sanitizer_cov_trace_" = true ∧
        stringsHasSuffix name "_veneer" = true)) :
    getTraceCallbackType name = TraceCbCmp :=
  cmp_of_match name hpc hpcv h

/-- Claim C4, amended, at a direct trace-cmp callback and at a veneer. -/
theorem getTraceCallbackType_cmp_witness :
    getTraceCallbackType "__sanitizer_cov_trace_const_cmp4" = TraceCbCmp ∧
    getTraceCallbackType "____sanitizer_cov_trace_cmp1_veneer" = TraceCbCmp :=
  ⟨getTraceCallbackType_cmp "__sanitizer_cov_trace_const_cmp4" (by decide) (by decide)
      (Or.inl (by decide)),
   getTraceCallbackType_cmp "____sanitizer_cov_trace_cmp1_veneer" (by decide)
      (by decide) (Or.inr ⟨by decide, by decide⟩)⟩

/-- Claim C5.  `getTraceCallbackType` returns `TraceCbNone` exactly for the
names that are neither of the two trace-pc names, do not begin with
`__sanitizer_cov_trace_`, and do not both begin with
`____sanitizer_cov_trace_` and end with `_veneer`; the empty name, and every
name with the veneer prefix that lacks the suffix `_veneer`, is classified as
neither. -/
theorem getTraceCallbackType_none_iff (name : String) :
    (getTraceCallbackType name = TraceCbNone ↔
      (name ≠ "__sanitizer_cov_trace_pc" ∧ name ≠ "____sanitizer_cov_trace_pc_veneer" ∧
        stringsHasPrefix name "__sanitizer_cov_trace_" = false ∧
        ¬ (stringsHasPrefix name "____sanitizer_cov_trace_" = true ∧
            stringsHasSuffix name "_veneer" = true))) ∧
    getTraceCallbackType "" = TraceCbNone ∧
    (stringsHasPrefix name "____sanitizer_cov_trace_" = true →
      stringsHasSuffix name "_veneer" = false → getTraceCallbackType name = TraceCbNone) := by
  refine ⟨none_iff_no_match name, by decide, ?_⟩
  intro hp hs
  rw [none_iff_no_match]
  refine ⟨?_, ?_, not_direct_of_veneer name hp, ?_⟩
  · rintro rfl; revert hp; decide
  · rintro rfl; revert hs; decide
  · rintro ⟨-, h⟩; rw [hs] at h; exact absurd h (by decide)

/-- Claim C6.  A veneer is classified like the direct callback it wraps: for
every name `n` that begins with `__sanitizer_cov_trace_`, the name
`"__" ++ n ++ "_veneer"` has the class of `n`. -/
theorem getTraceCallbackType_veneer (n : String)
    (h : stringsHasPrefix n "__sanitizer_cov_trace_" = true) :
    getTraceCallbackType ("__" ++ n ++ "_veneer") = getTraceCallbackType n := by
  by_cases hn : n = "__sanitizer_cov_trace_pc"
  · subst hn; decide
  · have hv : stringsHasPrefix ("__" ++ n ++ "_veneer") "____sanitizer_cov_trace_" = true := by
      obtain ⟨t, ht⟩ := (stringsHasPrefix_iff _ _).1 h
      rw [stringsHasPrefix_iff]
      refine ⟨t ++ "_veneer".data, ?_⟩
      rw [String.data_append, String.data_append, ht]
      have : "____sanitizer_cov_trace_".data = "__".data ++ "__sanitizer_cov_trace_".data := by
        decide
      rw [this]
      simp only [List.append_assoc]
    have hs : stringsHasSuffix ("__" ++ n ++ "_veneer") "_veneer" = true := by
      rw [stringsHasSuffix_iff]
      exact ⟨("__" ++ n).data, by rw [String.data_append]⟩
    have hv1 : "__" ++ n ++ "_veneer" ≠ "__sanitizer_cov_trace_pc" := by
      intro he; rw [he] at hv; revert hv; decide
    have hv2 : "__" ++ n ++ "_veneer" ≠ "____sanitizer_cov_trace_pc_veneer" := by
      intro he
      apply hn
      have h2 : ("__" ++ n ++ "_veneer").data =
          ("__" ++ "__sanitizer_cov_trace_pc" ++ "_veneer").data := by
        rw [he]; decide
      simp only [String.data_append] at h2
      have h3 := List.append_cancel_left (List.append_cancel_right h2)
      exact String.ext h3
    have hn2 : n ≠ "____sanitizer_cov_trace_pc_veneer" := by
      rintro rfl; revert h; decide
    rw [cmp_of_match _ hv1 hv2 (Or.inr ⟨hv, hs⟩), cmp_of_match _ hn hn2 (Or.inl h)]

/-- Claim C6, at the callbacks `__sanitizer_cov_trace_cmp8` and
`__sanitizer_cov_trace_pc`. -/
theorem getTraceCallbackType_veneer_witness :
    getTraceCallbackType ("__" ++ "__sanitizer_cov_trace_cmp8" ++ "_veneer") =
        getTraceCallbackType "__sanitizer_cov_trace_cmp8" ∧
    getTraceCallbackType ("__" ++ "__sanitizer_cov_trace_pc" ++ "_veneer") =
        getTraceCallbackType "__sanitizer_cov_trace_pc" :=
  ⟨getTraceCallbackType_veneer "__sanitizer_cov_trace_cmp8" (by decide),
   getTraceCallbackType_veneer "__sanitizer_cov_trace_pc" (by decide)⟩

/-! ## The range of a Symbol -/

/-- Claim C7 fails as stated.  In the sample kernel image the label
`some_label`, an untyped entry of size 0 inside the text section, yields a
Symbol with `Start = End`; and for the sample module loaded at
`0xffffffffffffff08` the sum `Start + Size` wraps around, so that the Symbol
of `last_fn` has `End < Start`. -/
theorem elfReadSymbols_start_not_lt_end :
    (∃ symbols, (elfReadSymbols kernelFS kernelModule emptyInfo).1 = .ok symbols ∧
      ({ ObjectUnit := { Name := "some_label" }, Module := kernelModule,
         Start := 0xffffffff81000240, End := 0xffffffff81000240 } : Symbol) ∈ symbols ∧
      ¬ ((0xffffffff81000240 : Nat) < 0xffffffff81000240)) ∧
    ((elfReadSymbols moduleFS highModule emptyInfo).1 =
        .ok [{ ObjectUnit := { Name := "last_fn" }, Module := highModule,
               Start := 0xfffffffffffffff8, End := 0x8 }] ∧
      ¬ ((0xfffffffffffffff8 : Nat) < 0x8)) ∧
    ¬ (∀ (fs : FS) (module : Module) (info : symbolInfo) (symbols : List Symbol),
        (elfReadSymbols fs module info).1 = .ok symbols → ∀ S ∈ symbols, S.Start < S.End) := by
  refine ⟨⟨_, rfl, by decide, by decide⟩, ⟨rfl, by decide⟩, ?_⟩
  intro hall
  have h := hall moduleFS highModule emptyInfo _ rfl _ (List.mem_singleton.2 rfl)
  revert h
  decide

/-- Claim C7, amended.  Every Symbol `S` returned by `elfReadSymbols` is built
from a symbol-table entry `e`, with the name of `e`; when
`module.Addr + e.Value + e.Size` does not overflow 64 bits,
`Start(S) = module.Addr + e.Value`, `End(S) = Start(S) + e.Size`, so
`Start(S) <= End(S)`, and `Start(S) < End(S)` exactly when `e.Size > 0`. -/
theorem elfReadSymbols_start_le_end (fs : FS) (module : Module) (info : symbolInfo)
    (file : elf.File) (text : elf.Section) (allSymbols : List elf.Symbol)
    (hopen : fs module.Path = .ok file) (htext : file.Section ".text" = some text)
    (hsyms : file.Symbols = .ok allSymbols) :
    ∃ symbols, (elfReadSymbols fs module info).1 = .ok symbols ∧
      ∀ S ∈ symbols, ∃ e ∈ allSymbols, S.ObjectUnit.Name = e.Name ∧
        (module.Addr + e.Value + e.Size < 2 ^ 64 →
          S.Start = module.Addr + e.Value ∧ S.End = S.Start + e.Size ∧
          S.Start ≤ S.End ∧ (S.Start < S.End ↔ 0 < e.Size)) := by
  obtain ⟨symbols, hres, hall⟩ :=
    elfReadSymbols_mem fs module info file text allSymbols hopen htext hsyms
  refine ⟨symbols, hres, ?_⟩
  intro S hS
  obtain ⟨e, he, -, rfl⟩ := hall S hS
  refine ⟨e, he, rfl, ?_⟩
  intro hno
  simp only [mkSymbol, u64add]
  omega

/-- Claim C7, amended, at the sample kernel image. -/
theorem elfReadSymbols_start_le_end_witness :
    ∃ symbols, (elfReadSymbols kernelFS kernelModule emptyInfo).1 = .ok symbols ∧
      ∀ S ∈ symbols, ∃ e ∈ kernelSymbols, S.ObjectUnit.Name = e.Name ∧
        (kernelModule.Addr + e.Value + e.Size < 2 ^ 64 →
          S.Start = kernelModule.Addr + e.Value ∧ S.End = S.Start + e.Size ∧
          S.Start ≤ S.End ∧ (S.Start < S.End ↔ 0 < e.Size)) :=
  elfReadSymbols_start_le_end kernelFS kernelModule emptyInfo kernelFile kernelText
    kernelSymbols rfl rfl rfl

/-- Claim C8 fails as stated.  For the primary image (`module.Addr = 0`, text
section at `0xffffffff81000000` of size `0x10000`) the Symbol of
`start_kernel` starts at `0xffffffff81000200`, outside
`[module.Addr, module.Addr + text.Size)`; and for the sample module, whose text
section has address 0, the Symbol of `last_fn` ends at
`module.Addr + text.Size`, which the half-open window excludes. -/
theorem elfReadSymbols_outside_module_window :
    (∃ symbols, (elfReadSymbols kernelFS kernelModule emptyInfo).1 = .ok symbols ∧
      ({ ObjectUnit := { Name := "start_kernel" }, Module := kernelModule,
         Start := 0xffffffff81000200, End := 0xffffffff81000240 } : Symbol) ∈ symbols ∧
      ¬ ((0xffffffff81000200 : Nat) < kernelModule.Addr + kernelText.Size)) ∧
    ((elfReadSymbols moduleFS loadedModule emptyInfo).1 =
        .ok [{ ObjectUnit := { Name := "last_fn" }, Module := loadedModule,
               Start := 0xffffffffc00000f0, End := 0xffffffffc0000100 }] ∧
      moduleFile.Section ".text" = some moduleText ∧
      ¬ ((0xffffffffc0000100 : Nat) < loadedModule.Addr + moduleText.Size)) := by
  refine ⟨⟨_, rfl, by decide, by decide⟩, rfl, rfl, by decide⟩

/-- Claim C8, amended.  Every Symbol `S` returned by `elfReadSymbols` is built
from a symbol-table entry `e`; when `module.Addr + e.Value + e.Size` does not
overflow 64 bits, both `Start(S)` and `End(S)` lie within the closed interval
from `module.Addr + text.Addr` to `module.Addr + text.Addr + text.Size`, where
`text` is the text section of the object. -/
theorem elfReadSymbols_in_text_window (fs : FS) (module : Module) (info : symbolInfo)
    (file : elf.File) (text : elf.Section) (allSymbols : List elf.Symbol)
    (hopen : fs module.Path = .ok file) (htext : file.Section ".text" = some text)
    (hsyms : file.Symbols = .ok allSymbols) :
    ∃ symbols, (elfReadSymbols fs module info).1 = .ok symbols ∧
      ∀ S ∈ symbols, ∃ e ∈ allSymbols, S.ObjectUnit.Name = e.Name ∧
        (module.Addr + e.Value + e.Size < 2 ^ 64 →
          (module.Addr + text.Addr ≤ S.Start ∧
            S.Start ≤ module.Addr + text.Addr + text.Size) ∧
          (module.Addr + text.Addr ≤ S.End ∧
            S.End ≤ module.Addr + text.Addr + text.Size)) := by
  obtain ⟨symbols, hres, hall⟩ :=
    elfReadSymbols_mem fs module info file text allSymbols hopen htext hsyms
  refine ⟨symbols, hres, ?_⟩
  intro S hS
  obtain ⟨e, he, hkeep, rfl⟩ := hall S hS
  refine ⟨e, he, rfl, ?_⟩
  intro hno
  simp only [keepsSymbol, decide_eq_true_eq] at hkeep
  obtain ⟨-, hlo, hhi⟩ := hkeep
  simp only [mkSymbol, u64add]
  omega

/-- Claim C8, amended, at the sample module loaded at `0xffffffffc0000000`. -/
theorem elfReadSymbols_in_text_window_witness :
    ∃ symbols, (elfReadSymbols moduleFS loadedModule emptyInfo).1 = .ok symbols ∧
      ∀ S ∈ symbols, ∃ e ∈ moduleSymbols, S.ObjectUnit.Name = e.Name ∧
        (loadedModule.Addr + e.Value + e.Size < 2 ^ 64 →
          (loadedModule.Addr + moduleText.Addr ≤ S.Start ∧
            S.Start ≤ loadedModule.Addr + moduleText.Addr + moduleText.Size) ∧
          (loadedModule.Addr + moduleText.Addr ≤ S.End ∧
            S.End ≤ loadedModule.Addr + moduleText.Addr + moduleText.Size)) :=
  elfReadSymbols_in_text_window moduleFS loadedModule emptyInfo moduleFile moduleText
    moduleSymbols rfl rfl rfl

/-! ## The range fix-up -/

/-- Claim C9.  For a relocatable image (the file has a `.rela.text` section)
with text window from `A = text.Addr` of size `S = text.Size`, the fix-up that
`elfReadTextRanges` builds maps a range `(s, e)` as follows: if `s < e`,
`A <= s` and `e <= A + S` it returns `(s, e)` unchanged and kept; otherwise it
returns `(s + A, e + A)` modulo `2^64`, kept if and only if the shifted range
is non-inverted and inside the window, dropped otherwise.  The bound `A + S`
is the 64-bit sum of the code.  With `A = 0xffffffff81000000` and
`S = 0x10000` the range `(0x1000, 0x2000)` is corrected to
`(0xffffffff81001000, 0xffffffff81002000)` and kept, and the range
`(0x20000, 0x21000)`, still outside the window after the correction, is
reported as dropped. -/
theorem elfPcFix_relocatable (file : elf.File) (text relaText : elf.Section)
    (hrela : file.Section ".rela.text" = some relaText) :
    ∃ fix : pcFixFn, elfPcFix file text = some fix ∧
      (∀ s e : Nat, fix (s, e) =
        if s < e ∧ text.Addr ≤ s ∧ e ≤ (text.Addr + text.Size) % 2 ^ 64 then ((s, e), false)
        else (((s + text.Addr) % 2 ^ 64, (e + text.Addr) % 2 ^ 64),
          !decide ((s + text.Addr) % 2 ^ 64 < (e + text.Addr) % 2 ^ 64 ∧
            text.Addr ≤ (s + text.Addr) % 2 ^ 64 ∧
            (e + text.Addr) % 2 ^ 64 ≤ (text.Addr + text.Size) % 2 ^ 64))) ∧
      (∀ s e : Nat, ¬ (s < e ∧ text.Addr ≤ s ∧ e ≤ (text.Addr + text.Size) % 2 ^ 64) →
        ¬ ((s + text.Addr) % 2 ^ 64 < (e + text.Addr) % 2 ^ 64 ∧
            text.Addr ≤ (s + text.Addr) % 2 ^ 64 ∧
            (e + text.Addr) % 2 ^ 64 ≤ (text.Addr + text.Size) % 2 ^ 64) →
        (fix (s, e)).2 = true) ∧
      (text.Addr = 0xffffffff81000000 → text.Size = 0x10000 →
        fix (0x1000, 0x2000) = ((0xffffffff81001000, 0xffffffff81002000), false) ∧
        fix (0x20000, 0x21000) = ((0xffffffff81020000, 0xffffffff81021000), true)) := by
  refine ⟨pcFix text, ?_, fun s e => pcFix_eq text s e, ?_, ?_⟩
  · unfold elfPcFix
    rw [hrela]; rfl
  · intro s e h1 h2
    rw [pcFix_eq, if_neg h1, decide_eq_false h2]; rfl
  · intro hA hS
    rw [pcFix_eq, pcFix_eq, hA, hS]
    constructor <;> decide

/-- Claim C9, at the sample kernel image, whose text section is at
`0xffffffff81000000` and has size `0x10000`. -/
theorem elfPcFix_relocatable_witness :
    ∃ fix : pcFixFn, elfPcFix kernelFile kernelText = some fix ∧
      fix (0x1000, 0x2000) = ((0xffffffff81001000, 0xffffffff81002000), false) ∧
      fix (0x20000, 0x21000) = ((0xffffffff81020000, 0xffffffff81021000), true) ∧
      fix (0xffffffff81000100, 0xffffffff81000200) =
        ((0xffffffff81000100, 0xffffffff81000200), false) := by
  obtain ⟨fix, h1, h2, -, h4⟩ := elfPcFix_relocatable kernelFile kernelText kernelRelaText rfl
  refine ⟨fix, h1, (h4 rfl rfl).1, (h4 rfl rfl).2, ?_⟩
  rw [h2]
  decide

/-- Claim C10.  For a relocatable image, every range that the fix-up reports
as kept is valid as true integers, without wraparound: `start < end`,
`text.Addr <= start` and `end <= text.Addr + text.Size`, for every input range
and every text base and size; the kept range is the input range or the input
range shifted by `text.Addr` modulo `2^64`. -/
theorem pcFix_kept_valid (file : elf.File) (text : elf.Section) (fix : pcFixFn)
    (hfix : elfPcFix file text = some fix) (r kept : Nat × Nat)
    (hkept : fix r = (kept, false)) :
    (kept.1 < kept.2 ∧ text.Addr ≤ kept.1 ∧ kept.2 ≤ text.Addr + text.Size) ∧
    (kept = r ∨ kept = ((r.1 + text.Addr) % 2 ^ 64, (r.2 + text.Addr) % 2 ^ 64)) := by
  rw [elfPcFix_some file text fix hfix] at hkept
  obtain ⟨s, e⟩ := r
  rw [pcFix_eq] at hkept
  have hmod : (text.Addr + text.Size) % 2 ^ 64 ≤ text.Addr + text.Size := Nat.mod_le _ _
  split_ifs at hkept with h1
  · have hk : (s, e) = kept := (Prod.mk.inj hkept).1
    subst hk
    exact ⟨⟨h1.1, h1.2.1, le_trans h1.2.2 hmod⟩, Or.inl rfl⟩
  · obtain ⟨hk, hflag⟩ := Prod.mk.inj hkept
    subst hk
    simp only [Bool.not_eq_false', decide_eq_true_eq] at hflag
    exact ⟨⟨hflag.1, hflag.2.1, le_trans hflag.2.2 hmod⟩, Or.inr rfl⟩

/-- Claim C10, at the sample kernel image and the range `(0x1000, 0x2000)`. -/
theorem pcFix_kept_valid_witness :
    ((0xffffffff81001000 : Nat) < 0xffffffff81002000 ∧
      kernelText.Addr ≤ 0xffffffff81001000 ∧
      0xffffffff81002000 ≤ kernelText.Addr + kernelText.Size) ∧
    (((0xffffffff81001000, 0xffffffff81002000) : Nat × Nat) = (0x1000, 0x2000) ∨
      ((0xffffffff81001000, 0xffffffff81002000) : Nat × Nat) =
        ((0x1000 + kernelText.Addr) % 2 ^ 64, (0x2000 + kernelText.Addr) % 2 ^ 64)) :=
  pcFix_kept_valid kernelFile kernelText (pcFix kernelText) rfl (0x1000, 0x2000)
    (0xffffffff81001000, 0xffffffff81002000) (by decide)


/-! ## Lemmas on the module load offset -/

theorem and_low3 (f m : Nat) (hm : 7 &&& m = m) : f &&& m = (f % 8) &&& m := by
  have h7 : f % 8 = f &&& 7 := (Nat.and_pow_two_sub_one_eq_mod f 3).symm
  rw [h7, Nat.and_assoc, hm]

/-- The mask test of the code is the test of the two flags. -/
theorem flags_mask_iff (f : Nat) :
    f &&& textFlagsMask = textFlagsMask ↔
      (f &&& elf.SHF_ALLOC ≠ 0 ∧ f &&& elf.SHF_EXECINSTR ≠ 0) := by
  have h6 : f &&& textFlagsMask = (f % 8) &&& 6 := and_low3 f 6 (by decide)
  have h2 : f &&& elf.SHF_ALLOC = (f % 8) &&& 2 := and_low3 f 2 (by decide)
  have h4 : f &&& elf.SHF_EXECINSTR = (f % 8) &&& 4 := and_low3 f 4 (by decide)
  rw [h6, h2, h4]
  have hlt : f % 8 < 8 := Nat.mod_lt _ (by decide)
  generalize f % 8 = r at hlt
  have : textFlagsMask = 6 := by decide
  rw [this]
  interval_cases r <;> decide

/-- The filter of the code is the filter of the reference layout. -/
theorem retained_iff (s : elf.Section) :
    (s.Flags &&& textFlagsMask = textFlagsMask ∧ ¬ stringsHasPrefix s.Name ".init" = true ∧
        ¬ stringsHasPrefix s.Name ".exit" = true) ↔ refRetained s = true := by
  unfold refRetained
  rw [flags_mask_iff]
  simp only [Bool.and_eq_true, decide_eq_true_eq, Bool.not_eq_true', Bool.not_eq_true]
  tauto

theorem simulateLoop_eq_refWalk (a k : Bool) (sections : List elf.Section) :
    ∀ off : Nat, simulateLoop a k sections off = refWalk a k (sections.filter refRetained) off := by
  induction sections with
  | nil => intro off; rfl
  | cons s rest ih =>
    intro off
    rw [simulateLoop]
    by_cases hr : refRetained s = true
    · rw [if_pos ((retained_iff s).2 hr), List.filter_cons_of_pos hr, refWalk]
      simp only []
      have hal : (if a = true ∧ s.Name = ".text.ftrace_trampoline" then AlignOfStructPltRecord
          else if a = true ∧ s.Name = ".plt" then L1CacheBytes else s.Addralign) =
          refAlign a s := by
        unfold refAlign AlignOfStructPltRecord L1CacheBytes
        by_cases h1 : a = true ∧ s.Name = ".plt"
        · have h2 : ¬ (a = true ∧ s.Name = ".text.ftrace_trampoline") := by
            rintro ⟨-, h⟩; rw [h1.2] at h; exact absurd h (by decide)
          rw [if_neg h2, if_pos h1, if_pos h1]
        · rw [if_neg h1, if_neg h1]
      have hsz : (if a = true ∧ s.Name = ".text.ftrace_trampoline" then
            (NrFtracePlts k * SizeOfStructPltRecord) % 2 ^ 64
          else if a = true ∧ s.Name = ".plt" then SizeOfStructPltRecord else s.Size) =
          refSize a k s := by
        unfold refSize SizeOfStructPltRecord NrFtracePlts
        by_cases h1 : a = true ∧ s.Name = ".plt"
        · have h2 : ¬ (a = true ∧ s.Name = ".text.ftrace_trampoline") := by
            rintro ⟨-, h⟩; rw [h1.2] at h; exact absurd h (by decide)
          rw [if_neg h2, if_pos h1, if_pos h1]
        · rw [if_neg h1, if_neg h1]
          cases k <;> simp
      rw [hal, hsz, ih]
      rfl
    · rw [if_neg (fun h => hr ((retained_iff s).1 h)), List.filter_cons_of_neg hr, ih]

/-- With alignment 0 or 1 nothing is rounded. -/
theorem alignUp_le_one (off align : Nat) (hoff : off < 2 ^ 64) (h : align ≤ 1) :
    alignUp off align = off := by
  unfold alignUp
  split_ifs with h0
  · rfl
  · have h1 : align = 1 := by omega
    subst h1
    have e1 : u64sub (u64add off 1) 1 = off := by unfold u64sub u64add; omega
    have e2 : not64 (u64sub 1 1) = 2 ^ 64 - 1 := by decide
    rw [e1, e2, Nat.and_pow_two_sub_one_eq_mod]
    exact Nat.mod_eq_of_lt hoff

theorem refWalk_sum (k : Bool) (l : List elf.Section)
    (hal : ∀ s ∈ l, s.Addralign ≤ 1) :
    ∀ off : Nat, off < 2 ^ 64 →
      refWalk false k l off =
        if l.any (fun s => decide (s.Name = ".text")) then
          (off + ((l.takeWhile (fun s => decide (s.Name ≠ ".text"))).map (fun s => s.Size)).sum)
            % 2 ^ 64
        else 0 := by
  induction l with
  | nil => intro off _; rfl
  | cons s rest ih =>
    intro off hoff
    have hs : alignUp off (refAlign false s) = off := by
      have : refAlign false s = s.Addralign := by simp [refAlign]
      rw [this]
      exact alignUp_le_one off _ hoff (hal s (List.mem_cons_self _ _))
    have hsz : refSize false k s = s.Size := by simp [refSize]
    rw [refWalk, hs, hsz]
    by_cases hn : s.Name = ".text"
    · rw [if_pos hn]
      simp only [List.any_cons, hn, decide_True, Bool.true_or, if_true, ne_eq,
        not_true_eq_false, decide_False, List.takeWhile_cons_of_neg, Bool.false_eq_true,
        not_false_eq_true, List.map_nil, List.sum_nil, Nat.add_zero]
      exact (Nat.mod_eq_of_lt hoff).symm
    · rw [if_neg hn, ih (fun t ht => hal t (List.mem_cons_of_mem _ ht)) _
        (Nat.mod_lt _ (by decide))]
      have htw : (s :: rest).takeWhile (fun s => decide (s.Name ≠ ".text")) =
          s :: rest.takeWhile (fun s => decide (s.Name ≠ ".text")) := by
        rw [List.takeWhile_cons_of_pos]
        simpa using hn
      rw [htw]
      simp only [List.any_cons, hn, decide_False, Bool.false_or, List.map_cons, List.sum_cons]
      split_ifs
      · omega
      · rfl

/-- The walk returns 0 when no section of the list is a retained `.text`. -/
theorem simulateLoop_no_text (a k : Bool) (sections : List elf.Section)
    (h : ∀ s ∈ sections, s.Name = ".text" → ¬ (s.Flags &&& textFlagsMask = textFlagsMask)) :
    ∀ off : Nat, simulateLoop a k sections off = 0 := by
  induction sections with
  | nil => intro off; rfl
  | cons s rest ih =>
    intro off
    have hrest := ih (fun t ht => h t (List.mem_cons_of_mem _ ht))
    rw [simulateLoop]
    by_cases hc : s.Flags &&& textFlagsMask = textFlagsMask ∧
        ¬ stringsHasPrefix s.Name ".init" = true ∧ ¬ stringsHasPrefix s.Name ".exit" = true
    · rw [if_pos hc]
      simp only []
      by_cases hn : s.Name = ".text"
      · exact absurd hc.1 (h s (List.mem_cons_self _ _) hn)
      · rw [if_neg hn]; exact hrest _
    · rw [if_neg hc]; exact hrest _

/-! ## Lemmas on `alignUp` -/

/-- Clearing the low `k` bits of a 64-bit value. -/
theorem and_not_low (x k : Nat) (hx : x < 2 ^ 64) (hk : k ≤ 64) :
    x &&& (2 ^ 64 - 2 ^ k) = x / 2 ^ k * 2 ^ k := by
  have hpos : 0 < 2 ^ k := Nat.two_pow_pos k
  have hle : 2 ^ k ≤ 2 ^ 64 := Nat.pow_le_pow_right (by decide) hk
  have hm : 2 ^ 64 - 2 ^ k = 2 ^ 64 - ((2 ^ k - 1) + 1) := by omega
  apply Nat.eq_of_testBit_eq
  intro i
  rw [Nat.testBit_and, hm, Nat.testBit_two_pow_sub_succ (by omega), Nat.testBit_two_pow_sub_one,
    Nat.mul_comm, Nat.testBit_mul_pow_two, ← Nat.shiftRight_eq_div_pow, Nat.testBit_shiftRight]
  by_cases hik : i < k
  · have : ¬ i ≥ k := by omega
    simp [hik, this]
  · have hge : i ≥ k := by omega
    have hidx : k + (i - k) = i := by omega
    rw [hidx]
    by_cases hi : i < 64
    · simp [hik, hge, hi]
    · have hxi : x.testBit i = false :=
        Nat.testBit_lt_two_pow (lt_of_lt_of_le hx (Nat.pow_le_pow_right (by decide) (by omega)))
      simp [hxi]

/-- On a power of two, without overflow, `alignUp` is the usual rounding. -/
theorem alignUp_pow_two (addr k : Nat) (h : addr + 2 ^ k - 1 < 2 ^ 64) :
    alignUp addr (2 ^ k) = (addr + 2 ^ k - 1) / 2 ^ k * 2 ^ k := by
  have hpos : 0 < 2 ^ k := Nat.two_pow_pos k
  have hle : 2 ^ k ≤ 2 ^ 64 := by omega
  have hk : k ≤ 64 := (Nat.pow_le_pow_iff_right (by decide)).1 hle
  unfold alignUp
  rw [if_neg (by omega)]
  have e1 : u64sub (u64add addr (2 ^ k)) 1 = addr + 2 ^ k - 1 := by
    unfold u64sub u64add
    generalize 2 ^ k = a at *
    omega
  have e2 : not64 (u64sub (2 ^ k) 1) = 2 ^ 64 - 2 ^ k := by
    unfold not64 u64sub
    generalize 2 ^ k = a at *
    omega
  rw [e1, e2]
  exact and_not_low _ k h hk

/-- The usual rounding up to a positive `a`: the least multiple of `a` that
is at least `addr`. -/
theorem round_up_spec (addr a : Nat) (ha : 0 < a) :
    a ∣ (addr + a - 1) / a * a ∧ addr ≤ (addr + a - 1) / a * a ∧
    (addr + a - 1) / a * a < addr + a ∧
    ∀ m, a ∣ m → addr ≤ m → (addr + a - 1) / a * a ≤ m := by
  have h1 := Nat.div_add_mod (addr + a - 1) a
  have h2 := Nat.mod_lt (addr + a - 1) ha
  rw [Nat.mul_comm a] at h1
  refine ⟨Dvd.intro_left _ rfl, by omega, by omega, ?_⟩
  rintro m ⟨c, rfl⟩ hm
  rw [Nat.mul_comm a c]
  apply Nat.mul_le_mul_right
  by_contra hc
  have hc2 : c + 1 ≤ (addr + a - 1) / a := by omega
  have hc3 := Nat.mul_le_mul_right a hc2
  rw [Nat.add_mul, Nat.mul_comm c a] at hc3
  omega

/-! ## Lemmas on the `symbolInfo` that `elfReadSymbols` leaves -/

theorem mapSet_true_iff {K : Type} [DecidableEq K] (m : K → Bool) (k j : K) :
    mapSet m k j = true ↔ m j = true ∨ j = k := by
  unfold mapSet
  split_ifs with h
  · simp [h]
  · simp [h]

/-- What one turn of the switch on the callback type records. -/
theorem recordCallback_spec (info : symbolInfo) (i : Nat) (e : elf.Symbol) (t : Bool) :
    (recordCallback info i e t).textAddr = info.textAddr ∧
    (∀ k : Int, (recordCallback info i e t).tracePCIdx k = true ↔
      info.tracePCIdx k = true ∨ (k = (i : Int) ∧ getTraceCallbackType e.Name = TraceCbPc)) ∧
    (∀ k : Int, (recordCallback info i e t).traceCmpIdx k = true ↔
      info.traceCmpIdx k = true ∨ (k = (i : Int) ∧ getTraceCallbackType e.Name = TraceCbCmp)) ∧
    (∀ v : Nat, (recordCallback info i e t).tracePC v = true ↔
      info.tracePC v = true ∨
        (getTraceCallbackType e.Name = TraceCbPc ∧ t = true ∧ e.Value = v)) ∧
    (∀ v : Nat, (recordCallback info i e t).traceCmp v = true ↔
      info.traceCmp v = true ∨
        (getTraceCallbackType e.Name = TraceCbCmp ∧ t = true ∧ e.Value = v)) := by
  have hne : TraceCbPc ≠ TraceCbCmp := by decide
  have hne2 : TraceCbCmp ≠ TraceCbPc := by decide
  unfold recordCallback
  generalize getTraceCallbackType e.Name = g
  by_cases hpc : g = TraceCbPc
  · subst hpc
    cases t
    · simp [mapSet_true_iff, hne]
    · simp only [if_true, mapSet_true_iff, hne, true_and, false_and, or_false, and_true,
        and_false, iff_self, implies_true, @eq_comm Nat e.Value]
  · by_cases hcmp : g = TraceCbCmp
    · subst hcmp
      cases t
      · simp [mapSet_true_iff, hne2]
      · simp only [if_true, if_false, mapSet_true_iff, hne2, true_and, false_and, or_false,
          and_true, and_false, iff_self, implies_true, @eq_comm Nat e.Value]
    · simp [hpc, hcmp]

/-- The `symbolInfo` after the loop of `elfReadSymbols`: what was recorded
before, and the entries of the classified types. -/
theorem readSymbolsLoop_snd (module : Module) (text : elf.Section) (l : List elf.Symbol) :
    ∀ (i : Nat) (acc : List Symbol) (info : symbolInfo),
      (readSymbolsLoop module text i l acc info).2.textAddr = info.textAddr ∧
      (∀ k : Int, (readSymbolsLoop module text i l acc info).2.tracePCIdx k = true ↔
        info.tracePCIdx k = true ∨
          ∃ j e, l[j]? = some e ∧ k = ((i + j : Nat) : Int) ∧ classifiedAs TraceCbPc e) ∧
      (∀ k : Int, (readSymbolsLoop module text i l acc info).2.traceCmpIdx k = true ↔
        info.traceCmpIdx k = true ∨
          ∃ j e, l[j]? = some e ∧ k = ((i + j : Nat) : Int) ∧ classifiedAs TraceCbCmp e) ∧
      (∀ v : Nat, (readSymbolsLoop module text i l acc info).2.tracePC v = true ↔
        info.tracePC v = true ∨
          ∃ e ∈ l, classifiedAs TraceCbPc e ∧ symbInText text e = true ∧ e.Value = v) ∧
      (∀ v : Nat, (readSymbolsLoop module text i l acc info).2.traceCmp v = true ↔
        info.traceCmp v = true ∨
          ∃ e ∈ l, classifiedAs TraceCbCmp e ∧ symbInText text e = true ∧ e.Value = v) := by
  induction l with
  | nil =>
    intro i acc info
    simp [readSymbolsLoop]
  | cons e rest ih =>
    intro i acc info
    -- the existential over the positions of `e :: rest`
    have hidx : ∀ (cb : Int) (k : Int),
        (∃ j e', (e :: rest)[j]? = some e' ∧ k = ((i + j : Nat) : Int) ∧ classifiedAs cb e') ↔
          ((k = (i : Int) ∧ classifiedAs cb e) ∨
            ∃ j e', rest[j]? = some e' ∧ k = ((i + 1 + j : Nat) : Int) ∧ classifiedAs cb e') := by
      intro cb k
      constructor
      · rintro ⟨j, e', hj, hk, hc⟩
        cases j with
        | zero =>
          simp only [List.getElem?_cons_zero, Option.some.injEq] at hj
          subst hj
          exact Or.inl ⟨by simpa using hk, hc⟩
        | succ j =>
          simp only [List.getElem?_cons_succ] at hj
          exact Or.inr ⟨j, e', hj, by rw [hk]; congr 1; omega, hc⟩
      · rintro (⟨hk, hc⟩ | ⟨j, e', hj, hk, hc⟩)
        · exact ⟨0, e, by simp, by simpa using hk, hc⟩
        · exact ⟨j + 1, e', by simpa using hj, by rw [hk]; congr 1; omega, hc⟩
    have hmem : ∀ (cb : Int) (v : Nat),
        (∃ e' ∈ e :: rest, classifiedAs cb e' ∧ symbInText text e' = true ∧ e'.Value = v) ↔
          ((classifiedAs cb e ∧ symbInText text e = true ∧ e.Value = v) ∨
            ∃ e' ∈ rest, classifiedAs cb e' ∧ symbInText text e' = true ∧ e'.Value = v) := by
      intro cb v
      simp only [List.mem_cons, exists_eq_or_imp]
    rw [readSymbolsLoop]
    by_cases hty : e.Info &&& 0xf ≠ elf.STT_FUNC ∧ e.Info &&& 0xf ≠ elf.STT_NOTYPE
    · rw [if_pos hty]
      have hno : ∀ cb, ¬ classifiedAs cb e := by
        rintro cb ⟨h | h, -⟩
        · exact hty.1 h
        · exact hty.2 h
      obtain ⟨h1, h2, h3, h4, h5⟩ := ih (i + 1) acc info
      refine ⟨h1, fun k => ?_, fun k => ?_, fun v => ?_, fun v => ?_⟩
      · rw [h2, hidx]; simp [hno]
      · rw [h3, hidx]; simp [hno]
      · rw [h4, hmem]; simp [hno]
      · rw [h5, hmem]; simp [hno]
    · rw [if_neg hty]
      simp only []
      have hok : e.Info &&& 0xf = elf.STT_FUNC ∨ e.Info &&& 0xf = elf.STT_NOTYPE := by
        by_contra hc
        push_neg at hc
        exact hty hc
      have hcl : ∀ cb, classifiedAs cb e ↔ getTraceCallbackType e.Name = cb := by
        intro cb
        simp [classifiedAs, hok]
      obtain ⟨r1, r2, r3, r4, r5⟩ := recordCallback_spec info i e (symbInText text e)
      obtain ⟨h1, h2, h3, h4, h5⟩ :=
        ih (i + 1) (if symbInText text e = true then acc ++ [mkSymbol module e] else acc)
          (recordCallback info i e (symbInText text e))
      refine ⟨h1.trans r1, fun k => ?_, fun k => ?_, fun v => ?_, fun v => ?_⟩
      · rw [h2, r2, hidx, hcl, or_assoc]
      · rw [h3, r3, hidx, hcl, or_assoc]
      · rw [h4, r4, hmem, hcl, or_assoc]
      · rw [h5, r5, hmem, hcl, or_assoc]

/-- The `symbolInfo` that a successful `elfReadSymbols` leaves. -/
theorem elfReadSymbols_snd_of_ok (fs : FS) (module : Module) (info : symbolInfo)
    (file : elf.File) (text : elf.Section) (allSymbols : List elf.Symbol)
    (hopen : fs module.Path = .ok file) (htext : file.Section ".text" = some text)
    (hsyms : file.Symbols = .ok allSymbols) :
    (elfReadSymbols fs module info).2 =
      (readSymbolsLoop module text 0 allSymbols []
        (if module.Name = "" then { info with textAddr := text.Addr } else info)).2 := by
  unfold elfReadSymbols
  rw [hopen]; simp only []
  rw [htext]; simp only []
  rw [hsyms]

/-! ## The range fix-up on inverted ranges -/

/-- Claim C11.  For a relocatable image, every inverted input range
(`start >= end`) is dropped by the fix-up, for every text base and size:
adding the text base to both bounds modulo `2^64` never turns an inverted
range into one that passes the window check.  The bounds and the text base
are 64-bit values. -/
theorem pcFix_inverted_dropped (file : elf.File) (text : elf.Section) (fix : pcFixFn)
    (hfix : elfPcFix file text = some fix) (s e : Nat)
    (hs : s < 2 ^ 64) (hbase : text.Addr < 2 ^ 64) (hinv : s ≥ e) :
    (fix (s, e)).2 = true ∧
    ¬ ((s + text.Addr) % 2 ^ 64 < (e + text.Addr) % 2 ^ 64 ∧
        text.Addr ≤ (s + text.Addr) % 2 ^ 64 ∧
        (e + text.Addr) % 2 ^ 64 ≤ (text.Addr + text.Size) % 2 ^ 64) := by
  have hshift : ¬ ((s + text.Addr) % 2 ^ 64 < (e + text.Addr) % 2 ^ 64 ∧
        text.Addr ≤ (s + text.Addr) % 2 ^ 64 ∧
        (e + text.Addr) % 2 ^ 64 ≤ (text.Addr + text.Size) % 2 ^ 64) := by
    omega
  refine ⟨?_, hshift⟩
  rw [elfPcFix_some file text fix hfix, pcFix_eq, if_neg (by omega), decide_eq_false hshift]
  rfl

/-- Claim C11, at the sample kernel image: the inverted range
`(0x2000, 0x1000)` and the inverted range `(0xffffffff81000200,
0xffffffff81000100)` inside the text window are dropped. -/
theorem pcFix_inverted_dropped_witness :
    (pcFix kernelText (0x2000, 0x1000)).2 = true ∧
    (pcFix kernelText (0xffffffff81000200, 0xffffffff81000100)).2 = true :=
  ⟨(pcFix_inverted_dropped kernelFile kernelText (pcFix kernelText) rfl 0x2000 0x1000
      (by decide) (by decide) (by decide)).1,
   (pcFix_inverted_dropped kernelFile kernelText (pcFix kernelText) rfl 0xffffffff81000200
      0xffffffff81000100 (by decide) (by decide) (by decide)).1⟩

/-! ## The module load offset -/

/-- Claim C12.  `elfSimulateModuleLoad` equals the reference layout
`refLayout`: the walk, from offset 0 and in file order, over the sections that
have `SHF_ALLOC` and `SHF_EXECINSTR` and whose name begins neither with `.init`
nor with `.exit`, with size and alignment from the header except on ARM64 for
`.plt` and `.text.ftrace_trampoline`; the offset is rounded up by `alignUp`,
returned at `.text`, else the size is added in 64 bits; 0 when the walk ends.
With all alignments of retained sections 0 or 1 and not ARM64 this is the sum,
in 64 bits, of the sizes of the retained sections that precede `.text`. -/
theorem elfSimulateModuleLoad_eq_refLayout (text : elf.Section) (sections : List elf.Section)
    (isArm64 isKernel61OrEarlier : Bool) :
    elfSimulateModuleLoad text sections isArm64 isKernel61OrEarlier =
      refLayout sections isArm64 isKernel61OrEarlier ∧
    (isArm64 = false → (∀ s ∈ sections, refRetained s = true → s.Addralign ≤ 1) →
      elfSimulateModuleLoad text sections isArm64 isKernel61OrEarlier =
        refSizesBeforeText sections % 2 ^ 64) := by
  have hmain : elfSimulateModuleLoad text sections isArm64 isKernel61OrEarlier =
      refLayout sections isArm64 isKernel61OrEarlier := by
    unfold elfSimulateModuleLoad refLayout
    exact simulateLoop_eq_refWalk _ _ _ 0
  refine ⟨hmain, ?_⟩
  intro harm hal
  rw [hmain]
  subst harm
  unfold refLayout refSizesBeforeText
  rw [refWalk_sum isKernel61OrEarlier (sections.filter refRetained)
    (fun s hs => hal s (List.mem_filter.1 hs).1 (List.mem_filter.1 hs).2) 0 (by decide)]
  split_ifs
  · rw [Nat.zero_add]
  · rfl

/-- Claim C13.  The code does not return the sum of the aligned sizes.  The
comment on `elfSimulateModuleLoad` says that the offset is the sum of the
aligned sizes of the retained sections that precede `.text`, and the claim
says the same for the section list `.init.text`, `.text.ftrace_trampoline`,
`.plt`, `.text` on ARM64 with the legacy flag: 24 rounded up to 4 plus 12
rounded up to 32, which is 56.  The code rounds the running offset instead,
and once more to the alignment in the header of `.text`: it returns 48 when
that alignment is 16, 4096 when it is 4096 and 44 when it is 1.  Off ARM64,
for the sections of sizes `0x11` and 8 with the alignments 16 and 64 before a
`.text` of alignment 16, the code returns 80 and the sum of the aligned sizes
is 96. -/
theorem elfSimulateModuleLoad_arm64_not_sum :
    elfSimulateModuleLoad (mkSection ".text" 6 0x1000 16) (arm64Sections 16) true true = 48 ∧
    elfSimulateModuleLoad (mkSection ".text" 6 0x1000 4096) (arm64Sections 4096) true true
      = 4096 ∧
    elfSimulateModuleLoad (mkSection ".text" 6 0x1000 1) (arm64Sections 1) true true = 44 ∧
    alignUp (2 * 12) 4 + alignUp 12 32 = 56 ∧
    elfSimulateModuleLoad (mkSection ".text" 6 0x1000 16)
      [mkSection ".a" 6 0x11 16, mkSection ".b" 6 8 64, mkSection ".text" 6 0x1000 16]
      false false = 80 ∧
    alignUp 0x11 16 + alignUp 8 64 = 96 := by
  decide

/-- The layout that the code computes for the section list `.init.text`,
`.text.ftrace_trampoline`, `.plt`, `.text` (the last three allocatable and
executable) with `isArm64 = true` and `isKernel61OrEarlier = true`, whatever
sizes and alignments the headers of the first three sections carry:
`elfSimulateModuleLoad` returns 44 rounded up by `alignUp` to the alignment in
the header of `.text`.  The trampoline is placed at 0 with the forced size
`2 * 12`, the PLT at 24 rounded up to the forced alignment 32 with the forced
size 12; `.init.text` contributes nothing. -/
theorem elfSimulateModuleLoad_arm64_layout (text s0 s1 s2 s3 : elf.Section)
    (h0 : s0.Name = ".init.text")
    (h1 : s1.Name = ".text.ftrace_trampoline")
    (h2 : s2.Name = ".plt")
    (h3 : s3.Name = ".text")
    (f1 : s1.Flags &&& elf.SHF_ALLOC ≠ 0 ∧ s1.Flags &&& elf.SHF_EXECINSTR ≠ 0)
    (f2 : s2.Flags &&& elf.SHF_ALLOC ≠ 0 ∧ s2.Flags &&& elf.SHF_EXECINSTR ≠ 0)
    (f3 : s3.Flags &&& elf.SHF_ALLOC ≠ 0 ∧ s3.Flags &&& elf.SHF_EXECINSTR ≠ 0) :
    elfSimulateModuleLoad text [s0, s1, s2, s3] true true = alignUp 44 s3.Addralign ∧
    alignUp (alignUp 0 4 + 2 * 12) 32 + 12 = 44 := by
  refine ⟨?_, by decide⟩
  have r0 : refRetained s0 = false := by
    unfold refRetained; rw [h0]
    have : stringsHasPrefix ".init.text" ".init" = true := by decide
    simp [this]
  have r1 : refRetained s1 = true := by
    unfold refRetained; rw [h1]
    have e1 : stringsHasPrefix ".text.ftrace_trampoline" ".init" = false := by decide
    have e2 : stringsHasPrefix ".text.ftrace_trampoline" ".exit" = false := by decide
    simp [e1, e2, f1.1, f1.2]
  have r2 : refRetained s2 = true := by
    unfold refRetained; rw [h2]
    have e1 : stringsHasPrefix ".plt" ".init" = false := by decide
    have e2 : stringsHasPrefix ".plt" ".exit" = false := by decide
    simp [e1, e2, f2.1, f2.2]
  have r3 : refRetained s3 = true := by
    unfold refRetained; rw [h3]
    have e1 : stringsHasPrefix ".text" ".init" = false := by decide
    have e2 : stringsHasPrefix ".text" ".exit" = false := by decide
    simp [e1, e2, f3.1, f3.2]
  unfold elfSimulateModuleLoad
  rw [simulateLoop_eq_refWalk, List.filter_cons_of_neg (by simp [r0]), List.filter_cons_of_pos r1,
    List.filter_cons_of_pos r2, List.filter_cons_of_pos r3, List.filter_nil]
  have n1 : ¬ s1.Name = ".text" := by rw [h1]; decide
  have n2 : ¬ s2.Name = ".text" := by rw [h2]; decide
  have a1 : refAlign true s1 = 4 := by
    unfold refAlign; rw [h1]
    rw [if_neg (by decide), if_pos (by decide)]
  have z1 : refSize true true s1 = 24 := by
    unfold refSize; rw [h1]
    rw [if_neg (by decide), if_pos (by decide)]
    rfl
  have a2 : refAlign true s2 = 32 := by
    unfold refAlign; rw [h2]
    rw [if_pos (by decide)]
  have z2 : refSize true true s2 = 12 := by
    unfold refSize; rw [h2]
    rw [if_pos (by decide)]
  have a3 : refAlign true s3 = s3.Addralign := by
    unfold refAlign; rw [h3]
    rw [if_neg (by decide), if_neg (by decide)]
  rw [refWalk, if_neg n1, a1, z1, refWalk, if_neg n2, a2, z2, refWalk, if_pos h3, a3]
  have e44 : (alignUp ((alignUp 0 4 + 24) % 2 ^ 64) 32 + 12) % 2 ^ 64 = 44 := by decide
  rw [e44]

/-- The layout of the ARM64 section list at a module whose text section has
the alignment 16: the offset is 48. -/
theorem elfSimulateModuleLoad_arm64_layout_at_16 :
    elfSimulateModuleLoad (mkSection ".text" 6 0x1000 16)
        [mkSection ".init.text" 6 0x200 4, mkSection ".text.ftrace_trampoline" 6 0x10 1,
         mkSection ".plt" 6 0x40 1, mkSection ".text" 6 0x1000 16] true true = 48 :=
  (elfSimulateModuleLoad_arm64_layout (mkSection ".text" 6 0x1000 16)
    (mkSection ".init.text" 6 0x200 4) (mkSection ".text.ftrace_trampoline" 6 0x10 1)
    (mkSection ".plt" 6 0x40 1) (mkSection ".text" 6 0x1000 16) rfl rfl rfl rfl
    (by decide) (by decide) (by decide)).1.trans (by decide)

/-- Claim C14.  `elfSimulateModuleLoad` returns 0 for every section list in
which every section named `.text` lacks `SHF_ALLOC` or `SHF_EXECINSTR` (also
when no section is named `.text`), on either architecture and with either
kernel-version flag; and `elfGetModuleOffset` returns 0 when the file cannot
be opened or has no `.text` section. -/
theorem elfSimulateModuleLoad_no_text (text : elf.Section) (sections : List elf.Section)
    (isArm64 isKernel61OrEarlier : Bool)
    (h : ∀ s ∈ sections, s.Name = ".text" →
      (s.Flags &&& elf.SHF_ALLOC = 0 ∨ s.Flags &&& elf.SHF_EXECINSTR = 0)) :
    elfSimulateModuleLoad text sections isArm64 isKernel61OrEarlier = 0 ∧
    (∀ (fs : FS) (path : String), (∃ err, fs path = .error err) →
      elfGetModuleOffset fs isArm64 isKernel61OrEarlier path = 0) ∧
    (∀ (fs : FS) (path : String) (file : elf.File), fs path = .ok file →
      file.Section ".text" = none →
      elfGetModuleOffset fs isArm64 isKernel61OrEarlier path = 0) := by
  refine ⟨?_, ?_, ?_⟩
  · unfold elfSimulateModuleLoad
    apply simulateLoop_no_text
    intro s hs hn hmask
    have hf := (flags_mask_iff s.Flags).1 hmask
    rcases h s hs hn with h1 | h1
    · exact hf.1 h1
    · exact hf.2 h1
  · rintro fs path ⟨err, herr⟩
    unfold elfGetModuleOffset
    rw [herr]
  · intro fs path file hopen hnone
    unfold elfGetModuleOffset
    rw [hopen]; simp only []
    rw [hnone]

/-- Claim C14, at a section list without `.text`, at one whose `.text` is not
executable, at a path that does not open and at the object without a text
section. -/
theorem elfSimulateModuleLoad_no_text_witness :
    elfSimulateModuleLoad (mkSection ".text" 2 0x100 16)
        [mkSection ".plt" 6 0x40 16, mkSection ".text" 2 0x100 16] true false = 0 ∧
    elfGetModuleOffset kernelFS true false "missing.ko" = 0 ∧
    elfGetModuleOffset (singleFS noTextFile) true false "m.ko" = 0 :=
  ⟨(elfSimulateModuleLoad_no_text (mkSection ".text" 2 0x100 16)
      [mkSection ".plt" 6 0x40 16, mkSection ".text" 2 0x100 16] true false (by decide)).1,
   (elfSimulateModuleLoad_no_text (mkSection ".text" 2 0x100 16) [] true false
      (by decide)).2.1 kernelFS "missing.ko" ⟨_, rfl⟩,
   (elfSimulateModuleLoad_no_text (mkSection ".text" 2 0x100 16) [] true false
      (by decide)).2.2 (singleFS noTextFile) "m.ko" noTextFile rfl rfl⟩

/-- Claim C15.  For every `addr` and every power of two `align = 2^k` with
`addr + align - 1 < 2^64`, `alignUp addr align` is the least multiple of
`align` that is at least `addr`; so it lies between `addr` and
`addr + align - 1`, and `alignUp` is idempotent; and `alignUp a 0 = a` for
every `a`. -/
theorem alignUp_spec (addr k : Nat) (h : addr + 2 ^ k - 1 < 2 ^ 64) :
    (2 ^ k ∣ alignUp addr (2 ^ k) ∧ addr ≤ alignUp addr (2 ^ k) ∧
      (∀ m, 2 ^ k ∣ m → addr ≤ m → alignUp addr (2 ^ k) ≤ m)) ∧
    alignUp addr (2 ^ k) < addr + 2 ^ k ∧
    alignUp (alignUp addr (2 ^ k)) (2 ^ k) = alignUp addr (2 ^ k) ∧
    ∀ a, alignUp a 0 = a := by
  have hpos : 0 < 2 ^ k := Nat.two_pow_pos k
  obtain ⟨hdvd, hge, hlt, hleast⟩ := round_up_spec addr (2 ^ k) hpos
  rw [← alignUp_pow_two addr k h] at hdvd hge hlt hleast
  refine ⟨⟨hdvd, hge, hleast⟩, hlt, ?_, fun a => rfl⟩
  -- idempotence: the result is a multiple of `2^k` below `2^64`
  have hk : k ≤ 64 := (Nat.pow_le_pow_iff_right (by decide)).1 (by omega : 2 ^ k ≤ 2 ^ 64)
  obtain ⟨c, hc⟩ := hdvd
  have hsplit : (2 : Nat) ^ 64 = 2 ^ k * 2 ^ (64 - k) := by
    rw [← Nat.pow_add]; congr 1; omega
  have hr64 : alignUp addr (2 ^ k) < 2 ^ 64 := by omega
  have hcl : c < 2 ^ (64 - k) := by
    rw [hc, hsplit] at hr64
    exact Nat.lt_of_mul_lt_mul_left hr64
  have hroom : alignUp addr (2 ^ k) + 2 ^ k - 1 < 2 ^ 64 := by
    have h1 : 2 ^ k * (c + 1) ≤ 2 ^ k * 2 ^ (64 - k) := Nat.mul_le_mul_left _ hcl
    rw [← hsplit, Nat.mul_add, Nat.mul_one, ← hc] at h1
    omega
  rw [alignUp_pow_two _ k hroom]
  obtain ⟨hdvd2, hge2, hlt2, hleast2⟩ := round_up_spec (alignUp addr (2 ^ k)) (2 ^ k) hpos
  exact Nat.le_antisymm (hleast2 _ ⟨c, hc⟩ (Nat.le_refl _)) hge2

/-- Claim C15, at the offset 44 and the alignment 16. -/
theorem alignUp_spec_witness :
    (2 ^ 4 ∣ alignUp 44 (2 ^ 4) ∧ 44 ≤ alignUp 44 (2 ^ 4) ∧
      (∀ m, 2 ^ 4 ∣ m → 44 ≤ m → alignUp 44 (2 ^ 4) ≤ m)) ∧
    alignUp 44 (2 ^ 4) < 44 + 2 ^ 4 ∧
    alignUp (alignUp 44 (2 ^ 4)) (2 ^ 4) = alignUp 44 (2 ^ 4) ∧
    ∀ a, alignUp a 0 = a :=
  alignUp_spec 44 4 (by decide)

/-! ## End to end -/

/-- Claim C16 fails as stated.  With the text section based at `0x1000`, the
Module base `0x1000` and the function `foo` at the file-relative range
`[0x10, 0x20)`, the entry is below the text window and `elfReadSymbols` yields
no Symbol; with `foo` at `0x10` past the text base, at `[0x1010, 0x1020)`, it
yields the Symbol from `0x2010` to `0x2020`.  Neither is the Symbol from
`0x1010` to `0x1020`.  With the text section at address 0, the object that
also holds the undefined untyped symbol of the trace-pc callback yields two
Symbols: `foo` from `0x1010` to `0x1020` and one for the callback symbol,
from `0x1000` to `0x1000`. -/
theorem elfReadSymbols_synthetic_not_foo :
    (elfReadSymbols (singleFS (syntheticFile 0x1000 0x10)) syntheticModule emptyInfo).1 =
      .ok [] ∧
    (elfReadSymbols (singleFS (syntheticFile 0x1000 0x1010)) syntheticModule emptyInfo).1 =
      .ok [{ ObjectUnit := { Name := "foo" }, Module := syntheticModule,
             Start := 0x2010, End := 0x2020 }] ∧
    (elfReadSymbols (singleFS (syntheticFile 0x1000 0x10)) syntheticModule emptyInfo).1 ≠
      .ok [{ ObjectUnit := { Name := "foo" }, Module := syntheticModule,
             Start := 0x1010, End := 0x1020 }] ∧
    (syntheticFile 0x1000 0x10).Section ".text" = some (textAt 0x1000) ∧
    syntheticModule.Addr = 0x1000 ∧
    (elfReadSymbols (singleFS tracedFile) syntheticModule emptyInfo).1 =
      .ok [{ ObjectUnit := { Name := "foo" }, Module := syntheticModule,
             Start := 0x1010, End := 0x1020 },
           { ObjectUnit := { Name := "__sanitizer_cov_trace_pc" }, Module := syntheticModule,
             Start := 0x1000, End := 0x1000 }] ∧
    (elfReadSymbols (singleFS tracedFile) syntheticModule emptyInfo).1 ≠
      .ok [{ ObjectUnit := { Name := "foo" }, Module := syntheticModule,
             Start := 0x1010, End := 0x1020 }] := by
  refine ⟨rfl, rfl, ?_, rfl, rfl, rfl, ?_⟩
  · intro h
    have h2 : (elfReadSymbols (singleFS (syntheticFile 0x1000 0x10)) syntheticModule
        emptyInfo).1 = .ok [] := rfl
    rw [h2] at h
    exact absurd (Except.ok.inj h) (by decide)
  · intro h
    have h2 : (elfReadSymbols (singleFS tracedFile) syntheticModule emptyInfo).1 =
        .ok [{ ObjectUnit := { Name := "foo" }, Module := syntheticModule,
               Start := 0x1010, End := 0x1020 },
             { ObjectUnit := { Name := "__sanitizer_cov_trace_pc" }, Module := syntheticModule,
               Start := 0x1000, End := 0x1000 }] := rfl
    rw [h2] at h
    exact absurd (congrArg List.length (Except.ok.inj h)) (by decide)

/-- Claim C16, amended.  For an object whose text section has the address 0
and a size of at least `0x20`, and whose symbol table holds a function symbol
`foo` with value `0x10` and size `0x10` among any other entries, read with
Module base `0x1000`: `elfReadSymbols` yields, in table order, the Symbol
`foo` from `0x1010` to `0x1020` together with one Symbol for every other
entry of type `STT_FUNC` or `STT_NOTYPE` inside the text window.  The result
is the one Symbol `foo` exactly when no other entry is of these types and
inside the window.  Every other entry of these types with value 0 and size 0,
such as the undefined symbol of a callback, yields a Symbol from `0x1000` to
`0x1000`. -/
theorem elfReadSymbols_synthetic (fs : FS) (module : Module) (info : symbolInfo)
    (file : elf.File) (text : elf.Section) (before after : List elf.Symbol) (foo : elf.Symbol)
    (hopen : fs module.Path = .ok file) (htext : file.Section ".text" = some text)
    (hsyms : file.Symbols = .ok (before ++ foo :: after))
    (hbase : text.Addr = 0) (hsize : 0x20 ≤ text.Size) (hsize64 : text.Size < 2 ^ 64)
    (hname : foo.Name = "foo") (hfunc : foo.Info &&& 0xf = elf.STT_FUNC)
    (hvalue : foo.Value = 0x10) (hlen : foo.Size = 0x10)
    (hmod : module.Addr = 0x1000) :
    (elfReadSymbols fs module info).1 =
      .ok ((before.filter (keepsSymbol text)).map (mkSymbol module) ++
        { ObjectUnit := { Name := "foo" }, Module := module,
          Start := 0x1010, End := 0x1020 } ::
        (after.filter (keepsSymbol text)).map (mkSymbol module)) ∧
    ((elfReadSymbols fs module info).1 =
        .ok [{ ObjectUnit := { Name := "foo" }, Module := module,
               Start := 0x1010, End := 0x1020 }] ↔
      ∀ e ∈ before ++ after,
        ¬ ((e.Info &&& 0xf = elf.STT_FUNC ∨ e.Info &&& 0xf = elf.STT_NOTYPE) ∧
          e.Value ≥ text.Addr ∧ (e.Value + e.Size) % 2 ^ 64 ≤ (text.Addr + text.Size) % 2 ^ 64)) ∧
    (∀ e ∈ before ++ after,
      (e.Info &&& 0xf = elf.STT_FUNC ∨ e.Info &&& 0xf = elf.STT_NOTYPE) →
      e.Value = 0 → e.Size = 0 →
      ∃ symbols, (elfReadSymbols fs module info).1 = .ok symbols ∧
        ({ ObjectUnit := { Name := e.Name }, Module := module,
           Start := 0x1000, End := 0x1000 } : Symbol) ∈ symbols) := by
  have hkeep : keepsSymbol text foo = true := by
    simp only [keepsSymbol, decide_eq_true_eq]
    refine ⟨Or.inl hfunc, ?_, ?_⟩
    · rw [hbase]; exact Nat.zero_le _
    · rw [hbase, hvalue, hlen]; omega
  have hfoo : mkSymbol module foo =
      { ObjectUnit := { Name := "foo" }, Module := module, Start := 0x1010, End := 0x1020 } := by
    simp only [mkSymbol, u64add, hname, hvalue, hlen, hmod]
    rfl
  have hres : (elfReadSymbols fs module info).1 =
      .ok ((before.filter (keepsSymbol text)).map (mkSymbol module) ++
        { ObjectUnit := { Name := "foo" }, Module := module,
          Start := 0x1010, End := 0x1020 } ::
        (after.filter (keepsSymbol text)).map (mkSymbol module)) := by
    rw [elfReadSymbols_fst_of_ok fs module info file text (before ++ foo :: after) hopen htext
      hsyms, List.filter_append, List.filter_cons_of_pos hkeep, List.map_append, List.map_cons,
      hfoo]
  have hkeeps : ∀ e : elf.Symbol, keepsSymbol text e = true ↔
      ((e.Info &&& 0xf = elf.STT_FUNC ∨ e.Info &&& 0xf = elf.STT_NOTYPE) ∧
        e.Value ≥ text.Addr ∧ (e.Value + e.Size) % 2 ^ 64 ≤ (text.Addr + text.Size) % 2 ^ 64) := by
    intro e
    simp only [keepsSymbol, decide_eq_true_eq]
  refine ⟨hres, ?_, ?_⟩
  · rw [hres]
    constructor
    · intro h e he hk
      have hl := congrArg List.length (Except.ok.inj h)
      simp only [List.length_append, List.length_cons, List.length_map, List.length_nil] at hl
      have hb : (before.filter (keepsSymbol text)).length = 0 := by omega
      have ha : (after.filter (keepsSymbol text)).length = 0 := by omega
      rw [List.length_eq_zero] at hb ha
      rcases List.mem_append.1 he with h1 | h1
      · have : e ∈ before.filter (keepsSymbol text) := List.mem_filter.2 ⟨h1, (hkeeps e).2 hk⟩
        rw [hb] at this
        exact absurd this (List.not_mem_nil _)
      · have : e ∈ after.filter (keepsSymbol text) := List.mem_filter.2 ⟨h1, (hkeeps e).2 hk⟩
        rw [ha] at this
        exact absurd this (List.not_mem_nil _)
    · intro h
      have hb : before.filter (keepsSymbol text) = [] := by
        rw [List.filter_eq_nil_iff]
        intro e he hk
        exact h e (List.mem_append.2 (Or.inl he)) ((hkeeps e).1 hk)
      have ha : after.filter (keepsSymbol text) = [] := by
        rw [List.filter_eq_nil_iff]
        intro e he hk
        exact h e (List.mem_append.2 (Or.inr he)) ((hkeeps e).1 hk)
      rw [hb, ha]
      rfl
  · intro e he hty hv hs
    refine ⟨_, hres, ?_⟩
    have hk : keepsSymbol text e = true := by
      rw [hkeeps]
      refine ⟨hty, ?_, ?_⟩
      · rw [hbase]; exact Nat.zero_le _
      · rw [hbase, hv, hs]; omega
    have hmk : mkSymbol module e =
        { ObjectUnit := { Name := e.Name }, Module := module,
          Start := 0x1000, End := 0x1000 } := by
      simp only [mkSymbol, u64add, hv, hs, hmod]
      rfl
    rw [← hmk]
    rcases List.mem_append.1 he with h1 | h1
    · exact List.mem_append.2 (Or.inl (List.mem_map.2 ⟨e, List.mem_filter.2 ⟨h1, hk⟩, rfl⟩))
    · exact List.mem_append.2 (Or.inr (List.mem_cons_of_mem _
        (List.mem_map.2 ⟨e, List.mem_filter.2 ⟨h1, hk⟩, rfl⟩)))

/-- Claim C16, amended, at the traced synthetic object, whose text section is
at address 0 and whose symbol table holds `foo` and the undefined untyped
symbol of the trace-pc callback: the Symbols are `foo` from `0x1010` to
`0x1020` and the callback symbol from `0x1000` to `0x1000`. -/
theorem elfReadSymbols_synthetic_witness :
    (elfReadSymbols (singleFS tracedFile) syntheticModule emptyInfo).1 =
      .ok [{ ObjectUnit := { Name := "foo" }, Module := syntheticModule,
             Start := 0x1010, End := 0x1020 },
           { ObjectUnit := { Name := "__sanitizer_cov_trace_pc" }, Module := syntheticModule,
             Start := 0x1000, End := 0x1000 }] :=
  (elfReadSymbols_synthetic (singleFS tracedFile) syntheticModule emptyInfo
    tracedFile (textAt 0) []
    [{ Name := "__sanitizer_cov_trace_pc", Info := 0x10, Value := 0, Size := 0 }]
    { Name := "foo", Info := 0x12, Value := 0x10, Size := 0x10 }
    rfl rfl rfl rfl (by decide) (by decide) rfl (by decide) rfl rfl rfl).1.trans rfl

/-- Claim C17.  Running `elfReadSymbols` from an empty `symbolInfo` and then
`elfReadModuleCoverPoints` on an object with Module base `0x1000`, whose
symbol table holds at index `i` an untyped symbol named
`__sanitizer_cov_trace_pc` and whose only relocation record has the call
relocation type of the architecture, offset `0x14` and symbol number `i + 1`,
yields the trace-pc list `[0x1000 + 0x14 - relaOffset]` (modulo `2^64`) and
an empty trace-cmp list, wherever the callback symbol lies. -/
theorem elfReadSymbols_then_coverPoints (fs : FS) (arches : String → Arch) (target : Target)
    (module : Module) (file : elf.File) (text : elf.Section) (allSymbols : List elf.Symbol)
    (i : Nat) (symb : elf.Symbol) (rel : elf.Rela64)
    (hopen : fs module.Path = .ok file) (htext : file.Section ".text" = some text)
    (hsyms : file.Symbols = .ok allSymbols)
    (hi : allSymbols[i]? = some symb)
    (hname : symb.Name = "__sanitizer_cov_trace_pc")
    (huntyped : symb.Info &&& 0xf = elf.STT_NOTYPE)
    (hclean : ∀ s ∈ file.Sections, s.Typ = elf.SHT_RELA → s.data.length % 24 = 0)
    (hrecs : sectionsRelaRecords file.Sections = [rel])
    (htype : rel.Info % 2 ^ 32 = (arches target.Arch).callRelocType)
    (hoff : rel.Off = 0x14)
    (hsym : rel.Info / 2 ^ 32 % 2 ^ 32 = i + 1)
    (hmod : module.Addr = 0x1000) :
    (∃ symbols, (elfReadSymbols fs module emptyInfo).1 = .ok symbols) ∧
    elfReadModuleCoverPoints fs arches target module (elfReadSymbols fs module emptyInfo).2 =
      (([(((0x1000 : Int) + 0x14 - (arches target.Arch).relaOffset) % 2 ^ 64).toNat], []),
        none) := by
  refine ⟨⟨_, elfReadSymbols_fst_of_ok fs module emptyInfo file text allSymbols hopen htext
    hsyms⟩, ?_⟩
  have hidx : (elfReadSymbols fs module emptyInfo).2.tracePCIdx
      (((rel.Info / 2 ^ 32 % 2 ^ 32 : Nat) : Int) - 1) = true := by
    rw [elfReadSymbols_snd_of_ok fs module emptyInfo file text allSymbols hopen htext hsyms]
    rw [(readSymbolsLoop_snd module text allSymbols 0 [] _).2.1]
    refine Or.inr ⟨i, symb, hi, ?_, Or.inr huntyped, ?_⟩
    · rw [hsym]; simp
    · rw [hname]; decide
  rw [elfReadModuleCoverPoints_of_clean fs arches target module _ file hopen hclean, hrecs]
  have hpc : isTracePCRecord (arches target.Arch)
      (elfReadSymbols fs module emptyInfo).2 rel = true := by
    unfold isTracePCRecord
    rw [hidx, decide_eq_true htype]; rfl
  have hcmp : isTraceCmpRecord (arches target.Arch)
      (elfReadSymbols fs module emptyInfo).2 rel = false := by
    unfold isTraceCmpRecord
    rw [hidx]; simp
  rw [List.filter_cons_of_pos hpc, List.filter_cons_of_neg (by simp [hcmp]), List.filter_nil,
    List.map_cons, List.map_nil, callSite_eq, hmod, hoff]
  rfl

/-- Claim C17, at the traced synthetic object with the constants of amd64
(`relaOffset = 1`): the trace-pc list is `[0x1013]`. -/
theorem elfReadSymbols_then_coverPoints_witness :
    elfReadModuleCoverPoints (singleFS tracedFile) sampleArches { Arch := "amd64" }
        syntheticModule (elfReadSymbols (singleFS tracedFile) syntheticModule emptyInfo).2 =
      (([0x1013], []), none) :=
  (elfReadSymbols_then_coverPoints (singleFS tracedFile) sampleArches { Arch := "amd64" }
    syntheticModule tracedFile (textAt 0)
    [{ Name := "foo", Info := 0x12, Value := 0x10, Size := 0x10 },
     { Name := "__sanitizer_cov_trace_pc", Info := 0x10, Value := 0, Size := 0 }]
    1 { Name := "__sanitizer_cov_trace_pc", Info := 0x10, Value := 0, Size := 0 } tracedRela
    rfl rfl rfl rfl rfl (by decide) (by decide) (by decide) (by decide) rfl (by decide)
    rfl).2.trans (by decide)

/-! ## The `symbolInfo` -/

/-- Claim C18 fails as stated.  In an object whose symbol table names the
trace-pc callback with an entry of type `STT_OBJECT` and a trace-cmp callback
with an entry of type `STT_GNU_IFUNC`, neither index is recorded. -/
theorem elfReadSymbols_skips_other_types :
    getTraceCallbackType "__sanitizer_cov_trace_pc" = TraceCbPc ∧
    (elfReadSymbols (singleFS oddTypesFile) syntheticModule emptyInfo).2.tracePCIdx 0 = false ∧
    getTraceCallbackType "__sanitizer_cov_trace_cmp1" = TraceCbCmp ∧
    (elfReadSymbols (singleFS oddTypesFile) syntheticModule emptyInfo).2.traceCmpIdx 1 = false ∧
    (∃ symbols, (elfReadSymbols (singleFS oddTypesFile) syntheticModule emptyInfo).1 =
      .ok symbols) := by
  exact ⟨by decide, rfl, by decide, rfl, ⟨_, rfl⟩⟩

/-- Claim C18, amended.  `elfReadSymbols` classifies by name every
symbol-table entry of type `STT_FUNC` or `STT_NOTYPE`, whether or not it lies
inside the text section: for such an entry at index `i`, `i` is recorded in
`tracePCIdx` when its name classifies as trace-pc and in `traceCmpIdx` when
its name classifies as trace-cmp.  For an entry of another type at index `i`
the two index sets are at `i` as they were before the call. -/
theorem elfReadSymbols_classifies (fs : FS) (module : Module) (info : symbolInfo)
    (file : elf.File) (text : elf.Section) (allSymbols : List elf.Symbol)
    (i : Nat) (e : elf.Symbol)
    (hopen : fs module.Path = .ok file) (htext : file.Section ".text" = some text)
    (hsyms : file.Symbols = .ok allSymbols) (hi : allSymbols[i]? = some e) :
    ((e.Info &&& 0xf = elf.STT_FUNC ∨ e.Info &&& 0xf = elf.STT_NOTYPE) →
      (getTraceCallbackType e.Name = TraceCbPc →
        (elfReadSymbols fs module info).2.tracePCIdx i = true) ∧
      (getTraceCallbackType e.Name = TraceCbCmp →
        (elfReadSymbols fs module info).2.traceCmpIdx i = true)) ∧
    (¬ (e.Info &&& 0xf = elf.STT_FUNC ∨ e.Info &&& 0xf = elf.STT_NOTYPE) →
      (elfReadSymbols fs module info).2.tracePCIdx i = info.tracePCIdx i ∧
      (elfReadSymbols fs module info).2.traceCmpIdx i = info.traceCmpIdx i) := by
  rw [elfReadSymbols_snd_of_ok fs module info file text allSymbols hopen htext hsyms]
  obtain ⟨-, hpc, hcmp, -, -⟩ := readSymbolsLoop_snd module text allSymbols 0 []
    (if module.Name = "" then { info with textAddr := text.Addr } else info)
  have hinfo1 : (if module.Name = "" then { info with textAddr := text.Addr } else info).tracePCIdx
      = info.tracePCIdx := by split_ifs <;> rfl
  have hinfo2 : (if module.Name = "" then { info with textAddr := text.Addr } else info).traceCmpIdx
      = info.traceCmpIdx := by split_ifs <;> rfl
  rw [hinfo1] at hpc
  rw [hinfo2] at hcmp
  constructor
  · intro hty
    constructor
    · intro hc
      rw [hpc]
      exact Or.inr ⟨i, e, hi, by simp, hty, hc⟩
    · intro hc
      rw [hcmp]
      exact Or.inr ⟨i, e, hi, by simp, hty, hc⟩
  · intro hty
    have hnot : ∀ cb, ¬ ∃ j e', allSymbols[j]? = some e' ∧ ((i : Nat) : Int) = ((0 + j : Nat) : Int) ∧
        classifiedAs cb e' := by
      rintro cb ⟨j, e', hj, hk, hc⟩
      have hji : j = i := by omega
      subst hji
      rw [hi] at hj
      rw [← Option.some.inj hj] at hc
      exact hty hc.1
    constructor
    · have h := hpc (i : Int)
      rw [Bool.eq_iff_iff, h]
      exact ⟨fun hh => hh.resolve_right (hnot _), Or.inl⟩
    · have h := hcmp (i : Int)
      rw [Bool.eq_iff_iff, h]
      exact ⟨fun hh => hh.resolve_right (hnot _), Or.inl⟩

/-- Claim C18, amended, at the traced synthetic object: the untyped callback
at index 1, which is an undefined symbol, is recorded. -/
theorem elfReadSymbols_classifies_witness :
    (elfReadSymbols (singleFS tracedFile) syntheticModule emptyInfo).2.tracePCIdx 1 = true :=
  ((elfReadSymbols_classifies (singleFS tracedFile) syntheticModule emptyInfo tracedFile
    (textAt 0)
    [{ Name := "foo", Info := 0x12, Value := 0x10, Size := 0x10 },
     { Name := "__sanitizer_cov_trace_pc", Info := 0x10, Value := 0, Size := 0 }]
    1 { Name := "__sanitizer_cov_trace_pc", Info := 0x10, Value := 0, Size := 0 }
    rfl rfl rfl rfl).1 (by decide)).1 (by decide)

/-- Claim C19.  After a successful `elfReadSymbols`, `symbolInfo.textAddr` is
the address of the text section when `module.Name` is empty, and is left at
its previous value when `module.Name` is not empty. -/
theorem elfReadSymbols_textAddr (fs : FS) (module : Module) (info : symbolInfo)
    (file : elf.File) (text : elf.Section) (allSymbols : List elf.Symbol)
    (hopen : fs module.Path = .ok file) (htext : file.Section ".text" = some text)
    (hsyms : file.Symbols = .ok allSymbols) :
    (∃ symbols, (elfReadSymbols fs module info).1 = .ok symbols) ∧
    (module.Name = "" → (elfReadSymbols fs module info).2.textAddr = text.Addr) ∧
    (module.Name ≠ "" → (elfReadSymbols fs module info).2.textAddr = info.textAddr) := by
  refine ⟨⟨_, elfReadSymbols_fst_of_ok fs module info file text allSymbols hopen htext hsyms⟩,
    ?_, ?_⟩
  · intro hn
    rw [elfReadSymbols_snd_of_ok fs module info file text allSymbols hopen htext hsyms,
      (readSymbolsLoop_snd module text allSymbols 0 [] _).1, if_pos hn]
  · intro hn
    rw [elfReadSymbols_snd_of_ok fs module info file text allSymbols hopen htext hsyms,
      (readSymbolsLoop_snd module text allSymbols 0 [] _).1, if_neg hn]

/-- Claim C19, at the sample kernel image (empty name) and at the sample
module (name `m`). -/
theorem elfReadSymbols_textAddr_witness :
    (elfReadSymbols kernelFS kernelModule emptyInfo).2.textAddr = 0xffffffff81000000 ∧
    (elfReadSymbols moduleFS loadedModule kernelInfo).2.textAddr = 0xffffffff81000000 :=
  ⟨(elfReadSymbols_textAddr kernelFS kernelModule emptyInfo kernelFile kernelText kernelSymbols
      rfl rfl rfl).2.1 rfl,
   (elfReadSymbols_textAddr moduleFS loadedModule kernelInfo moduleFile moduleText moduleSymbols
      rfl rfl rfl).2.2 (by decide)⟩

/-- Claim C20.  For an object file that opens, `elfReadSymbols` fails exactly
when the object has no `.text` section, with the missing-text-section error,
or reading the symbol table fails, with the wrapped decode error; on every
failure it returns an error in place of the symbols and leaves the
`symbolInfo` as it was. -/
theorem elfReadSymbols_fails_iff (fs : FS) (module : Module) (info : symbolInfo)
    (file : elf.File) (hopen : fs module.Path = .ok file) :
    ((∃ err, (elfReadSymbols fs module info).1 = .error err) ↔
      (file.Section ".text" = none ∨ ∃ err, file.Symbols = .error err)) ∧
    (file.Section ".text" = none →
      (elfReadSymbols fs module info).1 = .error "no .text section in the object file") ∧
    (∀ text err, file.Section ".text" = some text → file.Symbols = .error err →
      (elfReadSymbols fs module info).1 = .error ("failed to read ELF symbols: " ++ err)) ∧
    (∀ err, (elfReadSymbols fs module info).1 = .error err →
      (elfReadSymbols fs module info).2 = info) := by
  have hA : file.Section ".text" = none →
      elfReadSymbols fs module info = (.error "no .text section in the object file", info) := by
    intro hnone
    unfold elfReadSymbols
    rw [hopen]; simp only []
    rw [hnone]
  have hB : ∀ text err, file.Section ".text" = some text → file.Symbols = .error err →
      elfReadSymbols fs module info =
        (.error ("failed to read ELF symbols: " ++ err), info) := by
    intro text err htext herr
    unfold elfReadSymbols
    rw [hopen]; simp only []
    rw [htext]; simp only []
    rw [herr]
  have hC : ∀ text allSymbols, file.Section ".text" = some text →
      file.Symbols = .ok allSymbols → ∀ err, (elfReadSymbols fs module info).1 ≠ .error err := by
    intro text allSymbols htext hsyms err h
    rw [elfReadSymbols_fst_of_ok fs module info file text allSymbols hopen htext hsyms] at h
    exact Except.noConfusion h
  have hcases : file.Section ".text" = none ∨ (∃ err, file.Symbols = .error err) ∨
      ∃ text allSymbols, file.Section ".text" = some text ∧ file.Symbols = .ok allSymbols := by
    cases ht : file.Section ".text" with
    | none => exact Or.inl rfl
    | some text =>
      cases hs : file.Symbols with
      | error err => exact Or.inr (Or.inl ⟨err, rfl⟩)
      | ok allSymbols => exact Or.inr (Or.inr ⟨text, allSymbols, rfl, rfl⟩)
  have hfail : (file.Section ".text" = none ∨ ∃ err, file.Symbols = .error err) →
      ∃ err, elfReadSymbols fs module info = (.error err, info) := by
    rintro (hnone | ⟨err, herr⟩)
    · exact ⟨_, hA hnone⟩
    · cases ht : file.Section ".text" with
      | none => exact ⟨_, hA ht⟩
      | some text => exact ⟨_, hB text err ht herr⟩
  refine ⟨⟨?_, ?_⟩, ?_, ?_, ?_⟩
  · rintro ⟨err, herr⟩
    rcases hcases with h | h | ⟨text, allSymbols, htext, hsyms⟩
    · exact Or.inl h
    · exact Or.inr h
    · exact absurd herr (hC text allSymbols htext hsyms err)
  · intro h
    obtain ⟨err, herr⟩ := hfail h
    exact ⟨err, by rw [herr]⟩
  · intro hnone; rw [hA hnone]
  · intro text err htext herr; rw [hB text err htext herr]
  · intro err herr
    rcases hcases with h | h | ⟨text, allSymbols, htext, hsyms⟩
    · obtain ⟨err2, h2⟩ := hfail (Or.inl h); rw [h2]
    · obtain ⟨err2, h2⟩ := hfail (Or.inr h); rw [h2]
    · exact absurd herr (hC text allSymbols htext hsyms err)

/-- Claim C20, at the object without a text section and at the object with an
unreadable symbol table, starting from the `symbolInfo` of the kernel image. -/
theorem elfReadSymbols_fails_iff_witness :
    (elfReadSymbols (singleFS noTextFile) syntheticModule kernelInfo).1 =
      .error "no .text section in the object file" ∧
    (elfReadSymbols (singleFS noSymbolsFile) syntheticModule kernelInfo).1 =
      .error "failed to read ELF symbols: no symbol section" ∧
    (elfReadSymbols (singleFS noSymbolsFile) syntheticModule kernelInfo).2 = kernelInfo :=
  ⟨(elfReadSymbols_fails_iff (singleFS noTextFile) syntheticModule kernelInfo noTextFile
      rfl).2.1 rfl,
   (elfReadSymbols_fails_iff (singleFS noSymbolsFile) syntheticModule kernelInfo noSymbolsFile
      rfl).2.2.1 (textAt 0) "no symbol section" rfl rfl,
   (elfReadSymbols_fails_iff (singleFS noSymbolsFile) syntheticModule kernelInfo noSymbolsFile
      rfl).2.2.2 _ rfl⟩

end backend

namespace csource

/-! ## Lemmas on the removal of duplicate new lines -/

theorem replaceNewlines_length_le (l : List UInt8) :
    (replaceNewlines l).length ≤ l.length := by
  induction l using replaceNewlines.induct with
  | case1 rest ih => rw [replaceNewlines]; simp only [List.length_cons]; omega
  | case2 b rest hne ih =>
    rw [replaceNewlines]
    · simp only [List.length_cons]; omega
    · exact hne
  | case3 => simp [replaceNewlines]

/-- A text without three consecutive newlines is left as it is. -/
theorem replaceNewlines_of_no_triple (l : List UInt8) (h : ¬ [10, 10, 10] <:+: l) :
    replaceNewlines l = l := by
  induction l using replaceNewlines.induct with
  | case1 rest ih =>
    exact absurd (List.IsPrefix.isInfix ⟨rest, rfl⟩) h
  | case2 b rest hne ih =>
    rw [replaceNewlines]
    · rw [ih (fun hin => h (List.infix_cons hin))]
    · exact hne
  | case3 => rfl

/-- A text that the replacement does not shorten has no three consecutive
newlines. -/
theorem no_triple_of_length_eq (l : List UInt8)
    (h : (replaceNewlines l).length = l.length) : ¬ [10, 10, 10] <:+: l := by
  induction l using replaceNewlines.induct with
  | case1 rest ih =>
    rw [replaceNewlines] at h
    have := replaceNewlines_length_le rest
    simp only [List.length_cons] at h
    omega
  | case2 b rest hne ih =>
    rw [replaceNewlines] at h
    · simp only [List.length_cons, Nat.add_right_cancel_iff] at h
      intro hin
      rcases List.infix_cons_iff.1 hin with hp | hi
      · obtain ⟨t, ht⟩ := hp
        simp only [List.cons_append, List.nil_append, List.cons.injEq] at ht
        exact hne t ht.1.symm ht.2.symm
      · exact ih h hi
    · exact hne
  | case3 =>
    intro hin
    have := List.IsInfix.length_le hin
    simp at this

theorem removeNewlinesLoop_spec :
    ∀ (fuel : Nat) (l : List UInt8), l.length < fuel →
      ∃ out, removeNewlinesLoop fuel l = some out ∧ ¬ [10, 10, 10] <:+: out ∧
        (¬ [10, 10, 10] <:+: l → out = l) := by
  intro fuel
  induction fuel with
  | zero => intro l h; omega
  | succ fuel ih =>
    intro l hl
    rw [removeNewlinesLoop]
    by_cases heq : l.length = (replaceNewlines l).length
    · rw [if_pos heq]
      exact ⟨l, rfl, no_triple_of_length_eq l heq.symm, fun _ => rfl⟩
    · rw [if_neg heq]
      have hle := replaceNewlines_length_le l
      obtain ⟨out, hout, hno, -⟩ := ih (replaceNewlines l) (by omega)
      refine ⟨out, hout, hno, ?_⟩
      intro hl3
      rw [replaceNewlines_of_no_triple l hl3] at heq
      exact absurd rfl heq

end csource

namespace backend

/-! ## Lemmas on truncated relocation streams -/

theorem relaRecords_of_short (data : List UInt8) (h : data.length < 24) :
    relaRecords data = [] := by
  have : data.length / 24 = 0 := by omega
  simp [relaRecords, this]

theorem relaRecords_cons (data : List UInt8) (h : 24 ≤ data.length) :
    relaRecords data = elf.decodeRela64 (data.take 24) :: relaRecords (data.drop 24) := by
  unfold relaRecords
  have h1 : data.length / 24 = (data.drop 24).length / 24 + 1 := by
    rw [List.length_drop]; omega
  rw [h1, List.range_succ_eq_map, List.map_cons, List.map_map]
  simp only [Nat.mul_zero, List.drop_zero, List.cons.injEq, true_and]
  apply List.map_congr_left
  intro k _
  simp only [Function.comp, List.drop_drop]
  have : 24 * k.succ = 24 + 24 * k := by omega
  rw [this]

/-- The record loop on any stream: it handles the whole records in order,
and fails with `io.ErrUnexpectedEOF` exactly when bytes are left over. -/
theorem relaLoop_eq (arch : Arch) (module : Module) (info : symbolInfo) :
    ∀ (n : Nat) (fuel : Nat) (r : List UInt8) (pcs : List Nat × List Nat),
      r.length / 24 = n → n < fuel →
      relaLoop arch module info fuel r pcs =
        ((relaRecords r).foldl (fun acc rel => addCoverPoint arch module info rel acc) pcs,
          if r.length % 24 = 0 then none else some ioErrUnexpectedEOF) := by
  intro n
  induction n with
  | zero =>
    intro fuel r pcs hlen hfuel
    obtain ⟨f, rfl⟩ : ∃ f, fuel = f + 1 := ⟨fuel - 1, by omega⟩
    have hshort : r.length < 24 := by omega
    rw [relaLoop, relaRecords_of_short r hshort]
    by_cases h0 : r.length = 0
    · simp [elf.binaryReadRela64, h0]
    · have hm : ¬ r.length % 24 = 0 := by omega
      have hne : ¬ ioErrUnexpectedEOF = ioEOF := by decide
      simp [elf.binaryReadRela64, h0, hshort, hm, hne]
  | succ n ih =>
    intro fuel r pcs hlen hfuel
    obtain ⟨f, rfl⟩ : ∃ f, fuel = f + 1 := ⟨fuel - 1, by omega⟩
    have hlong : 24 ≤ r.length := by omega
    rw [relaLoop, relaRecords_cons r hlong]
    have h1 : ¬ r.length = 0 := by omega
    have h2 : ¬ r.length < 24 := by omega
    simp only [elf.binaryReadRela64, h1, h2, if_false, List.foldl_cons]
    have hdrop : (r.drop 24).length = r.length - 24 := List.length_drop _ _
    rw [ih f (r.drop 24) _ (by omega) (by omega)]
    have hmod : (r.drop 24).length % 24 = r.length % 24 := by omega
    rw [hmod]

/-- The section loop fails exactly when some section of type `SHT_RELA` has
bytes left over, and then with `io.ErrUnexpectedEOF`. -/
theorem coverPointsLoop_err (arch : Arch) (module : Module) (info : symbolInfo)
    (sections : List elf.Section) :
    ∀ pcs : List Nat × List Nat,
      (coverPointsLoop arch module info sections pcs).2 =
        if ∀ s ∈ sections, s.Typ = elf.SHT_RELA → s.data.length % 24 = 0 then none
        else some ioErrUnexpectedEOF := by
  induction sections with
  | nil => intro pcs; simp [coverPointsLoop]
  | cons s rest ih =>
    intro pcs
    rw [coverPointsLoop]
    by_cases hty : s.Typ = elf.SHT_RELA
    · rw [if_neg (fun h => h hty),
        relaLoop_eq arch module info (s.data.length / 24) _ s.data pcs rfl (by omega)]
      by_cases hm : s.data.length % 24 = 0
      · rw [if_pos hm]
        simp only []
        rw [ih]
        congr 1
        simp [hty, hm]
      · rw [if_neg hm]
        simp only []
        rw [if_neg]
        intro hall
        exact hm (hall s (List.mem_cons_self _ _) hty)
    · rw [if_pos hty, ih]
      congr 1
      simp [hty]

/-- The number of addresses on the two lists. -/
theorem addCoverPoint_count (arch : Arch) (module : Module) (info : symbolInfo)
    (rel : elf.Rela64) (pcs : List Nat × List Nat) :
    (addCoverPoint arch module info rel pcs).1.length +
        (addCoverPoint arch module info rel pcs).2.length ≤
      pcs.1.length + pcs.2.length + (if rel.Info % 2 ^ 32 = arch.callRelocType then 1 else 0) := by
  unfold addCoverPoint
  rw [low32_eq]
  by_cases h1 : rel.Info % 2 ^ 32 = arch.callRelocType
  · rw [if_neg (fun h => h h1), if_pos h1]
    split_ifs <;> (try simp only [List.length_append, List.length_cons, List.length_nil]) <;>
      omega
  · rw [if_pos h1, if_neg h1]
    omega

theorem foldl_addCoverPoint_count (arch : Arch) (module : Module) (info : symbolInfo)
    (recs : List elf.Rela64) :
    ∀ pcs : List Nat × List Nat,
      (recs.foldl (fun acc rel => addCoverPoint arch module info rel acc) pcs).1.length +
          (recs.foldl (fun acc rel => addCoverPoint arch module info rel acc) pcs).2.length ≤
        pcs.1.length + pcs.2.length +
          (recs.filter (fun rel => decide (rel.Info % 2 ^ 32 = arch.callRelocType))).length := by
  induction recs with
  | nil => intro pcs; simp
  | cons rel rest ih =>
    intro pcs
    rw [List.foldl_cons]
    have h1 := ih (addCoverPoint arch module info rel pcs)
    have h2 := addCoverPoint_count arch module info rel pcs
    by_cases hc : rel.Info % 2 ^ 32 = arch.callRelocType
    · rw [List.filter_cons_of_pos (by simpa using hc)]
      rw [if_pos hc] at h2
      simp only [List.length_cons]
      omega
    · rw [List.filter_cons_of_neg (by simpa using hc)]
      rw [if_neg hc] at h2
      omega

theorem coverPointsLoop_count (arch : Arch) (module : Module) (info : symbolInfo)
    (sections : List elf.Section) :
    ∀ pcs : List Nat × List Nat,
      (coverPointsLoop arch module info sections pcs).1.1.length +
          (coverPointsLoop arch module info sections pcs).1.2.length ≤
        pcs.1.length + pcs.2.length +
          ((sectionsRelaRecords sections).filter
            (fun rel => decide (rel.Info % 2 ^ 32 = arch.callRelocType))).length := by
  induction sections with
  | nil => intro pcs; simp [coverPointsLoop]
  | cons s rest ih =>
    intro pcs
    rw [coverPointsLoop]
    by_cases hty : s.Typ = elf.SHT_RELA
    · have hrec : sectionsRelaRecords (s :: rest) = relaRecords s.data ++ sectionsRelaRecords rest := by
        simp [sectionsRelaRecords, hty]
      rw [if_neg (fun h => h hty),
        relaLoop_eq arch module info (s.data.length / 24) _ s.data pcs rfl (by omega), hrec,
        List.filter_append, List.length_append]
      have h1 := foldl_addCoverPoint_count arch module info (relaRecords s.data) pcs
      by_cases hm : s.data.length % 24 = 0
      · rw [if_pos hm]
        simp only []
        have h2 := ih ((relaRecords s.data).foldl
          (fun acc rel => addCoverPoint arch module info rel acc) pcs)
        omega
      · rw [if_neg hm]
        simp only []
        omega
    · have hrec : sectionsRelaRecords (s :: rest) = sectionsRelaRecords rest := by
        simp [sectionsRelaRecords, hty]
      rw [if_pos hty, hrec]
      exact ih pcs

/-- The `symbolInfo` after `elfReadSymbols`: unchanged on a failure, else that
of the loop. -/
theorem elfReadSymbols_snd_cases (fs : FS) (module : Module) (info : symbolInfo) :
    (elfReadSymbols fs module info).2 = info ∨
      ∃ file text allSymbols, fs module.Path = .ok file ∧ file.Section ".text" = some text ∧
        file.Symbols = .ok allSymbols := by
  cases hopen : fs module.Path with
  | error err =>
    left
    unfold elfReadSymbols
    rw [hopen]
  | ok file =>
    cases htext : file.Section ".text" with
    | none =>
      left
      unfold elfReadSymbols
      rw [hopen]; simp only []
      rw [htext]
    | some text =>
      cases hsyms : file.Symbols with
      | error err =>
        left
        unfold elfReadSymbols
        rw [hopen]; simp only []
        rw [htext]; simp only []
        rw [hsyms]
      | ok allSymbols => exact Or.inr ⟨file, text, allSymbols, rfl, htext, hsyms⟩

/-! ## Lemmas on `alignUp` for any alignment -/

/-- A 64-bit value is the sum of its part under a mask and its part under the
complement of the mask. -/
theorem and_add_and_not64 (x m : Nat) (hx : x < 2 ^ 64) (hm : m < 2 ^ 64) :
    (x &&& m) + (x &&& (2 ^ 64 - 1 - m)) = x := by
  have hd : (BitVec.ofNat 64 x &&& BitVec.ofNat 64 m) &&&
      (BitVec.ofNat 64 x &&& ~~~ BitVec.ofNat 64 m) = 0#64 := by
    ext i
    simp only [BitVec.getLsbD_and, BitVec.getLsbD_not, BitVec.getLsbD_zero]
    cases (BitVec.ofNat 64 x).getLsbD i <;> cases (BitVec.ofNat 64 m).getLsbD i <;> simp
  have ho : (BitVec.ofNat 64 x &&& BitVec.ofNat 64 m) |||
      (BitVec.ofNat 64 x &&& ~~~ BitVec.ofNat 64 m) = BitVec.ofNat 64 x := by
    ext i
    simp only [BitVec.getLsbD_or, BitVec.getLsbD_and, BitVec.getLsbD_not]
    cases (BitVec.ofNat 64 x).getLsbD i <;> cases (BitVec.ofNat 64 m).getLsbD i <;> simp
  have h := BitVec.toNat_add_of_and_eq_zero hd
  rw [BitVec.add_eq_or_of_and_eq_zero _ _ hd, ho] at h
  simp only [BitVec.toNat_and, BitVec.toNat_not, BitVec.toNat_ofNat, Nat.mod_eq_of_lt hx,
    Nat.mod_eq_of_lt hm] at h
  exact h.symm

/-- Without overflow, `alignUp` does not go below the offset, whatever the
alignment. -/
theorem alignUp_ge (off align : Nat) (h : off + align - 1 < 2 ^ 64) (hoff : off < 2 ^ 64) :
    off ≤ alignUp off align := by
  unfold alignUp
  split_ifs with h0
  · exact Nat.le_refl _
  · have e1 : u64sub (u64add off align) 1 = off + (align - 1) := by
      unfold u64sub u64add; omega
    have e2 : not64 (u64sub align 1) = 2 ^ 64 - 1 - (align - 1) := by
      unfold not64 u64sub; omega
    rw [e1, e2]
    have hs := and_add_and_not64 (off + (align - 1)) (align - 1) (by omega) (by omega)
    have hle : (off + (align - 1)) &&& (align - 1) ≤ align - 1 := Nat.and_le_right
    omega

theorem alignUp_lt (off align : Nat) (hoff : off < 2 ^ 64) : alignUp off align < 2 ^ 64 := by
  unfold alignUp
  split_ifs with h0
  · exact hoff
  · have : (u64sub (u64add off align) 1 &&& not64 (u64sub align 1)) ≤ not64 (u64sub align 1) :=
      Nat.and_le_right
    have h2 : not64 (u64sub align 1) < 2 ^ 64 := by unfold not64; omega
    omega

/-- For an alignment that is 0 or a power of two, without overflow, `alignUp`
is monotone in the offset. -/
theorem alignUp_mono (a b align : Nat) (hab : a ≤ b)
    (hal : align = 0 ∨ ∃ j, align = 2 ^ j) (hb : b + align - 1 < 2 ^ 64) :
    alignUp a align ≤ alignUp b align := by
  rcases hal with h0 | ⟨j, rfl⟩
  · subst h0
    simpa [alignUp] using hab
  · have hpos : 0 < 2 ^ j := Nat.two_pow_pos j
    rw [alignUp_pow_two a j (by omega), alignUp_pow_two b j hb]
    apply Nat.mul_le_mul_right
    apply Nat.div_le_div_right
    omega

/-! ## Lemmas on the reference walk -/

/-- The walk does not look past a section named `.text`. -/
theorem refWalk_tail_indep (a k : Bool) (t : elf.Section) (ht : t.Name = ".text")
    (post post2 : List elf.Section) (l : List elf.Section) :
    ∀ off : Nat, refWalk a k (l ++ t :: post) off = refWalk a k (l ++ t :: post2) off := by
  induction l with
  | nil =>
    intro off
    simp only [List.nil_append]
    rw [refWalk, refWalk, if_pos ht, if_pos ht]
  | cons s rest ih =>
    intro off
    simp only [List.cons_append]
    rw [refWalk, refWalk]
    split_ifs
    · rfl
    · exact ih _

/-- The walk up to the first section named `.text`, when no running offset
overflows: the result is the running offset in front of `.text`, which is at
least the sum of the sizes in front of it, rounded up to the alignment of
`.text`. -/
theorem refWalk_to_text (a k : Bool) (t : elf.Section) (ht : t.Name = ".text")
    (post : List elf.Section) (l : List elf.Section) :
    (∀ s ∈ l, s.Name ≠ ".text") →
    ∀ off : Nat, off < 2 ^ 64 → refNoOverflow a k (l ++ t :: post) off = true →
      ∃ off2, off + (l.map (refSize a k)).sum ≤ off2 ∧ off2 + refAlign a t - 1 < 2 ^ 64 ∧
        off2 < 2 ^ 64 ∧ refWalk a k (l ++ t :: post) off = alignUp off2 (refAlign a t) := by
  induction l with
  | nil =>
    intro _ off hoff hno
    simp only [List.nil_append] at hno ⊢
    rw [refNoOverflow] at hno
    simp only [Bool.and_eq_true, decide_eq_true_eq] at hno
    refine ⟨off, by simp, hno.1, hoff, ?_⟩
    rw [refWalk, if_pos ht]
  | cons s rest ih =>
    intro hl off hoff hno
    have hs : s.Name ≠ ".text" := hl s (List.mem_cons_self _ _)
    simp only [List.cons_append] at hno ⊢
    rw [refNoOverflow] at hno
    simp only [Bool.and_eq_true, Bool.or_eq_true, decide_eq_true_eq, hs, false_or] at hno
    obtain ⟨h1, h2, h3⟩ := hno
    obtain ⟨off2, hsum, hal, hlt, hw⟩ :=
      ih (fun x hx => hl x (List.mem_cons_of_mem _ hx)) _ h2 h3
    have hge := alignUp_ge off (refAlign a s) h1 hoff
    refine ⟨off2, ?_, hal, hlt, ?_⟩
    · simp only [List.map_cons, List.sum_cons]
      omega
    · rw [refWalk, if_neg hs, Nat.mod_eq_of_lt h2]
      exact hw

theorem refAlign_pow_two (a : Bool) (s : elf.Section)
    (h : s.Addralign = 0 ∨ ∃ j, s.Addralign = 2 ^ j) :
    refAlign a s = 0 ∨ ∃ j, refAlign a s = 2 ^ j := by
  unfold refAlign
  split_ifs
  · exact Or.inr ⟨5, rfl⟩
  · exact Or.inr ⟨2, rfl⟩
  · exact h

theorem refSize_flag_le (s : elf.Section) : refSize true false s ≤ refSize true true s := by
  unfold refSize
  by_cases h1 : true = true ∧ s.Name = ".plt"
  · rw [if_pos h1, if_pos h1]
  · rw [if_neg h1, if_neg h1]
    by_cases h2 : true = true ∧ s.Name = ".text.ftrace_trampoline"
    · rw [if_pos h2, if_pos h2]
      decide
    · rw [if_neg h2, if_neg h2]

/-- On ARM64 the walk with the legacy flag is never below the walk without
it, when the alignments are 0 or powers of two and the walk with the flag
does not overflow. -/
theorem refWalk_flag_mono (l : List elf.Section) :
    (∀ s ∈ l, s.Addralign = 0 ∨ ∃ j, s.Addralign = 2 ^ j) →
    ∀ off1 off2 : Nat, off1 ≤ off2 → refNoOverflow true true l off2 = true →
      refWalk true false l off1 ≤ refWalk true true l off2 := by
  induction l with
  | nil => intro _ off1 off2 _ _; simp [refWalk]
  | cons s rest ih =>
    intro hal off1 off2 hle hno
    rw [refNoOverflow] at hno
    simp only [Bool.and_eq_true, Bool.or_eq_true, decide_eq_true_eq] at hno
    obtain ⟨h1, h2⟩ := hno
    have hm := alignUp_mono off1 off2 (refAlign true s) hle
      (refAlign_pow_two true s (hal s (List.mem_cons_self _ _))) h1
    rw [refWalk, refWalk]
    by_cases hs : s.Name = ".text"
    · rw [if_pos hs, if_pos hs]
      exact hm
    · rw [if_neg hs, if_neg hs]
      rcases h2 with h2 | ⟨h2, h3⟩
      · exact absurd h2 hs
      · have hsz := refSize_flag_le s
        rw [Nat.mod_eq_of_lt h2, Nat.mod_eq_of_lt (by omega)]
        exact ih (fun x hx => hal x (List.mem_cons_of_mem _ hx)) _ _ (by omega) h3

/-- Off ARM64 the walk does not read the kernel-version flag. -/
theorem refWalk_flag_indep (l : List elf.Section) :
    ∀ off : Nat, refWalk false true l off = refWalk false false l off := by
  induction l with
  | nil => intro off; rfl
  | cons s rest ih =>
    intro off
    have hsz : refSize false true s = refSize false false s := by simp [refSize]
    rw [refWalk, refWalk, hsz, ih]

/-- A section is outside the filter exactly when it lacks one of the two
flags or its name begins with `.init` or `.exit`. -/
theorem not_retained_iff (s : elf.Section) :
    refRetained s = false ↔
      (s.Flags &&& elf.SHF_ALLOC = 0 ∨ s.Flags &&& elf.SHF_EXECINSTR = 0 ∨
        stringsHasPrefix s.Name ".init" = true ∨ stringsHasPrefix s.Name ".exit" = true) := by
  unfold refRetained
  cases h1 : stringsHasPrefix s.Name ".init" <;> cases h2 : stringsHasPrefix s.Name ".exit" <;>
    by_cases h3 : s.Flags &&& elf.SHF_ALLOC = 0 <;>
    by_cases h4 : s.Flags &&& elf.SHF_EXECINSTR = 0 <;> simp [h3, h4]

/-! ## Truncated relocation streams -/

/-- Claim C21.  A truncated relocation stream is fatal: for a file that
opens, `elfReadModuleCoverPoints` returns no error exactly when the length of
every section of type `SHT_RELA` is a multiple of the 24-byte record size; if
some such section has another length, it returns `io.ErrUnexpectedEOF`. -/
theorem elfReadModuleCoverPoints_truncated (fs : FS) (arches : String → Arch)
    (target : Target) (module : Module) (info : symbolInfo) (file : elf.File)
    (hopen : fs module.Path = .ok file) :
    ((elfReadModuleCoverPoints fs arches target module info).2 = none ↔
      ∀ s ∈ file.Sections, s.Typ = elf.SHT_RELA → s.data.length % 24 = 0) ∧
    ((∃ s ∈ file.Sections, s.Typ = elf.SHT_RELA ∧ s.data.length % 24 ≠ 0) →
      (elfReadModuleCoverPoints fs arches target module info).2 = some ioErrUnexpectedEOF) := by
  have hres : (elfReadModuleCoverPoints fs arches target module info).2 =
      if ∀ s ∈ file.Sections, s.Typ = elf.SHT_RELA → s.data.length % 24 = 0 then none
      else some ioErrUnexpectedEOF := by
    unfold elfReadModuleCoverPoints
    rw [hopen]; simp only []
    exact coverPointsLoop_err _ _ _ _ _
  rw [hres]
  constructor
  · constructor
    · intro h
      by_contra hc
      rw [if_neg hc] at h
      exact Option.noConfusion h
    · intro h
      rw [if_pos h]
  · rintro ⟨s, hs, hty, hm⟩
    rw [if_neg (fun hall => hm (hall s hs hty))]

/-- Claim C21, at the object whose relocation section has 30 bytes and at the
object whose relocation section has 24 bytes. -/
theorem elfReadModuleCoverPoints_truncated_witness :
    (elfReadModuleCoverPoints (singleFS truncatedFile) sampleArches { Arch := "amd64" }
        syntheticModule emptyInfo).2 = some ioErrUnexpectedEOF ∧
    (elfReadModuleCoverPoints (singleFS tracedFile) sampleArches { Arch := "amd64" }
        syntheticModule emptyInfo).2 = none :=
  ⟨(elfReadModuleCoverPoints_truncated (singleFS truncatedFile) sampleArches { Arch := "amd64" }
      syntheticModule emptyInfo truncatedFile rfl).2
      ⟨_, List.mem_cons_of_mem _ (List.mem_cons_self _ _), rfl, by decide⟩,
   (elfReadModuleCoverPoints_truncated (singleFS tracedFile) sampleArches { Arch := "amd64" }
      syntheticModule emptyInfo tracedFile rfl).1.2 (by decide)⟩

/-! ## Absent debug info -/

/-- Claim C22.  In `elfReadTextRanges` on an object that has a `.text`
section and whose debug info cannot be decoded, the outcome is an error
exactly when the module is the primary image: when `module.Name` is not empty
the result is no ranges, no compile units and no error; when `module.Name` is
empty the result is the wrapped error. -/
theorem elfReadTextRanges_no_dwarf (fs : FS)
    (readTextRanges : dwarf.Data → Module → Option pcFixFn →
      Except String (List pcRange × List CompileUnit))
    (module : Module) (file : elf.File) (text : elf.Section) (err : String)
    (hopen : fs module.Path = .ok file) (htext : file.Section ".text" = some text)
    (hdwarf : file.DWARF = .error err) :
    (module.Name ≠ "" → elfReadTextRanges fs readTextRanges module = .ok ([], [])) ∧
    (module.Name = "" → elfReadTextRanges fs readTextRanges module =
      .error ("failed to parse DWARF: " ++ err ++ " (set CONFIG_DEBUG_INFO=y on linux)")) ∧
    ((∃ e, elfReadTextRanges fs readTextRanges module = .error e) ↔ module.Name = "") := by
  have hres : elfReadTextRanges fs readTextRanges module =
      if module.Name ≠ "" then .ok ([], [])
      else .error ("failed to parse DWARF: " ++ err ++ " (set CONFIG_DEBUG_INFO=y on linux)") := by
    unfold elfReadTextRanges
    rw [hopen]; simp only []
    rw [htext]; simp only []
    rw [hdwarf]
  rw [hres]
  refine ⟨fun h => by rw [if_pos h], fun h => by rw [if_neg (fun hc => hc h)], ?_⟩
  constructor
  · rintro ⟨e, he⟩
    by_contra hc
    rw [if_pos hc] at he
    exact Except.noConfusion he
  · intro h
    rw [if_neg (fun hc => hc h)]
    exact ⟨_, rfl⟩

/-- Claim C22, at the sample module (name `m`) and at the sample kernel image
(empty name), both without debug info. -/
theorem elfReadTextRanges_no_dwarf_witness :
    elfReadTextRanges moduleFS (fun _ _ _ => .ok ([], [])) loadedModule = .ok ([], []) ∧
    elfReadTextRanges kernelFS (fun _ _ _ => .ok ([], [])) kernelModule =
      .error "failed to parse DWARF: no DWARF section (set CONFIG_DEBUG_INFO=y on linux)" :=
  ⟨(elfReadTextRanges_no_dwarf moduleFS (fun _ _ _ => .ok ([], [])) loadedModule moduleFile
      moduleText "no DWARF section" rfl rfl rfl).1 (by decide),
   (elfReadTextRanges_no_dwarf kernelFS (fun _ _ _ => .ok ([], [])) kernelModule kernelFile
      kernelText "no DWARF section" rfl rfl rfl).2.1 rfl⟩

/-! ## The module load offset, continued -/

/-- Claim C24.  Sections excluded by the loader filter never change the
computed offset: deleting from a section list a section that lacks `SHF_ALLOC`
or `SHF_EXECINSTR`, or whose name begins with `.init` or `.exit`, leaves the
result of `elfSimulateModuleLoad` unchanged, for both architecture flags and
both kernel-version flags; so does deleting all such sections. -/
theorem elfSimulateModuleLoad_delete_excluded (text : elf.Section)
    (pre post : List elf.Section) (s : elf.Section) (isArm64 isKernel61OrEarlier : Bool)
    (h : s.Flags &&& elf.SHF_ALLOC = 0 ∨ s.Flags &&& elf.SHF_EXECINSTR = 0 ∨
      stringsHasPrefix s.Name ".init" = true ∨ stringsHasPrefix s.Name ".exit" = true) :
    elfSimulateModuleLoad text (pre ++ s :: post) isArm64 isKernel61OrEarlier =
      elfSimulateModuleLoad text (pre ++ post) isArm64 isKernel61OrEarlier ∧
    elfSimulateModuleLoad text (pre ++ s :: post) isArm64 isKernel61OrEarlier =
      elfSimulateModuleLoad text ((pre ++ s :: post).filter (fun x =>
        decide (x.Flags &&& elf.SHF_ALLOC ≠ 0) && decide (x.Flags &&& elf.SHF_EXECINSTR ≠ 0) &&
          !stringsHasPrefix x.Name ".init" && !stringsHasPrefix x.Name ".exit"))
        isArm64 isKernel61OrEarlier := by
  have hs : refRetained s = false := (not_retained_iff s).2 h
  unfold elfSimulateModuleLoad
  constructor
  · rw [simulateLoop_eq_refWalk, simulateLoop_eq_refWalk, List.filter_append, List.filter_append,
      List.filter_cons_of_neg (by simp [hs])]
  · rw [simulateLoop_eq_refWalk, simulateLoop_eq_refWalk]
    have hf : (fun x : elf.Section =>
        decide (x.Flags &&& elf.SHF_ALLOC ≠ 0) && decide (x.Flags &&& elf.SHF_EXECINSTR ≠ 0) &&
          !stringsHasPrefix x.Name ".init" && !stringsHasPrefix x.Name ".exit") = refRetained := by
      funext x; rfl
    rw [hf, List.filter_filter]
    simp only [Bool.and_self]

/-- Claim C24, at the ARM64 section list with `.init.text` deleted. -/
theorem elfSimulateModuleLoad_delete_excluded_witness :
    elfSimulateModuleLoad (mkSection ".text" 6 0x1000 16)
        ([] ++ mkSection ".init.text" 6 0x200 4 ::
          [mkSection ".text.ftrace_trampoline" 6 0x10 1, mkSection ".plt" 6 0x40 1,
           mkSection ".text" 6 0x1000 16]) true true =
      elfSimulateModuleLoad (mkSection ".text" 6 0x1000 16)
        ([] ++ [mkSection ".text.ftrace_trampoline" 6 0x10 1, mkSection ".plt" 6 0x40 1,
           mkSection ".text" 6 0x1000 16]) true true :=
  (elfSimulateModuleLoad_delete_excluded (mkSection ".text" 6 0x1000 16) []
    [mkSection ".text.ftrace_trampoline" 6 0x10 1, mkSection ".plt" 6 0x40 1,
     mkSection ".text" 6 0x1000 16] (mkSection ".init.text" 6 0x200 4) true true
    (Or.inr (Or.inr (Or.inl (by decide))))).1

/-- Claim C29.  The kernel-version flag affects only ARM64 layouts and only
upward: when `isArm64` is false, `elfSimulateModuleLoad` returns the same
offset for both values of `isKernel61OrEarlier`; when `isArm64` is true, every
retained section has an alignment that is 0 or a power of two and no running
offset (of the walk with the flag set) overflows 64 bits, the offset with the
flag set is at least the offset without it. -/
theorem elfSimulateModuleLoad_flag (text : elf.Section) (sections : List elf.Section) :
    elfSimulateModuleLoad text sections false true =
      elfSimulateModuleLoad text sections false false ∧
    ((∀ s ∈ sections, refRetained s = true → (s.Addralign = 0 ∨ ∃ j, s.Addralign = 2 ^ j)) →
      refNoOverflow true true (sections.filter refRetained) 0 = true →
      elfSimulateModuleLoad text sections true false ≤
        elfSimulateModuleLoad text sections true true) := by
  unfold elfSimulateModuleLoad
  constructor
  · rw [simulateLoop_eq_refWalk, simulateLoop_eq_refWalk]
    exact refWalk_flag_indep _ 0
  · intro hal hno
    rw [simulateLoop_eq_refWalk, simulateLoop_eq_refWalk]
    exact refWalk_flag_mono _
      (fun s hs => hal s (List.mem_filter.1 hs).1 (List.mem_filter.1 hs).2) 0 0
      (Nat.le_refl 0) hno

/-- Claim C29, at a module with the ftrace trampoline in front of `.text`:
12 bytes without the legacy flag, 24 with it; off ARM64 the header size 0x10
with either flag. -/
theorem elfSimulateModuleLoad_flag_witness :
    elfSimulateModuleLoad (mkSection ".text" 6 0x100 4)
        [mkSection ".text.ftrace_trampoline" 6 0x10 1, mkSection ".text" 6 0x100 4]
        true false = 12 ∧
    elfSimulateModuleLoad (mkSection ".text" 6 0x100 4)
        [mkSection ".text.ftrace_trampoline" 6 0x10 1, mkSection ".text" 6 0x100 4]
        true true = 24 ∧
    elfSimulateModuleLoad (mkSection ".text" 6 0x100 4)
        [mkSection ".text.ftrace_trampoline" 6 0x10 1, mkSection ".text" 6 0x100 4]
        true false ≤
      elfSimulateModuleLoad (mkSection ".text" 6 0x100 4)
        [mkSection ".text.ftrace_trampoline" 6 0x10 1, mkSection ".text" 6 0x100 4]
        true true ∧
    elfSimulateModuleLoad (mkSection ".text" 6 0x100 4)
        [mkSection ".text.ftrace_trampoline" 6 0x10 1, mkSection ".text" 6 0x100 4]
        false true =
      elfSimulateModuleLoad (mkSection ".text" 6 0x100 4)
        [mkSection ".text.ftrace_trampoline" 6 0x10 1, mkSection ".text" 6 0x100 4]
        false false :=
  ⟨by decide, by decide,
   (elfSimulateModuleLoad_flag (mkSection ".text" 6 0x100 4)
      [mkSection ".text.ftrace_trampoline" 6 0x10 1, mkSection ".text" 6 0x100 4]).2
      (by
        intro s hs _
        simp only [List.mem_cons, List.mem_singleton, List.not_mem_nil, or_false] at hs
        rcases hs with rfl | rfl
        · exact Or.inr ⟨0, rfl⟩
        · exact Or.inr ⟨2, rfl⟩)
      (by decide),
   (elfSimulateModuleLoad_flag (mkSection ".text" 6 0x100 4)
      [mkSection ".text.ftrace_trampoline" 6 0x10 1, mkSection ".text" 6 0x100 4]).1⟩

/-- Claim C30.  Let `t` be the first retained section named `.text` of a
section list.  When `t` has a power-of-two alignment and no running offset
overflows 64 bits, the offset returned by `elfSimulateModuleLoad` is a
multiple of that alignment and is at least the sum of the sizes, with the
ARM64 overrides, of the retained sections that precede `t`.  The result does
not depend on the sections that follow `t` nor on the `text` argument. -/
theorem elfSimulateModuleLoad_text_offset (text : elf.Section) (pre post : List elf.Section)
    (t : elf.Section) (isArm64 isKernel61OrEarlier : Bool)
    (ht : refRetained t = true) (hname : t.Name = ".text") :
    ((∀ s ∈ pre, refRetained s = true → s.Name ≠ ".text") →
      ∀ j, t.Addralign = 2 ^ j →
      refNoOverflow isArm64 isKernel61OrEarlier ((pre ++ t :: post).filter refRetained) 0 = true →
      2 ^ j ∣ elfSimulateModuleLoad text (pre ++ t :: post) isArm64 isKernel61OrEarlier ∧
      ((pre.filter refRetained).map (refSize isArm64 isKernel61OrEarlier)).sum ≤
        elfSimulateModuleLoad text (pre ++ t :: post) isArm64 isKernel61OrEarlier) ∧
    (∀ (text2 : elf.Section) (post2 : List elf.Section),
      elfSimulateModuleLoad text2 (pre ++ t :: post2) isArm64 isKernel61OrEarlier =
        elfSimulateModuleLoad text (pre ++ t :: post) isArm64 isKernel61OrEarlier) := by
  have hfilter : ∀ p : List elf.Section, (pre ++ t :: p).filter refRetained =
      pre.filter refRetained ++ t :: p.filter refRetained := by
    intro p
    rw [List.filter_append, List.filter_cons_of_pos ht]
  constructor
  · intro hpre j hj hno
    unfold elfSimulateModuleLoad
    rw [simulateLoop_eq_refWalk, hfilter]
    rw [hfilter] at hno
    obtain ⟨off2, hsum, hal, hlt, hw⟩ := refWalk_to_text isArm64 isKernel61OrEarlier t hname
      (post.filter refRetained) (pre.filter refRetained)
      (fun s hs => hpre s (List.mem_filter.1 hs).1 (List.mem_filter.1 hs).2) 0 (by decide) hno
    have hta : refAlign isArm64 t = 2 ^ j := by
      unfold refAlign
      rw [hname, if_neg (fun h => absurd h.2 (by decide)),
        if_neg (fun h => absurd h.2 (by decide))]
      exact hj
    rw [hw, hta]
    rw [hta] at hal
    obtain ⟨hdvd, hge, -, -⟩ := round_up_spec off2 (2 ^ j) (Nat.two_pow_pos j)
    rw [← alignUp_pow_two off2 j hal] at hdvd hge
    exact ⟨hdvd, by omega⟩
  · intro text2 post2
    unfold elfSimulateModuleLoad
    rw [simulateLoop_eq_refWalk, simulateLoop_eq_refWalk, hfilter, hfilter]
    exact refWalk_tail_indep _ _ t hname _ _ _ 0

/-- Claim C30, at the ARM64 section list whose `.text` has the alignment 16:
the offset 48 is a multiple of 16 and at least 24 + 12. -/
theorem elfSimulateModuleLoad_text_offset_witness :
    2 ^ 4 ∣ elfSimulateModuleLoad (mkSection ".text" 6 0x1000 16)
        ([mkSection ".init.text" 6 0x200 4, mkSection ".text.ftrace_trampoline" 6 0x10 1,
          mkSection ".plt" 6 0x40 1] ++ mkSection ".text" 6 0x1000 16 :: []) true true ∧
    (([mkSection ".init.text" 6 0x200 4, mkSection ".text.ftrace_trampoline" 6 0x10 1,
        mkSection ".plt" 6 0x40 1].filter refRetained).map (refSize true true)).sum ≤
      elfSimulateModuleLoad (mkSection ".text" 6 0x1000 16)
        ([mkSection ".init.text" 6 0x200 4, mkSection ".text.ftrace_trampoline" 6 0x10 1,
          mkSection ".plt" 6 0x40 1] ++ mkSection ".text" 6 0x1000 16 :: []) true true :=
  (elfSimulateModuleLoad_text_offset (mkSection ".text" 6 0x1000 16)
    [mkSection ".init.text" 6 0x200 4, mkSection ".text.ftrace_trampoline" 6 0x10 1,
     mkSection ".plt" 6 0x40 1] [] (mkSection ".text" 6 0x1000 16) true true
    (by decide) rfl).1 (by decide) 4 (by decide) (by decide)

/-! ## The addresses and indices of the callbacks -/

/-- Claim C25 fails as stated.  In the object `sameValueFile` the entry at
index 1 is untyped, is named as the trace-pc callback and has the range
`[0x40, 0x1040)`, which is not inside the text section `[0, 0x100)`; its
index is recorded, and its address `0x40` is in `tracePC` all the same,
because the entry at index 0, inside the text section, has the same value.
The entry at index 3 does the same for `traceCmp` with the address `0x80`. -/
theorem elfReadSymbols_addresses_outside_recorded :
    sameValueFile.Section ".text" = some (textAt 0) ∧
    sameValueFile.Symbols = .ok sameValueSymbols ∧
    sameValueSymbols[1]? = some outsidePcEntry ∧
    outsidePcEntry.Info &&& 0xf = elf.STT_NOTYPE ∧
    getTraceCallbackType outsidePcEntry.Name = TraceCbPc ∧
    outsidePcEntry.Value = 0x40 ∧
    symbInText (textAt 0) outsidePcEntry = false ∧
    (elfReadSymbols (singleFS sameValueFile) syntheticModule emptyInfo).2.tracePCIdx 1 = true ∧
    (elfReadSymbols (singleFS sameValueFile) syntheticModule emptyInfo).2.tracePC 0x40 = true ∧
    sameValueSymbols[3]? = some outsideCmpEntry ∧
    outsideCmpEntry.Info &&& 0xf = elf.STT_NOTYPE ∧
    getTraceCallbackType outsideCmpEntry.Name = TraceCbCmp ∧
    outsideCmpEntry.Value = 0x80 ∧
    symbInText (textAt 0) outsideCmpEntry = false ∧
    (elfReadSymbols (singleFS sameValueFile) syntheticModule emptyInfo).2.traceCmpIdx 3 = true ∧
    (elfReadSymbols (singleFS sameValueFile) syntheticModule emptyInfo).2.traceCmp 0x80 = true :=
  ⟨rfl, rfl, rfl, by decide, by decide, rfl, by decide, by rfl, by rfl,
    rfl, by decide, by decide, rfl, by decide, by rfl, by rfl⟩

/-- Claim C25, amended.  After `elfReadSymbols` run from an empty
`symbolInfo`, `tracePC` (resp. `traceCmp`) contains an address `v` exactly
when some entry of type `STT_FUNC` or `STT_NOTYPE` whose name classifies as
trace-pc (resp. trace-cmp) has `Value = v` and lies inside the window of the
text section (with the 64-bit sums of the code).  Such a callback entry
outside the window has its index recorded, and its address is in the set
exactly when another callback entry of the same class, inside the window, has
the same value. -/
theorem elfReadSymbols_addresses (fs : FS) (module : Module) (file : elf.File)
    (text : elf.Section) (allSymbols : List elf.Symbol)
    (hopen : fs module.Path = .ok file) (htext : file.Section ".text" = some text)
    (hsyms : file.Symbols = .ok allSymbols) :
    (∀ v : Nat, (elfReadSymbols fs module emptyInfo).2.tracePC v = true ↔
      ∃ e ∈ allSymbols, (e.Info &&& 0xf = elf.STT_FUNC ∨ e.Info &&& 0xf = elf.STT_NOTYPE) ∧
        getTraceCallbackType e.Name = TraceCbPc ∧ e.Value = v ∧
        (e.Value ≥ text.Addr ∧ (e.Value + e.Size) % 2 ^ 64 ≤ (text.Addr + text.Size) % 2 ^ 64)) ∧
    (∀ v : Nat, (elfReadSymbols fs module emptyInfo).2.traceCmp v = true ↔
      ∃ e ∈ allSymbols, (e.Info &&& 0xf = elf.STT_FUNC ∨ e.Info &&& 0xf = elf.STT_NOTYPE) ∧
        getTraceCallbackType e.Name = TraceCbCmp ∧ e.Value = v ∧
        (e.Value ≥ text.Addr ∧ (e.Value + e.Size) % 2 ^ 64 ≤ (text.Addr + text.Size) % 2 ^ 64)) ∧
    (∀ (i : Nat) (e : elf.Symbol), allSymbols[i]? = some e →
      (e.Info &&& 0xf = elf.STT_FUNC ∨ e.Info &&& 0xf = elf.STT_NOTYPE) →
      ¬ (e.Value ≥ text.Addr ∧ (e.Value + e.Size) % 2 ^ 64 ≤ (text.Addr + text.Size) % 2 ^ 64) →
      (getTraceCallbackType e.Name = TraceCbPc →
        (elfReadSymbols fs module emptyInfo).2.tracePCIdx i = true ∧
        ((elfReadSymbols fs module emptyInfo).2.tracePC e.Value = true ↔
          ∃ e2 ∈ allSymbols, e2 ≠ e ∧
            (e2.Info &&& 0xf = elf.STT_FUNC ∨ e2.Info &&& 0xf = elf.STT_NOTYPE) ∧
            getTraceCallbackType e2.Name = TraceCbPc ∧ e2.Value = e.Value ∧
            (e2.Value ≥ text.Addr ∧
              (e2.Value + e2.Size) % 2 ^ 64 ≤ (text.Addr + text.Size) % 2 ^ 64))) ∧
      (getTraceCallbackType e.Name = TraceCbCmp →
        (elfReadSymbols fs module emptyInfo).2.traceCmpIdx i = true ∧
        ((elfReadSymbols fs module emptyInfo).2.traceCmp e.Value = true ↔
          ∃ e2 ∈ allSymbols, e2 ≠ e ∧
            (e2.Info &&& 0xf = elf.STT_FUNC ∨ e2.Info &&& 0xf = elf.STT_NOTYPE) ∧
            getTraceCallbackType e2.Name = TraceCbCmp ∧ e2.Value = e.Value ∧
            (e2.Value ≥ text.Addr ∧
              (e2.Value + e2.Size) % 2 ^ 64 ≤ (text.Addr + text.Size) % 2 ^ 64)))) := by
  rw [elfReadSymbols_snd_of_ok fs module emptyInfo file text allSymbols hopen htext hsyms]
  obtain ⟨-, hpcIdx, hcmpIdx, hpc, hcmp⟩ := readSymbolsLoop_snd module text allSymbols 0 []
    (if module.Name = "" then { emptyInfo with textAddr := text.Addr } else emptyInfo)
  have e1 : (if module.Name = "" then { emptyInfo with textAddr := text.Addr }
      else emptyInfo).tracePC = fun _ => false := by split_ifs <;> rfl
  have e2 : (if module.Name = "" then { emptyInfo with textAddr := text.Addr }
      else emptyInfo).traceCmp = fun _ => false := by split_ifs <;> rfl
  rw [e1] at hpc
  rw [e2] at hcmp
  have hin : ∀ e : elf.Symbol, symbInText text e = true ↔
      (e.Value ≥ text.Addr ∧ (e.Value + e.Size) % 2 ^ 64 ≤ (text.Addr + text.Size) % 2 ^ 64) := by
    intro e
    simp only [symbInText, u64add, decide_eq_true_eq]
  have hchar : ∀ (cb : Int) (v : Nat),
      (∃ e ∈ allSymbols, classifiedAs cb e ∧ symbInText text e = true ∧ e.Value = v) ↔
      ∃ e ∈ allSymbols, (e.Info &&& 0xf = elf.STT_FUNC ∨ e.Info &&& 0xf = elf.STT_NOTYPE) ∧
        getTraceCallbackType e.Name = cb ∧ e.Value = v ∧
        (e.Value ≥ text.Addr ∧ (e.Value + e.Size) % 2 ^ 64 ≤ (text.Addr + text.Size) % 2 ^ 64) := by
    intro cb v
    constructor
    · rintro ⟨e, he, hc, ht, hv⟩
      exact ⟨e, he, hc.1, hc.2, hv, (hin e).1 ht⟩
    · rintro ⟨e, he, hty, hc, hv, ht⟩
      exact ⟨e, he, ⟨hty, hc⟩, (hin e).2 ht, hv⟩
  have hpc2 : ∀ v : Nat, (readSymbolsLoop module text 0 allSymbols []
      (if module.Name = "" then { emptyInfo with textAddr := text.Addr }
        else emptyInfo)).2.tracePC v = true ↔
      ∃ e ∈ allSymbols, (e.Info &&& 0xf = elf.STT_FUNC ∨ e.Info &&& 0xf = elf.STT_NOTYPE) ∧
        getTraceCallbackType e.Name = TraceCbPc ∧ e.Value = v ∧
        (e.Value ≥ text.Addr ∧
          (e.Value + e.Size) % 2 ^ 64 ≤ (text.Addr + text.Size) % 2 ^ 64) := by
    intro v
    rw [hpc, ← hchar]; simp
  have hcmp2 : ∀ v : Nat, (readSymbolsLoop module text 0 allSymbols []
      (if module.Name = "" then { emptyInfo with textAddr := text.Addr }
        else emptyInfo)).2.traceCmp v = true ↔
      ∃ e ∈ allSymbols, (e.Info &&& 0xf = elf.STT_FUNC ∨ e.Info &&& 0xf = elf.STT_NOTYPE) ∧
        getTraceCallbackType e.Name = TraceCbCmp ∧ e.Value = v ∧
        (e.Value ≥ text.Addr ∧
          (e.Value + e.Size) % 2 ^ 64 ≤ (text.Addr + text.Size) % 2 ^ 64) := by
    intro v
    rw [hcmp, ← hchar]; simp
  refine ⟨hpc2, hcmp2, ?_⟩
  intro i e hi hty hout
  constructor
  · intro hc
    constructor
    · rw [hpcIdx]
      exact Or.inr ⟨i, e, hi, by simp, hty, hc⟩
    · rw [hpc2]
      constructor
      · rintro ⟨e2, he2, hty2, hc2, hv2, ht2⟩
        exact ⟨e2, he2, fun heq => hout (heq ▸ ht2), hty2, hc2, hv2, ht2⟩
      · rintro ⟨e2, he2, -, hty2, hc2, hv2, ht2⟩
        exact ⟨e2, he2, hty2, hc2, hv2, ht2⟩
  · intro hc
    constructor
    · rw [hcmpIdx]
      exact Or.inr ⟨i, e, hi, by simp, hty, hc⟩
    · rw [hcmp2]
      constructor
      · rintro ⟨e2, he2, hty2, hc2, hv2, ht2⟩
        exact ⟨e2, he2, fun heq => hout (heq ▸ ht2), hty2, hc2, hv2, ht2⟩
      · rintro ⟨e2, he2, -, hty2, hc2, hv2, ht2⟩
        exact ⟨e2, he2, hty2, hc2, hv2, ht2⟩

/-- Claim C25, amended, at the object with a trace-pc callback at `0x40`
inside the text section and an undefined one at `0x200` outside it: `0x40` is
recorded, `0x200` is not, and the index 1 of the entry outside is. -/
theorem elfReadSymbols_addresses_witness :
    (elfReadSymbols (singleFS callbackFile) syntheticModule emptyInfo).2.tracePC 0x40 = true ∧
    (elfReadSymbols (singleFS callbackFile) syntheticModule emptyInfo).2.tracePC 0x200 = false ∧
    (elfReadSymbols (singleFS callbackFile) syntheticModule emptyInfo).2.tracePCIdx 1 = true :=
  ⟨((elfReadSymbols_addresses (singleFS callbackFile) syntheticModule callbackFile (textAt 0)
      [{ Name := "__sanitizer_cov_trace_pc", Info := 0x12, Value := 0x40, Size := 0x10 },
       { Name := "__sanitizer_cov_trace_pc", Info := 0x10, Value := 0x200, Size := 0 },
       { Name := "__sanitizer_cov_trace_cmp8", Info := 0x12, Value := 0x50, Size := 0x10 }]
      rfl rfl rfl).1 0x40).2
      ⟨_, List.mem_cons_self _ _, by decide, by decide, rfl, by decide⟩,
   by rfl, by rfl⟩

/-- Claim C27.  After `elfReadSymbols` run from an empty `symbolInfo`,
`tracePCIdx` and `traceCmpIdx` are disjoint and every recorded index `k`
satisfies `0 <= k < number of symbols read`.  In `elfReadModuleCoverPoints`
one relocation record adds at most one address in total to the two lists,
and none unless it is of the call type; the number of emitted addresses is at
most the number of call-type records of the file. -/
theorem elfReadSymbols_index_sets (fs : FS) (arches : String → Arch) (target : Target)
    (module : Module) (file : elf.File) (text : elf.Section) (allSymbols : List elf.Symbol)
    (hopen : fs module.Path = .ok file) (htext : file.Section ".text" = some text)
    (hsyms : file.Symbols = .ok allSymbols) :
    (∀ k : Int, ¬ ((elfReadSymbols fs module emptyInfo).2.tracePCIdx k = true ∧
      (elfReadSymbols fs module emptyInfo).2.traceCmpIdx k = true)) ∧
    (∀ k : Int, ((elfReadSymbols fs module emptyInfo).2.tracePCIdx k = true ∨
        (elfReadSymbols fs module emptyInfo).2.traceCmpIdx k = true) →
      0 ≤ k ∧ k < (allSymbols.length : Int)) ∧
    (∀ (rel : elf.Rela64) (pcs : List Nat × List Nat),
      (addCoverPoint (arches target.Arch) module (elfReadSymbols fs module emptyInfo).2 rel
          pcs).1.length +
        (addCoverPoint (arches target.Arch) module (elfReadSymbols fs module emptyInfo).2 rel
          pcs).2.length ≤
      pcs.1.length + pcs.2.length +
        (if rel.Info % 2 ^ 32 = (arches target.Arch).callRelocType then 1 else 0)) ∧
    (elfReadModuleCoverPoints fs arches target module
        (elfReadSymbols fs module emptyInfo).2).1.1.length +
      (elfReadModuleCoverPoints fs arches target module
        (elfReadSymbols fs module emptyInfo).2).1.2.length ≤
      ((sectionsRelaRecords file.Sections).filter (fun rel =>
        decide (rel.Info % 2 ^ 32 = (arches target.Arch).callRelocType))).length := by
  refine ⟨?_, ?_, fun rel pcs => addCoverPoint_count _ _ _ rel pcs, ?_⟩
  · intro k
    rw [elfReadSymbols_snd_of_ok fs module emptyInfo file text allSymbols hopen htext hsyms]
    obtain ⟨-, hpcIdx, hcmpIdx, -, -⟩ := readSymbolsLoop_snd module text allSymbols 0 []
      (if module.Name = "" then { emptyInfo with textAddr := text.Addr } else emptyInfo)
    have e1 : (if module.Name = "" then { emptyInfo with textAddr := text.Addr }
        else emptyInfo).tracePCIdx = fun _ => false := by split_ifs <;> rfl
    have e2 : (if module.Name = "" then { emptyInfo with textAddr := text.Addr }
        else emptyInfo).traceCmpIdx = fun _ => false := by split_ifs <;> rfl
    rw [hpcIdx, hcmpIdx, e1, e2]
    rintro ⟨h1 | ⟨j1, a1, hj1, hk1, hc1⟩, h2 | ⟨j2, a2, hj2, hk2, hc2⟩⟩
    · exact absurd h1 (by simp)
    · exact absurd h1 (by simp)
    · exact absurd h2 (by simp)
    · have hj : j1 = j2 := by omega
      subst hj
      rw [hj1] at hj2
      have ha : a1 = a2 := Option.some.inj hj2
      subst ha
      have hne : TraceCbPc ≠ TraceCbCmp := by decide
      exact hne (hc1.2.symm.trans hc2.2)
  · intro k
    rw [elfReadSymbols_snd_of_ok fs module emptyInfo file text allSymbols hopen htext hsyms]
    obtain ⟨-, hpcIdx, hcmpIdx, -, -⟩ := readSymbolsLoop_snd module text allSymbols 0 []
      (if module.Name = "" then { emptyInfo with textAddr := text.Addr } else emptyInfo)
    have e1 : (if module.Name = "" then { emptyInfo with textAddr := text.Addr }
        else emptyInfo).tracePCIdx = fun _ => false := by split_ifs <;> rfl
    have e2 : (if module.Name = "" then { emptyInfo with textAddr := text.Addr }
        else emptyInfo).traceCmpIdx = fun _ => false := by split_ifs <;> rfl
    rw [hpcIdx, hcmpIdx, e1, e2]
    have hbound : ∀ (j : Nat) (a : elf.Symbol), allSymbols[j]? = some a →
        k = ((0 + j : Nat) : Int) → 0 ≤ k ∧ k < (allSymbols.length : Int) := by
      intro j a hj hk
      have hlt : j < allSymbols.length := by
        by_contra hc
        rw [List.getElem?_eq_none (by omega)] at hj
        exact Option.noConfusion hj
      omega
    rintro ((h | ⟨j, a, hj, hk, -⟩) | (h | ⟨j, a, hj, hk, -⟩))
    · exact absurd h (by simp)
    · exact hbound j a hj hk
    · exact absurd h (by simp)
    · exact hbound j a hj hk
  · unfold elfReadModuleCoverPoints
    rw [hopen]; simp only []
    have h := coverPointsLoop_count (arches target.Arch) module
      (elfReadSymbols fs module emptyInfo).2 file.Sections ([], [])
    simpa using h

/-- Claim C27, at the sample kernel image: three records, two of the call
type, two addresses. -/
theorem elfReadSymbols_index_sets_witness :
    (elfReadModuleCoverPoints kernelFS sampleArches { Arch := "amd64" } kernelModule
        (elfReadSymbols kernelFS kernelModule emptyInfo).2).1.1.length +
      (elfReadModuleCoverPoints kernelFS sampleArches { Arch := "amd64" } kernelModule
        (elfReadSymbols kernelFS kernelModule emptyInfo).2).1.2.length ≤
      ((sectionsRelaRecords kernelFile.Sections).filter (fun rel =>
        decide (rel.Info % 2 ^ 32 = (sampleArches "amd64").callRelocType))).length :=
  (elfReadSymbols_index_sets kernelFS sampleArches { Arch := "amd64" } kernelModule kernelFile
    kernelText kernelSymbols rfl rfl rfl).2.2.2

/-- Claim C28.  A relocation record that references symbol number 0 never
yields a cover point: with the `symbolInfo` that `elfReadSymbols` leaves when
run from an empty one, the looked-up index is -1, which is in neither index
set, so the record adds nothing to the lists, also when its type is the call
relocation type. -/
theorem null_symbol_ignored (fs : FS) (module : Module) (arch : Arch) (rel : elf.Rela64)
    (pcs : List Nat × List Nat) (hnull : elf.R_SYM64 rel.Info = 0) :
    symIndex rel = -1 ∧
    (elfReadSymbols fs module emptyInfo).2.tracePCIdx (-1) = false ∧
    (elfReadSymbols fs module emptyInfo).2.traceCmpIdx (-1) = false ∧
    addCoverPoint arch module (elfReadSymbols fs module emptyInfo).2 rel pcs = pcs := by
  have hidx : symIndex rel = -1 := by
    unfold symIndex
    rw [hnull]; rfl
  have hsets : (elfReadSymbols fs module emptyInfo).2.tracePCIdx (-1) = false ∧
      (elfReadSymbols fs module emptyInfo).2.traceCmpIdx (-1) = false := by
    rcases elfReadSymbols_snd_cases fs module emptyInfo with h | ⟨file, text, allSymbols, hopen,
      htext, hsyms⟩
    · rw [h]; exact ⟨rfl, rfl⟩
    · rw [elfReadSymbols_snd_of_ok fs module emptyInfo file text allSymbols hopen htext hsyms]
      obtain ⟨-, hpcIdx, hcmpIdx, -, -⟩ := readSymbolsLoop_snd module text allSymbols 0 []
        (if module.Name = "" then { emptyInfo with textAddr := text.Addr } else emptyInfo)
      have e1 : (if module.Name = "" then { emptyInfo with textAddr := text.Addr }
          else emptyInfo).tracePCIdx = fun _ => false := by split_ifs <;> rfl
      have e2 : (if module.Name = "" then { emptyInfo with textAddr := text.Addr }
          else emptyInfo).traceCmpIdx = fun _ => false := by split_ifs <;> rfl
      rw [e1] at hpcIdx
      rw [e2] at hcmpIdx
      constructor
      · rw [Bool.eq_false_iff]
        intro h
        rcases (hpcIdx (-1)).1 h with h | ⟨j, a, -, hk, -⟩
        · exact absurd h (by simp)
        · omega
      · rw [Bool.eq_false_iff]
        intro h
        rcases (hcmpIdx (-1)).1 h with h | ⟨j, a, -, hk, -⟩
        · exact absurd h (by simp)
        · omega
  refine ⟨hidx, hsets.1, hsets.2, ?_⟩
  unfold addCoverPoint
  rw [hidx, hsets.1, hsets.2]
  split_ifs <;> first | rfl | contradiction

/-- Claim C28, at a record of the call type for symbol number 0, after the
symbols of the sample kernel image are read. -/
theorem null_symbol_ignored_witness :
    addCoverPoint { relaOffset := 1, callRelocType := 4 } kernelModule
        (elfReadSymbols kernelFS kernelModule emptyInfo).2
        { Off := 0xffffffff81000205, Info := 4, Addend := -4 } ([], []) = ([], []) :=
  (null_symbol_ignored kernelFS kernelModule { relaOffset := 1, callRelocType := 4 }
    { Off := 0xffffffff81000205, Info := 4, Addend := -4 } ([], []) (by decide)).2.2.2

end backend

namespace csource

/-! ## The options and the removal of duplicate new lines -/

/-- Claim C23.  `Options.Check` returns an error exactly when `Collide` is set
without `Threaded`, or `Procs > 1` without `Repeat`, or `Sandbox` is
`namespace` without `UseTmpDir`; it returns nil for every other value; and
`Write` returns an error, whatever the generator of the source would do,
whenever `Check` returns an error. -/
theorem Check_error_iff (opts : Options) :
    ((∃ err, opts.Check = some err) ↔
      ((opts.Collide = true ∧ opts.Threaded = false) ∨
        (opts.Procs > 1 ∧ opts.Repeat = false) ∨
        (opts.Sandbox = "namespace" ∧ opts.UseTmpDir = false))) ∧
    (opts.Check = none ↔
      ¬ ((opts.Collide = true ∧ opts.Threaded = false) ∨
        (opts.Procs > 1 ∧ opts.Repeat = false) ∨
        (opts.Sandbox = "namespace" ∧ opts.UseTmpDir = false))) ∧
    (∀ (generate : Options → Except String (List UInt8)) (err : String),
      opts.Check = some err → Write generate opts = .error ("csource: invalid opts: " ++ err)) := by
  have hnone : opts.Check = none ↔
      ¬ ((opts.Collide = true ∧ opts.Threaded = false) ∨
        (opts.Procs > 1 ∧ opts.Repeat = false) ∨
        (opts.Sandbox = "namespace" ∧ opts.UseTmpDir = false)) := by
    unfold Options.Check
    cases opts.Threaded <;> cases opts.Collide <;> cases opts.Repeat <;> cases opts.UseTmpDir <;>
      by_cases hp : opts.Procs > 1 <;> by_cases hs : opts.Sandbox = "namespace" <;>
      simp [hp, hs]
  refine ⟨?_, hnone, ?_⟩
  · rw [← not_iff_not, ← hnone]
    cases opts.Check <;> simp
  · intro generate err herr
    unfold Write
    rw [herr]

/-- Claim C26.  The loop at the end of `Write` that removes duplicate new
lines terminates on every text: with `out0.length + 1` turns, and with any
larger number of turns, it breaks with the same result; the result contains
no three consecutive newlines, and a text that contains none is returned
unchanged.  `Write` returns that result when the options pass the check and
the generator yields `out0`. -/
theorem removeNewlinesLoop_terminates (out0 : List UInt8) :
    ∃ out, removeNewlinesLoop (out0.length + 1) out0 = some out ∧
      (∀ fuel, out0.length < fuel → removeNewlinesLoop fuel out0 = some out) ∧
      ¬ [10, 10, 10] <:+: out ∧
      (¬ [10, 10, 10] <:+: out0 → out = out0) ∧
      (∀ (generate : Options → Except String (List UInt8)) (opts : Options),
        opts.Check = none → generate opts = .ok out0 → Write generate opts = .ok out) := by
  obtain ⟨out, hout, hno, hsame⟩ := removeNewlinesLoop_spec (out0.length + 1) out0 (by omega)
  have hfuel : ∀ (f1 f2 : Nat) (l : List UInt8), l.length < f1 → l.length < f2 →
      removeNewlinesLoop f1 l = removeNewlinesLoop f2 l := by
    intro f1
    induction f1 with
    | zero => intro f2 l h; omega
    | succ f1 ih =>
      intro f2 l h1 h2
      obtain ⟨g, rfl⟩ : ∃ g, f2 = g + 1 := ⟨f2 - 1, by omega⟩
      rw [removeNewlinesLoop, removeNewlinesLoop]
      by_cases heq : l.length = (replaceNewlines l).length
      · rw [if_pos heq, if_pos heq]
      · rw [if_neg heq, if_neg heq]
        have hle := replaceNewlines_length_le l
        exact ih g _ (by omega) (by omega)
  refine ⟨out, hout, ?_, hno, hsame, ?_⟩
  · intro fuel hf
    rw [hfuel fuel (out0.length + 1) out0 hf (by omega)]
    exact hout
  · intro generate opts hcheck hgen
    unfold Write
    rw [hcheck]; simp only []
    rw [hgen]; simp only []
    rw [hout]

end csource
